import Mathlib

/-!
# gomax: request multiplexer, notification router and upload correlator

A shallow embedding of the client core of `gomax` (`client.go`, `client_methods.go`,
`errors.go`, `internal/constants/constants.go`, `internal/utils/formatter.go`,
`internal/utils/json.go`, `filters/filter.go`, `types/message.go`, `types/chat.go`,
`types/user.go`) together with theorems about it.

Conventions of the embedding

* A decoded frame (`map[string]any`) is a `JSON` object. JSON numbers are modelled by
  integers: every id, sequence number and opcode of the protocol is integral, and the
  conversions `int64(f)` / `int(f)` of such a number are the identity.
* Go strings are Lean strings; slicing works on the list of their characters.
* Struct decoding (`utils.FromMap`, i.e. `encoding/json`) matches field names exactly and
  checks the JSON kind of every field; the contents of nested records that the router
  never reads (`elements`, `attaches`, `link`, `reactionInfo`) are not decoded further.
* `go h.handler(ctx, m)` is recorded as an `Invocation` appended to the client's
  `spawned` log.
* The sequence counter is a 64-bit `int` with wrap-around (`wrapInt`).
* Concurrency is a transition system (`step`, `run`): one action is one critical
  section or one channel operation of one goroutine, and a schedule is a list of
  actions. Channels live in two heaps, one for the result slots of calls and one for the
  slots of upload waiters; a channel is named by its position in its heap.
* The constructor, the authentication flows and `Start` are sequential programs over an
  environment that fixes what each exchange, the code provider, the session store and
  the dial return; they report the effects they perform (`Effect`), in order.
* The HTTP retry loop runs over an environment that fixes the result of every attempt
  and whether the context is cancelled during a wait; durations are integers
  (nanoseconds) and the doubling goes through `float64` as in the source.
* A regular expression is a syntax tree with a matcher that lists the positions after a
  match.
* `reconnect` is its guard, its reconnection sequence and its deferred function, one
  atomic step each, for any number of concurrent calls; the sequence runs over an
  environment like that of `Start`.
* The markdown formatter works on the bytes of the text; the pattern of its blocks is
  given by its leftmost-first matches, and every slice is bounds-checked.
* The JSON codec acts on documents: integers are written exactly and every number is
  read back as the nearest `float64`.
-/

namespace Gomax

/-! ## JSON documents -/

/-- A decoded JSON document (`any` holding `nil`, `bool`, `float64`, `string`,
`[]interface{}` or `map[string]any`). -/
inductive JSON where
  | null : JSON
  | bool (b : Bool) : JSON
  | num (n : Int) : JSON
  | str (s : String) : JSON
  | arr (xs : List JSON) : JSON
  | obj (kvs : List (String × JSON)) : JSON

instance : Inhabited JSON := ⟨JSON.null⟩

/-- A Go `map[string]any`; `none` is the nil map. -/
abbrev GoMap := Option (List (String × JSON))

/-- Lookup in a list of key/value pairs. -/
def lookupKey : List (String × JSON) → String → Option JSON
  | [], _ => none
  | (k, v) :: rest, key => if k = key then some v else lookupKey rest key

/-- Indexing `m[key]` of a possibly nil map: `none` when the key is absent. -/
def GoMap.index (m : GoMap) (key : String) : Option JSON :=
  match m with
  | none => none
  | some kvs => lookupKey kvs key

/-- Type assertion `v.(map[string]any)` with the comma-ok result dropped: the nil map
when the value is absent or not an object. -/
def asMap : Option JSON → GoMap
  | some (JSON.obj kvs) => some kvs
  | _ => none

/-- Type assertion `v.(float64)` with its ok flag. -/
def asFloat : Option JSON → Option Int
  | some (JSON.num n) => some n
  | _ => none

/-- Type assertion `v.(float64)` with the ok flag dropped: zero when it fails. -/
def asFloatOrZero (v : Option JSON) : Int := (asFloat v).getD 0

/-- Type assertion `v.(string)` with the ok flag dropped. -/
def asStringOrEmpty : Option JSON → String
  | some (JSON.str s) => s
  | _ => ""

/-- Type assertion `v.([]interface{})` with the ok flag dropped. -/
def asSliceOrNil : Option JSON → List JSON
  | some (JSON.arr xs) => xs
  | _ => []

/-- A frame as it travels through the client: the decoded top-level object. -/
abbrev Frame := List (String × JSON)

/-! ## Opcodes and message statuses -/

/-- Opcode constants (values as listed in `mockserver/enums.go`). -/
def OpcodeSessionInit : Int := 6
/-- Opcode of the login request, which the client uses for its sync. -/
def OpcodeLogin : Int := 19
/-- Opcode of the sync request. -/
def OpcodeSync : Int := 21
/-- Opcode of the video upload reservation. -/
def OpcodeVideoUpload : Int := 82
/-- Opcode of the file upload reservation. -/
def OpcodeFileUpload : Int := 87
/-- Push opcode: message notification. -/
def OpcodeNotifMessage : Int := 128
/-- Push opcode: chat update. -/
def OpcodeNotifChat : Int := 135
/-- Push opcode: attach completion. -/
def OpcodeNotifAttach : Int := 136
/-- Push opcode: reactions changed. -/
def OpcodeNotifMsgReactionsChanged : Int := 155

/-- Status string of an edited message. -/
def MessageStatusEdited : String := "EDITED"
/-- Status string of a removed message. -/
def MessageStatusRemoved : String := "REMOVED"

/-! ## Decoding of struct fields -/

/-- Outcome of decoding a document into a Go struct: a value, an error returned by the
decoder, or a nil-pointer dereference inside a custom `UnmarshalJSON`. -/
inductive Decoded (α : Type) where
  | ok (a : α) : Decoded α
  | err : Decoded α
  | nilDeref : Decoded α
  deriving DecidableEq

/-- Bounds of `int64`. -/
def inInt64 (n : Int) : Bool := decide (-(2 : Int) ^ 63 ≤ n) && decide (n < (2 : Int) ^ 63)

/-- Field of Go type `int64`/`int`: absent or null leaves the zero value. -/
def fieldInt (kvs : List (String × JSON)) (key : String) : Option Int :=
  match lookupKey kvs key with
  | none => some 0
  | some JSON.null => some 0
  | some (JSON.num n) => if inInt64 n then some n else none
  | some _ => none

/-- Field of Go type `*int64`/`*int`: absent or null leaves nil. -/
def fieldIntPtr (kvs : List (String × JSON)) (key : String) : Option (Option Int) :=
  match lookupKey kvs key with
  | none => some none
  | some JSON.null => some none
  | some (JSON.num n) => if inInt64 n then some (some n) else none
  | some _ => none

/-- Field of a Go string type. -/
def fieldString (kvs : List (String × JSON)) (key : String) : Option String :=
  match lookupKey kvs key with
  | none => some ""
  | some JSON.null => some ""
  | some (JSON.str s) => some s
  | some _ => none

/-- Field of a Go pointer-to-string type. -/
def fieldStringPtr (kvs : List (String × JSON)) (key : String) : Option (Option String) :=
  match lookupKey kvs key with
  | none => some none
  | some JSON.null => some none
  | some (JSON.str s) => some (some s)
  | some _ => none

/-- Field of a Go slice type: absent, null or an array (elements not decoded). -/
def fieldSliceKind (kvs : List (String × JSON)) (key : String) : Option Unit :=
  match lookupKey kvs key with
  | none => some ()
  | some JSON.null => some ()
  | some (JSON.arr _) => some ()
  | some _ => none

/-- Field of a Go pointer-to-struct type: `some true` when an object is present
(contents not decoded), `some false` when absent or null. -/
def fieldStructPtrKind (kvs : List (String × JSON)) (key : String) : Option Bool :=
  match lookupKey kvs key with
  | none => some false
  | some JSON.null => some false
  | some (JSON.obj _) => some true
  | some _ => none

/-- Field of a Go pointer-to-bool type. -/
def fieldBoolPtr (kvs : List (String × JSON)) (key : String) : Option (Option Bool) :=
  match lookupKey kvs key with
  | none => some none
  | some JSON.null => some none
  | some (JSON.bool b) => some (some b)
  | some _ => none

/-- Field of a Go map type: absent, null or an object (entries not decoded). -/
def fieldMapKind (kvs : List (String × JSON)) (key : String) : Option Unit :=
  match lookupKey kvs key with
  | none => some ()
  | some JSON.null => some ()
  | some (JSON.obj _) => some ()
  | some _ => none

/-- Value of a string of decimal digits, most significant digit first. -/
def digitsValue (ds : List Char) : Nat :=
  ds.foldl (fun acc d => 10 * acc + (d.toNat - 48)) 0

/-- The call `strconv.ParseInt(s, 10, 64)`: an optional sign followed by one or more
decimal digits, within the range of `int64`. -/
def ParseInt (s : String) : Option Int :=
  let body : Bool × List Char :=
    match s.data with
    | '-' :: r => (true, r)
    | '+' :: r => (false, r)
    | r => (false, r)
  if body.2.isEmpty || !body.2.all Char.isDigit then none
  else
    let v : Int :=
      if body.1 then -((digitsValue body.2 : Nat) : Int) else (digitsValue body.2 : Nat)
    if inInt64 v then some v else none

/-! ## Messages -/

/-- The record `types.Message`, with the fields the router and the filters read. -/
structure Message where
  ID : Int
  ChatID : Option Int
  Sender : Option Int
  Text : String
  Time : Int
  Type_ : String
  Status : Option String
  Reactions : Bool
  Link : Bool
  Options : Option Int
  deriving DecidableEq

/-- Conversion of the `id` field in `Message.UnmarshalJSON`: a string is parsed as a
decimal integer (an error when it is not one), a number is converted, anything else
gives 0. -/
def messageID (v : Option JSON) : Option Int :=
  match v with
  | some (JSON.str s) => ParseInt s
  | some (JSON.num n) => some n
  | _ => some 0

/-- The method `Message.UnmarshalJSON` on a JSON object. -/
def unmarshalMessageObj (kvs : List (String × JSON)) : Option Message :=
  if (fieldIntPtr kvs "chatId").isSome &&
      (fieldIntPtr kvs "sender").isSome &&
      (fieldString kvs "text").isSome &&
      (fieldInt kvs "time").isSome &&
      (fieldString kvs "type").isSome &&
      (fieldSliceKind kvs "elements").isSome &&
      (fieldSliceKind kvs "attaches").isSome &&
      (fieldStringPtr kvs "status").isSome &&
      (fieldStructPtrKind kvs "reactionInfo").isSome &&
      (fieldStructPtrKind kvs "link").isSome &&
      (fieldIntPtr kvs "options").isSome &&
      (messageID (lookupKey kvs "id")).isSome then
    some { ID := (messageID (lookupKey kvs "id")).getD 0,
           ChatID := (fieldIntPtr kvs "chatId").getD none,
           Sender := (fieldIntPtr kvs "sender").getD none,
           Text := (fieldString kvs "text").getD "",
           Time := (fieldInt kvs "time").getD 0,
           Type_ := (fieldString kvs "type").getD "",
           Status := (fieldStringPtr kvs "status").getD none,
           Reactions := (fieldStructPtrKind kvs "reactionInfo").getD false,
           Link := (fieldStructPtrKind kvs "link").getD false,
           Options := (fieldIntPtr kvs "options").getD none }
  else none

/-- The call `utils.FromMap(payload, message)` for a `*types.Message`: the map is
marshalled and unmarshalled through `Message.UnmarshalJSON`. A nil map is marshalled as
`null`, which sets the auxiliary pointer of `UnmarshalJSON` to nil before its `ID` is
read. -/
def FromMapMessage (payload : GoMap) : Decoded Message :=
  match payload with
  | none => Decoded.nilDeref
  | some kvs =>
    match unmarshalMessageObj kvs with
    | some m => Decoded.ok m
    | none => Decoded.err

/-! ## Filters -/

/-- Slice `s[i:j]` of a string, as a list of characters. -/
def goSlice (s : List Char) (i j : Nat) : List Char := (s.drop i).take (j - i)

/-- Loop of `containsMiddle`: `for i := 0; i <= len(s)-len(substr); i++`. -/
def containsMiddle (s substr : List Char) : Bool :=
  (List.range (((s.length : Int) - (substr.length : Int) + 1).toNat)).any
    (fun i => decide (goSlice s i (i + substr.length) = substr))

/-- The hand-written `contains` of `filters/filter.go`. -/
def contains (s substr : List Char) : Bool :=
  decide (s.length ≥ substr.length) &&
    (decide (s = substr) || decide (substr.length = 0) ||
      (decide (s.length > substr.length) &&
        (decide (goSlice s 0 substr.length = substr) ||
          decide (goSlice s (s.length - substr.length) s.length = substr) ||
          containsMiddle s substr)))

/-- The record `filters.Filter`; `Text = none` is the nil slice. -/
structure Filter where
  ChatID : Option Int := none
  UserID : Option Int := none
  Text : Option (List String) := none
  Status : Option String := none
  Type_ : Option String := none
  TextContains : Option String := none
  ReactionInfo : Option Bool := none
  deriving DecidableEq

/-- The method `Filter.Match`. -/
def Filter.Match (f : Filter) (msg : Message) : Bool :=
  if f.ChatID.isSome && (msg.ChatID.isNone || msg.ChatID != f.ChatID) then false
  else if f.UserID.isSome && (msg.Sender.isNone || msg.Sender != f.UserID) then false
  else if (f.Text.getD []).any (fun t => !contains msg.Text.data t.data) then false
  else if f.TextContains.isSome &&
      !contains msg.Text.data ((f.TextContains.getD "").data) then false
  else if f.Status.isSome && (msg.Status.isNone || msg.Status != f.Status) then false
  else if f.Type_.isSome && some msg.Type_ != f.Type_ then false
  else if f.ReactionInfo = some true && !msg.Reactions then false
  else if f.ReactionInfo = some false && msg.Reactions then false
  else true

/-! ## Chats, dialogs, profile, reactions -/

/-- The record `types.Chat` (also `types.Channel`). -/
structure Chat where
  ID : Int
  Type_ : String
  Title : Option String
  Owner : Int
  Access : String
  ParticipantsCount : Int
  Description : Option String
  Link : Option String
  BaseIconURL : Option String
  BaseRawIconURL : Option String
  CID : Int
  Created : Int
  JoinTime : Int
  LastMessage : Bool
  LastEventTime : Int
  LastDelayedUpdateTime : Int
  MessagesCount : Int
  Modified : Int
  PrevMessageID : Option String
  Restrictions : Option Int
  Status : String
  deriving DecidableEq

/-- The record `types.Dialog`. -/
structure Dialog where
  ID : Int
  Owner : Int
  Type_ : String
  LastMessage : Bool
  CID : Option Int
  HasBots : Option Bool
  JoinTime : Int
  Created : Int
  LastFireDelayedError : Int
  LastDelayedUpdateTime : Int
  PrevMessageID : Option String
  Modified : Int
  LastEventTime : Int
  Status : String
  deriving DecidableEq

/-- The record `types.Me`. -/
structure Me where
  ID : Int
  Phone : String
  AccountStatus : Int
  UpdateTime : Int
  deriving DecidableEq

/-- The record `types.ReactionCounter`. -/
structure ReactionCounter where
  Count : Int
  Reaction : String
  deriving DecidableEq

/-- The record `types.ReactionInfo` as built by `handleReactionChange`. -/
structure ReactionInfo where
  TotalCount : Int
  YourReaction : String
  Counters : List ReactionCounter
  deriving DecidableEq

/-- Decoding of a JSON object into `types.Chat`. -/
def unmarshalChatObj (kvs : List (String × JSON)) : Option Chat :=
  if (fieldInt kvs "id").isSome &&
      (fieldString kvs "type").isSome &&
      (fieldStringPtr kvs "title").isSome &&
      (fieldInt kvs "owner").isSome &&
      (fieldString kvs "access").isSome &&
      (fieldInt kvs "participantsCount").isSome &&
      (fieldSliceKind kvs "admins").isSome &&
      (fieldStringPtr kvs "description").isSome &&
      (fieldStringPtr kvs "link").isSome &&
      (fieldStringPtr kvs "baseIconUrl").isSome &&
      (fieldStringPtr kvs "baseRawIconUrl").isSome &&
      (fieldInt kvs "cid").isSome &&
      (fieldInt kvs "created").isSome &&
      (fieldInt kvs "joinTime").isSome &&
      (fieldStructPtrKind kvs "lastMessage").isSome &&
      (fieldInt kvs "lastEventTime").isSome &&
      (fieldInt kvs "lastDelayedUpdateTime").isSome &&
      (fieldInt kvs "messagesCount").isSome &&
      (fieldInt kvs "modified").isSome &&
      (fieldMapKind kvs "options").isSome &&
      (fieldStringPtr kvs "prevMessageId").isSome &&
      (fieldIntPtr kvs "restrictions").isSome &&
      (fieldString kvs "status").isSome then
    some { ID := (fieldInt kvs "id").getD 0,
           Type_ := (fieldString kvs "type").getD "",
           Title := (fieldStringPtr kvs "title").getD none,
           Owner := (fieldInt kvs "owner").getD 0,
           Access := (fieldString kvs "access").getD "",
           ParticipantsCount := (fieldInt kvs "participantsCount").getD 0,
           Description := (fieldStringPtr kvs "description").getD none,
           Link := (fieldStringPtr kvs "link").getD none,
           BaseIconURL := (fieldStringPtr kvs "baseIconUrl").getD none,
           BaseRawIconURL := (fieldStringPtr kvs "baseRawIconUrl").getD none,
           CID := (fieldInt kvs "cid").getD 0,
           Created := (fieldInt kvs "created").getD 0,
           JoinTime := (fieldInt kvs "joinTime").getD 0,
           LastMessage := (fieldStructPtrKind kvs "lastMessage").getD false,
           LastEventTime := (fieldInt kvs "lastEventTime").getD 0,
           LastDelayedUpdateTime := (fieldInt kvs "lastDelayedUpdateTime").getD 0,
           MessagesCount := (fieldInt kvs "messagesCount").getD 0,
           Modified := (fieldInt kvs "modified").getD 0,
           PrevMessageID := (fieldStringPtr kvs "prevMessageId").getD none,
           Restrictions := (fieldIntPtr kvs "restrictions").getD none,
           Status := (fieldString kvs "status").getD "" }
  else none

/-- The zero value `types.Chat{}`. -/
def Chat.zero : Chat :=
  { ID := 0, Type_ := "", Title := none, Owner := 0, Access := "", ParticipantsCount := 0,
    Description := none, Link := none, BaseIconURL := none, BaseRawIconURL := none,
    CID := 0, Created := 0, JoinTime := 0, LastMessage := false, LastEventTime := 0,
    LastDelayedUpdateTime := 0, MessagesCount := 0, Modified := 0, PrevMessageID := none,
    Restrictions := none, Status := "" }

/-- The call `utils.FromMap(m, chat)` for a `*types.Chat`: a nil map is marshalled as `null`,
which leaves the zero value and reports no error. -/
def FromMapChat (m : GoMap) : Option Chat :=
  match m with
  | none => some Chat.zero
  | some kvs => unmarshalChatObj kvs

/-- Decoding of a JSON object into `types.Dialog`. -/
def unmarshalDialogObj (kvs : List (String × JSON)) : Option Dialog :=
  if (fieldInt kvs "id").isSome &&
      (fieldInt kvs "owner").isSome &&
      (fieldString kvs "type").isSome &&
      (fieldStructPtrKind kvs "lastMessage").isSome &&
      (fieldIntPtr kvs "cid").isSome &&
      (fieldBoolPtr kvs "hasBots").isSome &&
      (fieldInt kvs "joinTime").isSome &&
      (fieldInt kvs "created").isSome &&
      (fieldInt kvs "lastFireDelayedErrorTime").isSome &&
      (fieldInt kvs "lastDelayedUpdateTime").isSome &&
      (fieldStringPtr kvs "prevMessageId").isSome &&
      (fieldMapKind kvs "options").isSome &&
      (fieldInt kvs "modified").isSome &&
      (fieldInt kvs "lastEventTime").isSome &&
      (fieldString kvs "status").isSome then
    some { ID := (fieldInt kvs "id").getD 0,
           Owner := (fieldInt kvs "owner").getD 0,
           Type_ := (fieldString kvs "type").getD "",
           LastMessage := (fieldStructPtrKind kvs "lastMessage").getD false,
           CID := (fieldIntPtr kvs "cid").getD none,
           HasBots := (fieldBoolPtr kvs "hasBots").getD none,
           JoinTime := (fieldInt kvs "joinTime").getD 0,
           Created := (fieldInt kvs "created").getD 0,
           LastFireDelayedError := (fieldInt kvs "lastFireDelayedErrorTime").getD 0,
           LastDelayedUpdateTime := (fieldInt kvs "lastDelayedUpdateTime").getD 0,
           PrevMessageID := (fieldStringPtr kvs "prevMessageId").getD none,
           Modified := (fieldInt kvs "modified").getD 0,
           LastEventTime := (fieldInt kvs "lastEventTime").getD 0,
           Status := (fieldString kvs "status").getD "" }
  else none

/-- The zero value `types.Dialog{}`. -/
def Dialog.zero : Dialog :=
  { ID := 0, Owner := 0, Type_ := "", LastMessage := false, CID := none, HasBots := none,
    JoinTime := 0, Created := 0, LastFireDelayedError := 0, LastDelayedUpdateTime := 0,
    PrevMessageID := none, Modified := 0, LastEventTime := 0, Status := "" }

/-- The call `utils.FromMap(m, dialog)` for a `*types.Dialog`. -/
def FromMapDialog (m : GoMap) : Option Dialog :=
  match m with
  | none => some Dialog.zero
  | some kvs => unmarshalDialogObj kvs

/-- The call `utils.FromMap(contact, me)` for a `*types.Me`, on a non-nil map. -/
def unmarshalMeObj (kvs : List (String × JSON)) : Option Me :=
  if (fieldInt kvs "id").isSome &&
      (fieldString kvs "phone").isSome &&
      (fieldSliceKind kvs "names").isSome &&
      (fieldInt kvs "accountStatus").isSome &&
      (fieldInt kvs "updateTime").isSome &&
      (fieldSliceKind kvs "options").isSome then
    some { ID := (fieldInt kvs "id").getD 0,
           Phone := (fieldString kvs "phone").getD "",
           AccountStatus := (fieldInt kvs "accountStatus").getD 0,
           UpdateTime := (fieldInt kvs "updateTime").getD 0 }
  else none

/-- The call `utils.FromMap(cMap, &counter)` for a `types.ReactionCounter`. -/
def FromMapReactionCounter (m : GoMap) : Option ReactionCounter :=
  match m with
  | none => some { Count := 0, Reaction := "" }
  | some kvs =>
    if (fieldInt kvs "count").isSome && (fieldString kvs "reaction").isSome then
      some { Count := (fieldInt kvs "count").getD 0,
             Reaction := (fieldString kvs "reaction").getD "" }
    else none

/-! ## Handlers and spawned goroutines -/

/-- The record `messageHandler`: the callback is identified by its position in the
handler list; `filter = none` is the nil filter. -/
structure messageHandler where
  filter : Option Filter
  deriving DecidableEq

/-- The guard `h.filter == nil || h.filter.Match(message)`. -/
def messageHandler.accepts (h : messageHandler) (m : Message) : Bool :=
  match h.filter with
  | none => true
  | some f => f.Match m

/-- Handler categories of the client. -/
inductive Category where
  | message | edit | delete | chatUpdate | reaction
  deriving DecidableEq

/-- Argument passed to a spawned handler. -/
inductive Event where
  | message (m : Message) : Event
  | chat (c : Chat) : Event
  | reaction (messageID : String) (chatID : Int) (info : ReactionInfo) : Event
  deriving DecidableEq

/-- One spawned handler goroutine (`go h.handler(ctx, ...)`): the category and the
position of the handler in its list, and the argument it received. -/
structure Invocation where
  cat : Category
  idx : Nat
  ev : Event
  deriving DecidableEq

/-- The loop `for _, h := range hs { if h.filter == nil || h.filter.Match(m) { go ... } }`,
started at position `i`. -/
def dispatchFrom (cat : Category) (m : Message) : Nat → List messageHandler → List Invocation
  | _, [] => []
  | i, h :: rest =>
    if h.accepts m then
      { cat := cat, idx := i, ev := Event.message m } :: dispatchFrom cat m (i + 1) rest
    else dispatchFrom cat m (i + 1) rest

/-- The dispatch loop over a whole handler list. -/
def dispatch (cat : Category) (m : Message) (hs : List messageHandler) : List Invocation :=
  dispatchFrom cat m 0 hs

/-- The loop `for _, handler := range hs { go handler(...) }` over `n` unfiltered handlers. -/
def dispatchAll (cat : Category) (ev : Event) (n : Nat) : List Invocation :=
  (List.range n).map (fun i => { cat := cat, idx := i, ev := ev })

/-! ## Channels and registries -/

/-- A channel `make(chan map[string]any, 1)`: its buffer (a sent frame is stored as the
map it is; capacity 1) and whether it has been closed. -/
structure Chan where
  buf : List GoMap
  closed : Bool

/-- The channel returned by `make`. -/
def Chan.fresh : Chan := { buf := [], closed := false }

/-- Whether a channel is open with an empty buffer. -/
def Chan.isFresh (ch : Chan) : Bool := ch.buf.isEmpty && !ch.closed

/-- Whether a receive `<-ch` can proceed: a value is buffered or the channel is closed. -/
def Chan.canRecv (ch : Chan) : Bool := !ch.buf.isEmpty || ch.closed

/-- The value obtained by `<-ch`: the oldest buffered value, or the zero value (the nil
map) of a closed and drained channel. -/
def Chan.recvValue (ch : Chan) : GoMap :=
  match ch.buf with
  | v :: _ => v
  | [] => none

/-- The channel after a receive. -/
def Chan.afterRecv (ch : Chan) : Chan := { ch with buf := ch.buf.tail }

/-- Outcome of `select { case ch <- msg: default: }` or of `close(ch)`. -/
inductive ChanOp where
  | done | dropped | panicked
  deriving DecidableEq

/-- Non-blocking send on a channel of capacity 1: a send on a closed channel panics, a
full buffer selects the `default` branch. -/
def Chan.trySend (ch : Chan) (msg : Frame) : Chan × ChanOp :=
  if ch.closed then (ch, ChanOp.panicked)
  else if ch.buf.length < 1 then ({ ch with buf := ch.buf ++ [some msg] }, ChanOp.done)
  else (ch, ChanOp.dropped)

/-- The call `close(ch)`; closing a closed channel panics. -/
def Chan.close (ch : Chan) : Chan × ChanOp :=
  if ch.closed then (ch, ChanOp.panicked) else ({ ch with closed := true }, ChanOp.done)

/-- Channels are heap objects; a heap is the list of the channels allocated so far and
a channel is named by its position. -/
abbrev Heap := List Chan

/-- Non-blocking send to the channel at position `id`. -/
def Heap.trySend (h : Heap) (id : Nat) (msg : Frame) : Heap × ChanOp :=
  match h[id]? with
  | some ch => (h.set id (ch.trySend msg).1, (ch.trySend msg).2)
  | none => (h, ChanOp.dropped)

/-- Closing of the channel at position `id`. -/
def Heap.close (h : Heap) (id : Nat) : Heap × ChanOp :=
  match h[id]? with
  | some ch => (h.set id ch.close.1, ch.close.2)
  | none => (h, ChanOp.dropped)

/-- Closing of several channels in turn; reports whether some `close` panicked. -/
def Heap.closeAll (h : Heap) : List Nat → Heap × Bool
  | [] => (h, false)
  | id :: rest =>
    let r := Heap.closeAll (h.close id).1 rest
    (r.1, decide ((h.close id).2 = ChanOp.panicked) || r.2)

/-- A Go map from integer keys to channels (`map[int]chan ...`, `map[int64]chan ...`). -/
abbrev Registry := List (Int × Nat)

/-- Lookup `ch, ok := m[k]`. -/
def Registry.get : Registry → Int → Option Nat
  | [], _ => none
  | (k, v) :: rest, key => if k = key then some v else Registry.get rest key

/-- The call `delete(m, k)`. -/
def Registry.del (r : Registry) (key : Int) : Registry := r.filter (fun e => decide (e.1 ≠ key))

/-- Assignment `m[k] = ch`. -/
def Registry.put (r : Registry) (key : Int) (ch : Nat) : Registry := (key, ch) :: r.del key

/-! ## The client -/

/-- The record `MaxClient`: the fields the core reads and writes, the two channel heaps
(result slots of calls, slots of upload waiters), the log of spawned handler goroutines
and a flag recording a runtime panic. -/
structure MaxClient where
  token : String
  ws : Bool
  isConnected : Bool
  seq : Int
  pending : Registry
  respSlots : Heap
  incoming : List Frame
  outgoing : List Frame
  Me : Option Me
  Chats : List Chat
  Dialogs : List Dialog
  Channels : List Chat
  onMessageHandlers : List messageHandler
  onMessageEditHandlers : List messageHandler
  onMessageDeleteHandlers : List messageHandler
  onChatUpdate : Nat
  onReactionChange : Nat
  fileUploadWaiters : Registry
  waitSlots : Heap
  spawned : List Invocation
  panicked : Bool

/-- Capacity of the `incoming` and `outgoing` channels (`NewMaxClient`). -/
def queueCap : Nat := 128

/-- The client returned by `NewMaxClient`, with the handlers registered during setup. -/
def NewMaxClient (token : String) (onMessage onEdit onDelete : List messageHandler)
    (onChat onReaction : Nat) : MaxClient :=
  { token := token, ws := false, isConnected := false, seq := 0, pending := [],
    respSlots := [], incoming := [], outgoing := [], Me := none, Chats := [],
    Dialogs := [], Channels := [], onMessageHandlers := onMessage,
    onMessageEditHandlers := onEdit, onMessageDeleteHandlers := onDelete,
    onChatUpdate := onChat, onReactionChange := onReaction, fileUploadWaiters := [],
    waitSlots := [], spawned := [], panicked := false }

/-- Two's complement wrap-around of a 64-bit `int`. -/
def wrapInt (n : Int) : Int := (n + 2 ^ 63) % 2 ^ 64 - 2 ^ 63

/-- The method `nextSeq`: `c.seq++; return c.seq`. -/
def nextSeq (c : MaxClient) : MaxClient × Int :=
  ({ c with seq := wrapInt (c.seq + 1) }, wrapInt (c.seq + 1))

/-- The client after `k` calls of `nextSeq`. -/
def nextSeqIter (c : MaxClient) : Nat → MaxClient
  | 0 => c
  | k + 1 => (nextSeq (nextSeqIter c k)).1

/-- The value returned by the `k`-th call of `nextSeq` on a client, for `k ≥ 1`. -/
def kthSeq (c : MaxClient) (k : Nat) : Int := (nextSeq (nextSeqIter c (k - 1))).2

/-- The method `handleMessageNotification`. -/
def handleMessageNotification (c : MaxClient) (msg : Frame) : MaxClient :=
  let payload := asMap (lookupKey msg "payload")
  match FromMapMessage payload with
  | Decoded.err => c
  | Decoded.nilDeref => { c with panicked := true }
  | Decoded.ok message =>
    let byStatus : List Invocation :=
      match message.Status with
      | some st =>
        if st = MessageStatusEdited then dispatch Category.edit message c.onMessageEditHandlers
        else if st = MessageStatusRemoved then
          dispatch Category.delete message c.onMessageDeleteHandlers
        else []
      | none => []
    { c with spawned := c.spawned ++ byStatus
                          ++ dispatch Category.message message c.onMessageHandlers }

/-- One branch of `handleFileUploadNotification`: `if id > 0 { ch, ok := waiters[id];
if ok { delete(waiters, id); select { case ch <- msg: default: } } }`. -/
def resolveWaiter (c : MaxClient) (id : Int) (msg : Frame) : MaxClient :=
  if id > 0 then
    match c.fileUploadWaiters.get id with
    | some ch =>
      { c with fileUploadWaiters := c.fileUploadWaiters.del id,
               waitSlots := (c.waitSlots.trySend ch msg).1,
               panicked := c.panicked || decide ((c.waitSlots.trySend ch msg).2 = ChanOp.panicked) }
    | none => c
  else c

/-- The method `handleFileUploadNotification`. -/
def handleFileUploadNotification (c : MaxClient) (msg : Frame) : MaxClient :=
  let payload := asMap (lookupKey msg "payload")
  let fileID := asFloatOrZero (payload.index "fileId")
  let videoID := asFloatOrZero (payload.index "videoId")
  resolveWaiter (resolveWaiter c fileID msg) videoID msg

/-- The method `handleReactionChange`. -/
def handleReactionChange (c : MaxClient) (msg : Frame) : MaxClient :=
  let payload := asMap (lookupKey msg "payload")
  let chatID := asFloatOrZero (payload.index "chatId")
  let messageID := asStringOrEmpty (payload.index "messageId")
  let totalCount := asFloatOrZero (payload.index "totalCount")
  let yourReaction := asStringOrEmpty (payload.index "yourReaction")
  let countersData := asSliceOrNil (payload.index "counters")
  let counters := countersData.filterMap (fun cData => FromMapReactionCounter (asMap (some cData)))
  let reactionInfo : ReactionInfo :=
    { TotalCount := totalCount, YourReaction := yourReaction, Counters := counters }
  let ev := Event.reaction messageID chatID reactionInfo
  { c with spawned := c.spawned ++ dispatchAll Category.reaction ev c.onReactionChange }

/-- The loop of `updateChatCache`: replace the first entry with the same id, else append. -/
def replaceOrAppend (chat : Chat) : List Chat → List Chat
  | [] => [chat]
  | existing :: rest =>
    if existing.ID = chat.ID then chat :: rest else existing :: replaceOrAppend chat rest

/-- The method `updateChatCache`. -/
def updateChatCache (c : MaxClient) (chat : Chat) : MaxClient :=
  { c with Chats := replaceOrAppend chat c.Chats }

/-- The method `handleChatUpdate`. -/
def handleChatUpdate (c : MaxClient) (msg : Frame) : MaxClient :=
  let payload := asMap (lookupKey msg "payload")
  let chatData := asMap (payload.index "chat")
  match FromMapChat chatData with
  | none => c
  | some chat =>
    let c1 := updateChatCache c chat
    let ev := Event.chat chat
    { c1 with spawned := c1.spawned ++ dispatchAll Category.chatUpdate ev c1.onChatUpdate }

/-- Body of the loop over `chatsData` in `handleSyncResponse`. -/
def syncChat (c : MaxClient) (chatData : JSON) : MaxClient :=
  let chatMap := asMap (some chatData)
  let chatType := asStringOrEmpty (chatMap.index "type")
  match FromMapChat chatMap with
  | none => c
  | some chat =>
    if chatType = "DIALOG" then
      match FromMapDialog chatMap with
      | some dialog => { c with Dialogs := c.Dialogs ++ [dialog] }
      | none => c
    else if chatType = "CHAT" then { c with Chats := c.Chats ++ [chat] }
    else if chatType = "CHANNEL" then { c with Channels := c.Channels ++ [chat] }
    else c

/-- The method `handleSyncResponse`. -/
def handleSyncResponse (c : MaxClient) (msg : Frame) : MaxClient :=
  let payload := asMap (lookupKey msg "payload")
  let c1 : MaxClient :=
    match asFloat (lookupKey msg "seq") with
    | some seqVal => if seqVal > 0 then { c with Chats := [], Dialogs := [], Channels := [] } else c
    | none => c
  let chatsData := asSliceOrNil (payload.index "chats")
  let c2 := chatsData.foldl syncChat c1
  let profile := asMap (payload.index "profile")
  match asMap (profile.index "contact") with
  | some contact =>
    match unmarshalMeObj contact with
    | some me => { c2 with Me := some me }
    | none => c2
  | none => c2

/-! ## Calls, uploads, reader, writer and Close as a transition system

Every goroutine is a small program counter; an `Action` is one atomic step of one
goroutine (a critical section under one of the client's locks, or one channel
operation). Cancellation of a caller's context, expiry of a timer and a read failure of
the transport are decided by the environment, so the corresponding actions are enabled
whenever the goroutine is at the matching `select`. -/

/-- The two request functions of the multiplexer. -/
inductive CallKind where
  | sendAndWait | sendAndWaitResponse
  deriving DecidableEq

/-- Errors returned by a call: `ctx.Err()` or the timeout error. -/
inductive CallErr where
  | ctxErr | timeout
  deriving DecidableEq

/-- Program counter of one `sendAndWait` / `sendAndWaitResponse` call. -/
inductive CallPc where
  | start : CallPc
  | allocated (seq : Int) : CallPc
  | registered (seq : Int) (ch : Nat) : CallPc
  | waiting (seq : Int) (ch : Nat) : CallPc
  | returned (seq : Int) (resp : GoMap) (err : Option CallErr) : CallPc

/-- One call: which function, its arguments, and where it stands. -/
structure Call where
  kind : CallKind
  opcode : Int
  payload : GoMap
  pc : CallPc

/-- Protocol version constant. -/
def ProtocolVersion : Int := 11
/-- Protocol command constant (0 = request). -/
def ProtocolCommand : Int := 0

/-- The map `msg` built by `sendAndWait` and `sendAndWaitResponse`. -/
def requestFrame (seq opcode : Int) (payload : GoMap) : Frame :=
  [("ver", JSON.num ProtocolVersion), ("cmd", JSON.num ProtocolCommand),
   ("seq", JSON.num seq), ("opcode", JSON.num opcode),
   ("payload", match payload with
               | some kvs => JSON.obj kvs
               | none => JSON.null)]

/-- The two upload functions that wait for an attach completion. -/
inductive UploadKind where
  | uploadFile | uploadVideo
  deriving DecidableEq

/-- The attachment payload returned by an upload. -/
inductive AttachPayload where
  | file (fileID : Int) : AttachPayload
  | video (videoID : Int) (token : String) : AttachPayload
  deriving DecidableEq

/-- Program counter of the tail of `uploadFile` / `uploadVideo`, from the point where
the HTTP upload has answered 200 for the resource id reserved by the server. -/
inductive UploadPc where
  | uploaded (id : Int) : UploadPc
  | waiting (id : Int) (ch : Nat) : UploadPc
  | returned (res : Option AttachPayload) (err : Option CallErr) : UploadPc

/-- One upload: which function, the video token, and where it stands. -/
structure Upload where
  kind : UploadKind
  token : String
  pc : UploadPc

/-- The payload an upload returns on success. -/
def Upload.result (u : Upload) (id : Int) : AttachPayload :=
  match u.kind with
  | UploadKind.uploadFile => AttachPayload.file id
  | UploadKind.uploadVideo => AttachPayload.video id u.token

/-- Program counter of `recvLoop`: reading, holding a frame for a waiter found in the
registry (after `pendingMu` was released), about to push a frame on `incoming`, or
returned. -/
inductive Reader where
  | idle : Reader
  | delivering (ch : Nat) (msg : Frame) : Reader
  | queueing (msg : Frame) : Reader
  | exited : Reader

/-- Program counter of `Close`. -/
inductive ClosePc where
  | notCalled | cancelled | pendingCleared | done
  deriving DecidableEq

/-- The whole system: the client and its goroutines. `wire` lists the frames written to
the transport, `reconnect` is the configuration flag `cfg.Reconnect`. -/
structure Sys where
  c : MaxClient
  reconnect : Bool
  calls : Nat → Call
  uploads : Nat → Upload
  reader : Reader
  writer : Bool
  closePc : ClosePc
  wire : List Frame

/-- One atomic step of one goroutine. -/
inductive Action where
  | callNextSeq (i : Nat) : Action
  | callRegister (i : Nat) : Action
  | callEnqueue (i : Nat) : Action
  | callCancelEnqueue (i : Nat) : Action
  | callReceive (i : Nat) : Action
  | callCancel (i : Nat) : Action
  | callTimeout (i : Nat) : Action
  | uploadRegister (j : Nat) : Action
  | uploadReceive (j : Nat) : Action
  | uploadCancel (j : Nat) : Action
  | uploadTimeout (j : Nat) : Action
  | readerFrame (msg : Frame) : Action
  | readerDeliver : Action
  | readerQueue : Action
  | readerExit : Action
  | writerSend : Action
  | writerExit : Action
  | closeCancel : Action
  | closePending : Action
  | closeUploads : Action

/-- The cleanup of `sendAndWaitResponse` on cancellation and timeout:
`if ch, ok := c.pending[seq]; ok { delete(c.pending, seq); close(ch) }`. -/
def dropPending (c : MaxClient) (seq : Int) : MaxClient :=
  match c.pending.get seq with
  | some ch =>
    { c with pending := c.pending.del seq,
             respSlots := (c.respSlots.close ch).1,
             panicked := c.panicked || decide ((c.respSlots.close ch).2 = ChanOp.panicked) }
  | none => c

/-- The deferred cleanup of `sendAndWait`: `delete(c.pending, seq)`. -/
def deferDelete (c : MaxClient) (seq : Int) : MaxClient :=
  { c with pending := c.pending.del seq }

/-- Cleanup of a call that gives up, by kind. -/
def giveUp (c : MaxClient) (kind : CallKind) (seq : Int) : MaxClient :=
  match kind with
  | CallKind.sendAndWait => deferDelete c seq
  | CallKind.sendAndWaitResponse => dropPending c seq

/-- The cleanup of an upload on cancellation and timeout:
`if ch, ok := c.fileUploadWaiters[id]; ok { delete(...); close(ch) }`. -/
def dropWaiter (c : MaxClient) (id : Int) : MaxClient :=
  match c.fileUploadWaiters.get id with
  | some ch =>
    { c with fileUploadWaiters := c.fileUploadWaiters.del id,
             waitSlots := (c.waitSlots.close ch).1,
             panicked := c.panicked || decide ((c.waitSlots.close ch).2 = ChanOp.panicked) }
  | none => c

/-- The notification part of the `recvLoop` body (frames that matched no pending
request), up to the push on `incoming`. -/
def routeNotification (c : MaxClient) (opcode : Int) (msg : Frame) : MaxClient :=
  let c1 := if opcode = OpcodeNotifAttach then handleFileUploadNotification c msg else c
  let c2 := if opcode = OpcodeNotifMessage then handleMessageNotification c1 msg else c1
  let c3 := if opcode = OpcodeNotifMsgReactionsChanged then handleReactionChange c2 msg else c2
  if opcode = OpcodeNotifChat then handleChatUpdate c3 msg else c3

/-- The body of `recvLoop` for one decoded frame, up to the point where the reader
either holds the waiter's channel (about to send to it) or is about to push the frame
on `incoming`. -/
def recvFrame (c : MaxClient) (msg : Frame) : MaxClient × Reader :=
  let opcode := asFloatOrZero (lookupKey msg "opcode")
  let c1 := if opcode = OpcodeSync ∨ opcode = OpcodeLogin then handleSyncResponse c msg else c
  match asFloat (lookupKey msg "seq") with
  | some seq =>
    match c1.pending.get seq with
    | some ch => ({ c1 with pending := c1.pending.del seq }, Reader.delivering ch msg)
    | none => (routeNotification c1 opcode msg, Reader.queueing msg)
  | none => (routeNotification c1 opcode msg, Reader.queueing msg)

/-- The send `select { case ch <- msg: default: ... }` of `recvLoop`. -/
def deliver (c : MaxClient) (ch : Nat) (msg : Frame) : MaxClient :=
  { c with respSlots := (c.respSlots.trySend ch msg).1,
           panicked := c.panicked || decide ((c.respSlots.trySend ch msg).2 = ChanOp.panicked) }

/-- The loop of `Close` over `c.pending`: every entry is deleted and its channel closed. -/
def closeAllPending (c : MaxClient) : MaxClient :=
  { c with pending := [],
           respSlots := (c.respSlots.closeAll (c.pending.map Prod.snd)).1,
           panicked := c.panicked || (c.respSlots.closeAll (c.pending.map Prod.snd)).2 }

/-- The loop of `Close` over `c.fileUploadWaiters`. -/
def closeAllWaiters (c : MaxClient) : MaxClient :=
  { c with fileUploadWaiters := [],
           waitSlots := (c.waitSlots.closeAll (c.fileUploadWaiters.map Prod.snd)).1,
           panicked := c.panicked || (c.waitSlots.closeAll (c.fileUploadWaiters.map Prod.snd)).2 }

/-- Replace the program counter of call `i`. -/
def Sys.setCall (s : Sys) (i : Nat) (pc : CallPc) (c : MaxClient) : Sys :=
  { s with c := c, calls := Function.update s.calls i { s.calls i with pc := pc } }

/-- Replace the program counter of upload `j`. -/
def Sys.setUpload (s : Sys) (j : Nat) (pc : UploadPc) (c : MaxClient) : Sys :=
  { s with c := c, uploads := Function.update s.uploads j { s.uploads j with pc := pc } }

/-- Steps of a call. -/
def stepCall (s : Sys) (i : Nat) (a : Action) : Option Sys :=
  match a, (s.calls i).pc with
  | Action.callNextSeq _, CallPc.start =>
    some (s.setCall i (CallPc.allocated (nextSeq s.c).2) (nextSeq s.c).1)
  | Action.callRegister _, CallPc.allocated seq =>
    some (s.setCall i (CallPc.registered seq s.c.respSlots.length)
      { s.c with pending := s.c.pending.put seq s.c.respSlots.length,
                 respSlots := s.c.respSlots ++ [Chan.fresh] })
  | Action.callEnqueue _, CallPc.registered seq ch =>
    if s.c.outgoing.length < queueCap then
      some (s.setCall i (CallPc.waiting seq ch)
        { s.c with outgoing := s.c.outgoing ++
            [requestFrame seq (s.calls i).opcode (s.calls i).payload] })
    else none
  | Action.callCancelEnqueue _, CallPc.registered seq _ =>
    some (s.setCall i (CallPc.returned seq none (some CallErr.ctxErr))
      (giveUp s.c (s.calls i).kind seq))
  | Action.callReceive _, CallPc.waiting seq ch =>
    match s.c.respSlots[ch]? with
    | some slot =>
      if slot.canRecv then
        match (s.calls i).kind with
        | CallKind.sendAndWaitResponse =>
          some (s.setCall i (CallPc.returned seq slot.recvValue none)
            { s.c with respSlots := s.c.respSlots.set ch slot.afterRecv })
        | CallKind.sendAndWait =>
          some (s.setCall i (CallPc.returned seq none none)
            (deferDelete { s.c with respSlots := s.c.respSlots.set ch slot.afterRecv } seq))
      else none
    | none => none
  | Action.callCancel _, CallPc.waiting seq _ =>
    some (s.setCall i (CallPc.returned seq none (some CallErr.ctxErr))
      (giveUp s.c (s.calls i).kind seq))
  | Action.callTimeout _, CallPc.waiting seq _ =>
    match (s.calls i).kind with
    | CallKind.sendAndWaitResponse =>
      some (s.setCall i (CallPc.returned seq none (some CallErr.timeout)) (dropPending s.c seq))
    | CallKind.sendAndWait => none
  | _, _ => none

/-- Steps of an upload. -/
def stepUpload (s : Sys) (j : Nat) (a : Action) : Option Sys :=
  match a, (s.uploads j).pc with
  | Action.uploadRegister _, UploadPc.uploaded id =>
    some (s.setUpload j (UploadPc.waiting id s.c.waitSlots.length)
      { s.c with fileUploadWaiters := s.c.fileUploadWaiters.put id s.c.waitSlots.length,
                 waitSlots := s.c.waitSlots ++ [Chan.fresh] })
  | Action.uploadReceive _, UploadPc.waiting id ch =>
    match s.c.waitSlots[ch]? with
    | some slot =>
      if slot.canRecv then
        some (s.setUpload j (UploadPc.returned (some ((s.uploads j).result id)) none)
          { s.c with waitSlots := s.c.waitSlots.set ch slot.afterRecv })
      else none
    | none => none
  | Action.uploadCancel _, UploadPc.waiting id _ =>
    some (s.setUpload j (UploadPc.returned none (some CallErr.ctxErr)) (dropWaiter s.c id))
  | Action.uploadTimeout _, UploadPc.waiting id _ =>
    some (s.setUpload j (UploadPc.returned none (some CallErr.timeout)) (dropWaiter s.c id))
  | _, _ => none

/-- The reader leaves `recvLoop` at its read: either the connection handle is nil at the
top of the loop (`return`), or `ReadMessage` fails and reconnection is disabled
(`c.isConnected = false`, then `return`). With reconnection enabled a read failure
enters the reconnection loop instead, which this transition system does not cover. -/
def readerLeave (s : Sys) : Option Sys :=
  if s.c.ws = false then some { s with reader := Reader.exited }
  else if s.reconnect = false then
    some { s with c := { s.c with isConnected := false }, reader := Reader.exited }
  else none

/-- Steps of the reader, the writer and `Close`. -/
def stepBackground (s : Sys) (a : Action) : Option Sys :=
  match a, s.reader with
  | Action.readerFrame msg, Reader.idle =>
    some { s with c := (recvFrame s.c msg).1, reader := (recvFrame s.c msg).2 }
  | Action.readerDeliver, Reader.delivering ch msg =>
    some { s with c := deliver s.c ch msg, reader := Reader.idle }
  | Action.readerQueue, Reader.queueing msg =>
    if s.c.incoming.length < queueCap then
      some { s with c := { s.c with incoming := s.c.incoming ++ [msg] }, reader := Reader.idle }
    else none
  | Action.readerExit, Reader.idle => readerLeave s
  | Action.readerExit, Reader.queueing _ => some { s with reader := Reader.exited }
  | Action.writerSend, _ =>
    if s.writer then
      match s.c.outgoing with
      | msg :: rest =>
        if s.c.ws then
          some { s with c := { s.c with outgoing := rest }, wire := s.wire ++ [msg] }
        else some { s with c := { s.c with outgoing := rest }, writer := false }
      | [] => none
    else none
  | Action.writerExit, _ => if s.writer then some { s with writer := false } else none
  | Action.closeCancel, _ =>
    if s.closePc = ClosePc.notCalled then
      some { s with c := { s.c with ws := false, isConnected := false },
                    closePc := ClosePc.cancelled }
    else none
  | Action.closePending, Reader.exited =>
    if s.closePc = ClosePc.cancelled ∧ s.writer = false then
      some { s with c := closeAllPending s.c, closePc := ClosePc.pendingCleared }
    else none
  | Action.closeUploads, _ =>
    if s.closePc = ClosePc.pendingCleared then
      some { s with c := closeAllWaiters s.c, closePc := ClosePc.done }
    else none
  | _, _ => none

/-- One step of the system; no step is possible after a runtime panic. -/
def step (a : Action) (s : Sys) : Option Sys :=
  if s.c.panicked then none
  else
    match a with
    | Action.callNextSeq i => stepCall s i a
    | Action.callRegister i => stepCall s i a
    | Action.callEnqueue i => stepCall s i a
    | Action.callCancelEnqueue i => stepCall s i a
    | Action.callReceive i => stepCall s i a
    | Action.callCancel i => stepCall s i a
    | Action.callTimeout i => stepCall s i a
    | Action.uploadRegister j => stepUpload s j a
    | Action.uploadReceive j => stepUpload s j a
    | Action.uploadCancel j => stepUpload s j a
    | Action.uploadTimeout j => stepUpload s j a
    | _ => stepBackground s a

/-- Execution of a schedule, `none` when some action is not enabled. -/
def run (s : Sys) : List Action → Option Sys
  | [] => some s
  | a :: rest => (step a s).bind (fun s1 => run s1 rest)

/-- What is fixed before the system runs: the token, the handlers registered during
setup, the calls and uploads that will be made (function, opcode and payload; function,
video token and the resource id reserved by the server), whether `Start` has run, and
the configuration flag `cfg.Reconnect`. -/
structure Setup where
  token : String
  reconnect : Bool
  onMessage : List messageHandler
  onEdit : List messageHandler
  onDelete : List messageHandler
  onChat : Nat
  onReaction : Nat
  calls : Nat → CallKind × Int × GoMap
  uploads : Nat → UploadKind × String × Int
  started : Bool

/-- Initial system: a client as returned by `NewMaxClient` with its handlers registered,
calls and uploads that have not started, and, when `Start` has run, a connected
transport with the reader and the writer running. -/
def Sys.init (cfg : Setup) : Sys :=
  { c := { NewMaxClient cfg.token cfg.onMessage cfg.onEdit cfg.onDelete cfg.onChat
             cfg.onReaction with ws := cfg.started, isConnected := cfg.started },
    reconnect := cfg.reconnect,
    calls := fun i => { kind := (cfg.calls i).1, opcode := (cfg.calls i).2.1,
                        payload := (cfg.calls i).2.2, pc := CallPc.start },
    uploads := fun j => { kind := (cfg.uploads j).1, token := (cfg.uploads j).2.1,
                          pc := UploadPc.uploaded (cfg.uploads j).2.2 },
    reader := if cfg.started then Reader.idle else Reader.exited,
    writer := cfg.started,
    closePc := ClosePc.notCalled,
    wire := [] }

/-- The states the system can reach from some setup by some schedule. -/
def Reachable (s : Sys) : Prop := ∃ cfg acts, run (Sys.init cfg) acts = some s

/-! ## Invariants of the two registries -/

/-- The part of the client that the multiplexer and the upload correlator own. -/
def MaxClient.registries (c : MaxClient) : Int × Registry × Heap × Registry × Heap :=
  (c.seq, c.pending, c.respSlots, c.fileUploadWaiters, c.waitSlots)

/-- The part of the client that the multiplexer owns. -/
def MaxClient.pendingPart (c : MaxClient) : Int × Registry × Heap :=
  (c.seq, c.pending, c.respSlots)

/-- The sequence number a call has allocated, if any. -/
def CallPc.seq? : CallPc → Option Int
  | CallPc.start => none
  | CallPc.allocated seq => some seq
  | CallPc.registered seq _ => some seq
  | CallPc.waiting seq _ => some seq
  | CallPc.returned seq _ _ => some seq

/-- The sequence number and channel of a call that has registered its waiter and has
not returned. -/
def CallPc.waiter? : CallPc → Option (Int × Nat)
  | CallPc.registered seq ch => some (seq, ch)
  | CallPc.waiting seq ch => some (seq, ch)
  | _ => none

/-- Invariant of the pending registry, for a system that has made at most `n` steps. -/
structure PendInv (n : Nat) (s : Sys) : Prop where
  seq_nonneg : 0 ≤ s.c.seq
  seq_le : s.c.seq ≤ n
  call_seq : ∀ i q, (s.calls i).pc.seq? = some q → 1 ≤ q ∧ q ≤ s.c.seq
  call_inj : ∀ i j q, (s.calls i).pc.seq? = some q → (s.calls j).pc.seq? = some q → i = j
  owner : ∀ q ch, s.c.pending.get q = some ch → ∃ i, (s.calls i).pc.waiter? = some (q, ch)
  slot_fresh : ∀ q ch, s.c.pending.get q = some ch → s.c.respSlots[ch]? = some Chan.fresh
  chan_lt : ∀ i q ch, (s.calls i).pc.waiter? = some (q, ch) → ch < s.c.respSlots.length
  chan_inj : ∀ i j q q1 ch, (s.calls i).pc.waiter? = some (q, ch) →
    (s.calls j).pc.waiter? = some (q1, ch) → i = j
  reader_slot : ∀ ch msg, s.reader = Reader.delivering ch msg →
    s.c.respSlots[ch]? = some Chan.fresh ∧ ∀ q, s.c.pending.get q ≠ some ch
  waiter_state : ∀ i q ch, (s.calls i).pc.waiter? = some (q, ch) →
    s.c.pending.get q = some ch ∨ (∃ msg, s.reader = Reader.delivering ch msg) ∨
      ∃ slot, s.c.respSlots[ch]? = some slot ∧ slot.canRecv = true
  returned_gone : ∀ i q r e, (s.calls i).pc = CallPc.returned q r e → s.c.pending.get q = none

/-- Invariant of the upload-waiter registry: the slot of every registered waiter is open
and empty, and no two keys share a slot. -/
structure UpInv (c : MaxClient) : Prop where
  slot_fresh : ∀ k ch, c.fileUploadWaiters.get k = some ch → c.waitSlots[ch]? = some Chan.fresh
  inj : ∀ k k1 ch, c.fileUploadWaiters.get k = some ch →
    c.fileUploadWaiters.get k1 = some ch → k = k1

/-- The part of the client that the upload correlator owns. -/
def MaxClient.uploadPart (c : MaxClient) : Registry × Heap :=
  (c.fileUploadWaiters, c.waitSlots)

/-! ## Concrete frames, clients and schedules -/

/-- A message push frame with the given payload (`seq` 0, opcode `NOTIF_MESSAGE`). -/
def notifMessageFrame (payload : List (String × JSON)) : Frame :=
  [("ver", JSON.num 11), ("cmd", JSON.num 0), ("seq", JSON.num 0),
   ("opcode", JSON.num OpcodeNotifMessage), ("payload", JSON.obj payload)]

/-- Payload of an edited message: `{id: 12345, chatId: 999, text: "hi", status: "EDITED"}`. -/
def editedPayload : List (String × JSON) :=
  [("id", JSON.num 12345), ("chatId", JSON.num 999), ("text", JSON.str "hi"),
   ("status", JSON.str "EDITED")]

/-- Payload of a new message: `{id: 12345, chatId: 999, text: "hi"}`. -/
def plainPayload : List (String × JSON) :=
  [("id", JSON.num 12345), ("chatId", JSON.num 999), ("text", JSON.str "hi")]

/-- Payload of a removed message: `{id: 12345, chatId: 999, status: "REMOVED"}`. -/
def removedPayload : List (String × JSON) :=
  [("id", JSON.num 12345), ("chatId", JSON.num 999), ("status", JSON.str "REMOVED")]

/-- A client with one unfiltered handler in each message category. -/
def oneHandlerEach : MaxClient :=
  NewMaxClient "token" [{ filter := none }] [{ filter := none }] [{ filter := none }] 0 0

/-- An attach-completion push frame carrying the given ids (a zero id is left out, as
in `NotifAttachResponse`). -/
def notifAttachFrame (fileID videoID : Int) : Frame :=
  [("ver", JSON.num 11), ("cmd", JSON.num 0), ("seq", JSON.num 0),
   ("opcode", JSON.num OpcodeNotifAttach),
   ("payload", JSON.obj ((if fileID > 0 then [("fileId", JSON.num fileID)] else []) ++
      (if videoID > 0 then [("videoId", JSON.num videoID)] else [])))]

/-- A started client whose calls are `sendAndWaitResponse(MSG_SEND, {})`, whose upload 0
is an `uploadFile` with file id 77 and whose other uploads are `uploadVideo` with video
id 78; reconnection is disabled. -/
def demoSetup : Setup :=
  { token := "token", reconnect := false, onMessage := [], onEdit := [], onDelete := [],
    onChat := 0, onReaction := 0,
    calls := fun _ => (CallKind.sendAndWaitResponse, 64, some []),
    uploads := fun j => if j = 0 then (UploadKind.uploadFile, "", 77)
                        else (UploadKind.uploadVideo, "video-token", 78),
    started := true }

/-- The state after a schedule from `demoSetup` (the initial state when the schedule
cannot run). -/
def demoState (acts : List Action) : Sys :=
  (run (Sys.init demoSetup) acts).getD (Sys.init demoSetup)

/-- Whether a call has returned without a response and without an error. -/
def CallPc.returnedNilNil : CallPc → Bool
  | CallPc.returned _ none none => true
  | _ => false

/-- The categories of the spawned handler goroutines, in order. -/
def spawnedCats (c : MaxClient) : List Category := c.spawned.map (fun inv => inv.cat)

/-- Whether a decoding produced a value. -/
def Decoded.isOk {α : Type} : Decoded α → Bool
  | Decoded.ok _ => true
  | _ => false

/-- The sequence numbers of the frames on the outgoing queue. -/
def outgoingSeqs (c : MaxClient) : List (Option Int) :=
  c.outgoing.map (fun msg => asFloat (lookupKey msg "seq"))

/-- Whether a call is blocked in its second `select`, waiting for the response. -/
def CallPc.isWaiting : CallPc → Bool
  | CallPc.waiting _ _ => true
  | _ => false

/-- Whether an upload is blocked in its `select`, waiting for the attach completion. -/
def UploadPc.isWaiting : UploadPc → Bool
  | UploadPc.waiting _ _ => true
  | _ => false

/-- Whether an upload has returned an attachment payload and no error. -/
def UploadPc.returnedPayload : UploadPc → Bool
  | UploadPc.returned (some _) none => true
  | _ => false

/-- A client with waiters open under the ids 77 and 78: the state after both uploads of
`demoSetup` have registered. -/
def twoWaiters : MaxClient :=
  (demoState [Action.uploadRegister 0, Action.uploadRegister 1]).c

/-- The ids the attach handler reads from a frame: `fileId` and `videoId` of its
payload, zero when absent or not a number. -/
def attachIds (msg : Frame) : Int × Int :=
  (asFloatOrZero ((asMap (lookupKey msg "payload")).index "fileId"),
   asFloatOrZero ((asMap (lookupKey msg "payload")).index "videoId"))

/-- A started client with one unfiltered new-message handler and reconnection disabled. -/
def floodSetup : Setup :=
  { token := "token", reconnect := false, onMessage := [{ filter := none }], onEdit := [],
    onDelete := [], onChat := 0, onReaction := 0,
    calls := fun _ => (CallKind.sendAndWaitResponse, 64, some []),
    uploads := fun _ => (UploadKind.uploadFile, "", 77), started := true }

/-- The reader takes `n` new-message push frames, one after the other, each followed by
its push on `incoming`. -/
def floodSchedule (n : Nat) : List Action :=
  (List.replicate n
    [Action.readerFrame (notifMessageFrame plainPayload), Action.readerQueue]).flatten

/-- The state of `floodSetup` after a schedule (the initial state when the schedule
cannot run). -/
def floodState (acts : List Action) : Sys :=
  (run (Sys.init floodSetup) acts).getD (Sys.init floodSetup)

/-- The schedule in which a call and an upload become outstanding and the reader then
observes a read failure. -/
def readFailureSchedule : List Action :=
  [Action.callNextSeq 0, Action.callRegister 0, Action.callEnqueue 0,
   Action.uploadRegister 0, Action.readerExit]

/-! ## Errors -/

/-- Type assertion `v.(map[string]any)` with its ok flag: `none` when the value is absent
or not an object. -/
def asMapOk : Option JSON → Option (List (String × JSON))
  | some (JSON.obj kvs) => some kvs
  | _ => none

/-- Type assertion `v.(string)` with its ok flag. -/
def asString : Option JSON → Option String
  | some (JSON.str s) => some s
  | _ => none

/-- The struct `Error`: a protocol error with the details sent by the server. -/
structure Error where
  Code : String
  Message : String
  Title : String
  LocalizedMessage : String
  deriving DecidableEq

/-- The error values that the modelled functions return, by dynamic type:
`*Error`, `*RateLimitError` (with its wrapped `Err`), `*ResponseError`,
`*InvalidPhoneError`, `*NetworkError` and `*TemporaryError` (with the text of the wrapped
error), the error of a cancelled or expired context, and errors made by `fmt.Errorf` or
returned by a library (by their text). -/
inductive GoError where
  | maxError (e : Error) : GoError
  | rateLimitError (Err : Error) : GoError
  | responseError (Message : String) : GoError
  | invalidPhoneError (Phone : String) : GoError
  | networkError (text : String) : GoError
  | temporaryError (text : String) : GoError
  | ctxError : GoError
  | other (text : String) : GoError
  deriving DecidableEq

/-- The function `HandleError(data)`; `none` is the nil error. -/
def HandleError (data : GoMap) : Option GoError :=
  match asMapOk (data.index "payload") with
  | none => some (GoError.responseError "invalid response structure")
  | some payload =>
    match asString (lookupKey payload "error") with
    | none => none
    | some errCode =>
      if errCode = "" then none
      else
        let message := asStringOrEmpty (lookupKey payload "message")
        let title := asStringOrEmpty (lookupKey payload "title")
        let localizedMessage := asStringOrEmpty (lookupKey payload "localizedMessage")
        if errCode = "too.many.requests" then
          some (GoError.rateLimitError
            { Code := errCode, Message := message, Title := title,
              LocalizedMessage := localizedMessage })
        else
          some (GoError.maxError
            { Code := errCode, Message := message, Title := title,
              LocalizedMessage := localizedMessage })

/-- The wording of the specification: the payload of the response carries an `error`
field holding a non-empty string. -/
def carriesError (data : GoMap) : Prop :=
  ∃ payload c, data.index "payload" = some (JSON.obj payload) ∧
    lookupKey payload "error" = some (JSON.str c) ∧ c ≠ ""

/-- A response without a payload. -/
def noPayloadResponse : GoMap := some [("opcode", JSON.num 19), ("seq", JSON.num 1)]

/-- A response whose payload is `null`. -/
def nullPayloadResponse : GoMap := some [("opcode", JSON.num 19), ("payload", JSON.null)]

/-- An error response with the given code and the three detail fields, of which `title`
is not a string. -/
def errorResponse (code : String) : GoMap :=
  some [("opcode", JSON.num 19),
    ("payload", JSON.obj [("error", JSON.str code), ("message", JSON.str "slow down"),
      ("title", JSON.num 7)])]

/-- A chat with the given id and title, all other fields zero. -/
def chatTitled (id : Int) (title : String) : Chat :=
  { Chat.zero with ID := id, Title := some title }

/-- A client whose chat cache holds the chats 5, 7 and again 7. -/
def cachedClient : MaxClient :=
  { NewMaxClient "token" [] [] [] 0 0 with
    Chats := [chatTitled 5 "a", chatTitled 7 "b", chatTitled 7 "c"] }

/-! ## HTTP requests with retry -/

/-- One second as a `time.Duration` (nanoseconds). -/
def Second : Int := 1000000000

/-- The constant `constants.DefaultMaxRetries`. -/
def DefaultMaxRetries : Int := 3

/-- The duration `time.Duration(constants.DefaultRetryInitialDelay * float64(time.Second))`,
with `DefaultRetryInitialDelay = 1.0`. -/
def DefaultRetryInitialDelay : Int := 1 * Second

/-- The duration `time.Duration(constants.DefaultRetryMaxDelay * float64(time.Second))`,
with `DefaultRetryMaxDelay = 30.0`. -/
def DefaultRetryMaxDelay : Int := 30 * Second

/-- The value of `float64(n)` for an integer: `n` itself below 2^53 in absolute value,
otherwise the nearest number with a 53-bit significand, ties to even. -/
def float64OfInt (n : Int) : Int :=
  if n.natAbs < 2 ^ 53 then n
  else
    let e := Nat.log2 n.natAbs - 52
    let q := n.natAbs / 2 ^ e
    let r := n.natAbs % 2 ^ e
    let q1 := if 2 ^ e < 2 * r ∨ (2 * r = 2 ^ e ∧ q % 2 = 1) then q + 1 else q
    Int.sign n * ((q1 * 2 ^ e : Nat) : Int)

/-- The conversion `time.Duration(x)` of a float64 with an integral value: the value
itself when it fits `int64`; out of range the result depends on the platform, taken here
as the smallest `int64` (amd64). -/
def durationOfFloat (x : Int) : Int :=
  if -(2 ^ 63) ≤ x ∧ x < 2 ^ 63 then x else -(2 ^ 63)

/-- The update of `delay` after a wait:
`if delay < maxDelay { delay = time.Duration(float64(delay) * 2.0); if delay > maxDelay
{ delay = maxDelay } }`. -/
def nextDelay (maxDelay delay : Int) : Int :=
  if delay < maxDelay then
    let doubled := durationOfFloat (float64OfInt delay * 2)
    if doubled > maxDelay then maxDelay else doubled
  else delay

/-- The value of `delay` after `k` updates. -/
def delayAt (maxDelay initialDelay : Int) : Nat → Int
  | 0 => initialDelay
  | k + 1 => nextDelay maxDelay (delayAt maxDelay initialDelay k)

/-- The retry fields of `ClientConfig`; durations in nanoseconds. -/
structure RetryConfig where
  MaxRetries : Int
  RetryInitialDelay : Int
  RetryMaxDelay : Int

/-- What one iteration of the retry loop meets: `createRequest` fails, or
`httpClient.Do` returns a response with a status code, or it returns an error, for which
`temporary` is the verdict of `IsTemporaryError(err)`. -/
inductive DoResult where
  | createFailed (text : String) : DoResult
  | status (code : Int) : DoResult
  | netError (text : String) (temporary : Bool) : DoResult
  deriving DecidableEq

/-- The environment of one call of `doHTTPRequestWithRetry`: what iteration `attempt`
meets, and whether `ctx.Done()` wins the `select` that precedes iteration `attempt`. -/
structure HttpEnv where
  attempt : Nat → DoResult
  cancelled : Nat → Bool

/-- The return value of `doHTTPRequestWithRetry`: the response of an attempt, or an
error; `wrapped` is an error made by `fmt.Errorf` with `%w` around the last error. -/
inductive HttpResult where
  | response (attempt : Nat) (code : Int) : HttpResult
  | failed (err : GoError) : HttpResult
  | wrapped (text : String) (lastErr : Option GoError) : HttpResult
  deriving DecidableEq

/-- A run of `doHTTPRequestWithRetry`: its return value, the results of the calls of
`httpClient.Do` in order, and the delays passed to `time.After` in order. -/
structure RetryRun where
  result : HttpResult
  tried : List DoResult
  waits : List Int

/-- Put the wait and the attempt of one iteration in front of the rest of a run. -/
def RetryRun.after (waits : List Int) (r : DoResult) (rest : RetryRun) : RetryRun :=
  { result := rest.result, tried := r :: rest.tried, waits := waits ++ rest.waits }

/-- The loop `for attempt := 0; attempt <= maxRetries; attempt++` of
`doHTTPRequestWithRetry`, with `left` = `maxRetries + 1 - attempt` iterations to go.
(`maxRetries` is taken below the largest `int`, so that `attempt++` does not wrap.) -/
def retryLoop (env : HttpEnv) (maxRetries maxDelay : Int) :
    Nat → Nat → Int → Option GoError → RetryRun
  | 0, _, _, lastErr =>
    { result := HttpResult.wrapped
        ("HTTP request failed after " ++ toString (maxRetries + 1) ++ " attempts") lastErr,
      tried := [], waits := [] }
  | left + 1, attempt, delay, _ =>
    if 0 < attempt ∧ env.cancelled attempt = true then
      { result := HttpResult.failed GoError.ctxError, tried := [], waits := [delay] }
    else
      let waits := if 0 < attempt then [delay] else []
      let delay1 := if 0 < attempt then nextDelay maxDelay delay else delay
      match env.attempt attempt with
      | DoResult.createFailed text =>
        { result := HttpResult.wrapped "failed to create request" (some (GoError.other text)),
          tried := [], waits := waits }
      | DoResult.status code =>
        if 200 ≤ code ∧ code < 300 then
          { result := HttpResult.response attempt code, tried := [DoResult.status code],
            waits := waits }
        else if 500 ≤ code then
          RetryRun.after waits (DoResult.status code)
            (retryLoop env maxRetries maxDelay left (attempt + 1) delay1
              (some (GoError.temporaryError ("server error: " ++ toString code))))
        else
          { result := HttpResult.failed
              (GoError.other ("request failed with status " ++ toString code)),
            tried := [DoResult.status code], waits := waits }
      | DoResult.netError text temporary =>
        if temporary then
          RetryRun.after waits (DoResult.netError text temporary)
            (retryLoop env maxRetries maxDelay left (attempt + 1) delay1
              (some (GoError.networkError text)))
        else
          { result := HttpResult.failed (GoError.networkError text),
            tried := [DoResult.netError text temporary], waits := waits }

/-- The local `maxRetries` of `doHTTPRequestWithRetry`. -/
def effectiveMaxRetries (cfg : RetryConfig) : Int :=
  if cfg.MaxRetries ≤ 0 then DefaultMaxRetries else cfg.MaxRetries

/-- The local `initialDelay` of `doHTTPRequestWithRetry`. -/
def effectiveInitialDelay (cfg : RetryConfig) : Int :=
  if cfg.RetryInitialDelay = 0 then DefaultRetryInitialDelay else cfg.RetryInitialDelay

/-- The local `maxDelay` of `doHTTPRequestWithRetry`. -/
def effectiveMaxDelay (cfg : RetryConfig) : Int :=
  if cfg.RetryMaxDelay = 0 then DefaultRetryMaxDelay else cfg.RetryMaxDelay

/-- The method `doHTTPRequestWithRetry`. -/
def doHTTPRequestWithRetry (cfg : RetryConfig) (env : HttpEnv) : RetryRun :=
  retryLoop env (effectiveMaxRetries cfg) (effectiveMaxDelay cfg)
    (effectiveMaxRetries cfg + 1).toNat 0 (effectiveInitialDelay cfg) none

/-- An attempt that the loop retries: a response with a status of 500 or more, or an
error that `IsTemporaryError` accepts. -/
def DoResult.retryable : DoResult → Bool
  | DoResult.status code => decide (500 ≤ code)
  | DoResult.netError _ temporary => temporary
  | DoResult.createFailed _ => false

/-- Whether `createRequest` failed. -/
def DoResult.isCreateFailed : DoResult → Bool
  | DoResult.createFailed _ => true
  | _ => false

/-- Whether the run returned an error. -/
def HttpResult.isError : HttpResult → Bool
  | HttpResult.response _ _ => false
  | _ => true

/-- A server that answers every request with 503, and a context that is never
cancelled. -/
def alwaysUnavailable : HttpEnv :=
  { attempt := fun _ => DoResult.status 503, cancelled := fun _ => false }

/-- A server that answers 503, and a context that is cancelled during the first
backoff wait. -/
def cancelledDuringBackoff : HttpEnv :=
  { attempt := fun _ => DoResult.status 503, cancelled := fun _ => true }

/-- A server that answers 503 twice and then 200. -/
def recoversAtThird : HttpEnv :=
  { attempt := fun k => if k < 2 then DoResult.status 503 else DoResult.status 200,
    cancelled := fun _ => false }

/-- The return value of the loop after an attempt that is not retried. -/
def DoResult.finalResult (attempt : Nat) : DoResult → HttpResult
  | DoResult.status code =>
    if 200 ≤ code ∧ code < 300 then HttpResult.response attempt code
    else HttpResult.failed (GoError.other ("request failed with status " ++ toString code))
  | DoResult.netError text _ => HttpResult.failed (GoError.networkError text)
  | DoResult.createFailed text =>
    HttpResult.wrapped "failed to create request" (some (GoError.other text))

/-! ## The phone pattern and the constructor -/

/-- The regular expressions used by `constants.PhoneRegex`. -/
inductive Regex where
  | beginText : Regex
  | endText : Regex
  | lit (c : Char) : Regex
  | digit : Regex
  | opt (r : Regex) : Regex
  | rep (r : Regex) (min max : Nat) : Regex
  | seq (r1 r2 : Regex) : Regex

/-- Repetition `r{min,max}`: the positions reachable by between `min` and `max` steps. -/
def repeatFrom (step : Nat × List Char → List (Nat × List Char)) :
    Nat → Nat → Nat × List Char → List (Nat × List Char)
  | min, 0, st => if min = 0 then [st] else []
  | min, max + 1, st =>
    (if min = 0 then [st] else []) ++ (step st).flatMap (repeatFrom step (min - 1) max)

/-- All ways to match a regular expression at a position of the text: a position is the
number of characters before it and the characters after it; the result lists the
positions after a match. `^` matches at the beginning of the text, `$` at its end (no
multi-line flag), `\d` an ASCII digit. -/
def Regex.matchAt : Regex → Nat × List Char → List (Nat × List Char)
  | Regex.beginText, st => if st.1 = 0 then [st] else []
  | Regex.endText, st => if st.2 = [] then [st] else []
  | Regex.lit c, st =>
    match st.2 with
    | x :: xs => if x = c then [(st.1 + 1, xs)] else []
    | [] => []
  | Regex.digit, st =>
    match st.2 with
    | x :: xs => if x.isDigit then [(st.1 + 1, xs)] else []
    | [] => []
  | Regex.opt r, st => r.matchAt st ++ [st]
  | Regex.rep r min max, st => repeatFrom r.matchAt min max st
  | Regex.seq r1 r2, st => (r1.matchAt st).flatMap r2.matchAt

/-- The method `MatchString`: the text contains a match, starting at any position. -/
def Regex.MatchString (re : Regex) (s : String) : Bool :=
  (List.range (s.data.length + 1)).any
    (fun i => !(re.matchAt (i, s.data.drop i)).isEmpty)

/-- The pattern `constants.PhoneRegex`, compiled from `^\+?\d{10,15}$`. -/
def PhoneRegex : Regex :=
  Regex.seq Regex.beginText
    (Regex.seq (Regex.opt (Regex.lit '+'))
      (Regex.seq (Regex.rep Regex.digit 10 15) Regex.endText))

/-- The wording of the specification: an optional `+` followed by 10 to 15 decimal digits
and nothing else. -/
def isPhoneNumber (s : String) : Prop :=
  ∃ digits : List Char, (s.data = digits ∨ s.data = '+' :: digits) ∧
    10 ≤ digits.length ∧ digits.length ≤ 15 ∧ ∀ c ∈ digits, c.isDigit = true

/-- What the constructor and `Start` do outside the client: operations of the session
store, of the transport and of the protocol. A `request` carries its opcode and the
credential in its payload (the phone number for a code request, a token otherwise). -/
inductive Effect where
  | openStore (workDir : String) : Effect
  | readDeviceID : Effect
  | readAuthToken : Effect
  | closeStore : Effect
  | updateToken (token : String) : Effect
  | dial : Effect
  | spawnLoops : Effect
  | request (opcode : Int) (credential : String) : Effect
  | askCode : Effect
  | tokenCleared : Effect
  | teardown : Effect
  | startHandlers : Effect
  deriving DecidableEq

/-- The fields of `ClientConfig` that the constructor and `Start` branch on. -/
structure ClientConfig where
  Phone : String
  WorkDir : String
  Token : String
  Registration : Bool

/-- The session store as the constructor meets it: the error of `database.Open`, the
result of `db.DeviceID()` and the result of `db.AuthToken()` (errors by their text). -/
structure StoreEnv where
  openErr : Option String
  deviceID : Except String String
  authToken : Except String String

/-- The function `NewMaxClient(cfg)`: the phone check, then the session store, then the
client literal. Returned with the effects performed, in order. -/
def NewMaxClientFromConfig (cfg : ClientConfig) (db : StoreEnv) :
    Except GoError MaxClient × List Effect :=
  let workDir := if cfg.WorkDir = "" then "." else cfg.WorkDir
  if PhoneRegex.MatchString cfg.Phone = false then
    (Except.error (GoError.invalidPhoneError cfg.Phone), [])
  else
    match db.openErr with
    | some text => (Except.error (GoError.other text), [Effect.openStore workDir])
    | none =>
      match db.deviceID with
      | Except.error text =>
        (Except.error (GoError.other text),
          [Effect.openStore workDir, Effect.readDeviceID, Effect.closeStore])
      | Except.ok _ =>
        if cfg.Token = "" then
          (Except.ok (NewMaxClient
              (match db.authToken with
               | Except.ok t => t
               | Except.error _ => "") [] [] [] 0 0),
            [Effect.openStore workDir, Effect.readDeviceID, Effect.readAuthToken])
        else
          (Except.ok (NewMaxClient cfg.Token [] [] [] 0 0),
            [Effect.openStore workDir, Effect.readDeviceID])

/-- Whether the constructor returned an `*InvalidPhoneError`. -/
def isInvalidPhoneError : Except GoError MaxClient → Bool
  | Except.error (GoError.invalidPhoneError _) => true
  | _ => false

/-- A session store that opens and holds no token. -/
def emptyStore : StoreEnv :=
  { openErr := none, deviceID := Except.ok "device", authToken := Except.ok "" }

/-! ## Authentication and `Start` as sequential programs

Each protocol exchange is seen here from its caller: `sendAndWaitResponse` returns a
response or one of its two errors, and the environment fixes what every exchange, the
code provider and the session store return. The flows report the effects they perform,
in order. -/

/-- Opcode of the code request. -/
def OpcodeAuthRequest : Int := 17
/-- Opcode of the code confirmation. -/
def OpcodeAuth : Int := 18
/-- Opcode of the registration confirmation. -/
def OpcodeAuthConfirm : Int := 23

/-- The constant `constants.TokenTypeLogin`. -/
def TokenTypeLogin : String := "LOGIN"
/-- The constant `constants.TokenTypeRegister`. -/
def TokenTypeRegister : String := "REGISTER"

/-- The return values `(resp, err)` of one `sendAndWaitResponse` call. -/
structure CallReturn where
  resp : GoMap
  err : Option CallErr

/-- The Go error behind a `CallErr`: `ctx.Err()`, or
`fmt.Errorf("timeout waiting for response")`. -/
def CallErr.toError : CallErr → GoError
  | CallErr.ctxErr => GoError.ctxError
  | CallErr.timeout => GoError.other "timeout waiting for response"

/-- The environment of one `Login` or `Register`: the returns of the exchanges with
opcodes `OpcodeAuthRequest`, `OpcodeAuth` and `OpcodeAuthConfirm`, the return of
`provideCode`, and the error of `db.UpdateToken` (by its text). -/
structure AuthEnv where
  requestCode : CallReturn
  code : Except GoError String
  auth : CallReturn
  confirm : CallReturn
  updateToken : Option String

/-- How a flow ends: the error it returns, the field `c.token` afterwards, and the
effects it performed. -/
structure FlowRun where
  err : Option GoError
  token : String
  effects : List Effect

/-- The expression `resp["payload"]["token"]`, read with unchecked type assertions. -/
def payloadToken (resp : GoMap) : String :=
  asStringOrEmpty ((asMap (resp.index "payload")).index "token")

/-- The expression `resp["payload"]["tokenAttrs"][kind]["token"]`, read with unchecked
type assertions. -/
def tokenAttrsToken (resp : GoMap) (kind : String) : String :=
  asStringOrEmpty
    ((asMap ((asMap ((asMap (resp.index "payload")).index "tokenAttrs")).index kind)).index
      "token")

/-- The method `RequestCode`, after the exchange has returned `r`: the temporary token
or an error. (`utils.ToMap` of a payload of strings does not fail.) -/
def RequestCode (r : CallReturn) : Except GoError String :=
  match r.err with
  | some e => Except.error e.toError
  | none =>
    match HandleError r.resp with
    | some e => Except.error e
    | none =>
      if payloadToken r.resp = "" then Except.error (GoError.other "token not received")
      else Except.ok (payloadToken r.resp)

/-- The tail of `SendCode` and `Register`: `c.token = authToken`, then
`c.db.UpdateToken(c.deviceID, authToken)`. -/
def storeToken (env : AuthEnv) (authToken : String) (done : List Effect) : FlowRun :=
  match env.updateToken with
  | some text =>
    { err := some (GoError.other text), token := authToken,
      effects := done ++ [Effect.updateToken authToken] }
  | none =>
    { err := none, token := authToken, effects := done ++ [Effect.updateToken authToken] }

/-- The method `SendCode(ctx, code, token)` on a client whose token is `token0`; the
verification code only enters the payload. -/
def SendCode (env : AuthEnv) (token0 : String) (token : String) : FlowRun :=
  match env.auth.err with
  | some e =>
    { err := some e.toError, token := token0, effects := [Effect.request OpcodeAuth token] }
  | none =>
    match HandleError env.auth.resp with
    | some e => { err := some e, token := token0, effects := [Effect.request OpcodeAuth token] }
    | none =>
      if tokenAttrsToken env.auth.resp TokenTypeLogin = "" then
        { err := some (GoError.other "login token not received"), token := token0,
          effects := [Effect.request OpcodeAuth token] }
      else
        storeToken env (tokenAttrsToken env.auth.resp TokenTypeLogin)
          [Effect.request OpcodeAuth token]

/-- Put the effects of the first steps of a flow in front of the run of its tail. -/
def FlowRun.after (done : List Effect) (r : FlowRun) : FlowRun :=
  { r with effects := done ++ r.effects }

/-- The method `Login` on a client whose token is `token0`. -/
def Login (env : AuthEnv) (phone : String) (token0 : String) : FlowRun :=
  match RequestCode env.requestCode with
  | Except.error e =>
    { err := some e, token := token0, effects := [Effect.request OpcodeAuthRequest phone] }
  | Except.ok tempToken =>
    match env.code with
    | Except.error e =>
      { err := some e, token := token0,
        effects := [Effect.request OpcodeAuthRequest phone, Effect.askCode] }
    | Except.ok _ =>
      (SendCode env token0 tempToken).after
        [Effect.request OpcodeAuthRequest phone, Effect.askCode]

/-- The method `Register` on a client whose token is `token0`. -/
def Register (env : AuthEnv) (phone : String) (token0 : String) : FlowRun :=
  match RequestCode env.requestCode with
  | Except.error e =>
    { err := some e, token := token0, effects := [Effect.request OpcodeAuthRequest phone] }
  | Except.ok tempToken =>
    match env.code with
    | Except.error e =>
      { err := some e, token := token0,
        effects := [Effect.request OpcodeAuthRequest phone, Effect.askCode] }
    | Except.ok _ =>
      match env.auth.err with
      | some e =>
        { err := some e.toError, token := token0,
          effects := [Effect.request OpcodeAuthRequest phone, Effect.askCode,
            Effect.request OpcodeAuth tempToken] }
      | none =>
        match HandleError env.auth.resp with
        | some e =>
          { err := some e, token := token0,
            effects := [Effect.request OpcodeAuthRequest phone, Effect.askCode,
              Effect.request OpcodeAuth tempToken] }
        | none =>
          if tokenAttrsToken env.auth.resp TokenTypeRegister = "" then
            { err := some (GoError.other "registration token not received"), token := token0,
              effects := [Effect.request OpcodeAuthRequest phone, Effect.askCode,
                Effect.request OpcodeAuth tempToken] }
          else
            match env.confirm.err with
            | some e =>
              { err := some e.toError, token := token0,
                effects := [Effect.request OpcodeAuthRequest phone, Effect.askCode,
                  Effect.request OpcodeAuth tempToken,
                  Effect.request OpcodeAuthConfirm
                    (tokenAttrsToken env.auth.resp TokenTypeRegister)] }
            | none =>
              match HandleError env.confirm.resp with
              | some e =>
                { err := some e, token := token0,
                  effects := [Effect.request OpcodeAuthRequest phone, Effect.askCode,
                    Effect.request OpcodeAuth tempToken,
                    Effect.request OpcodeAuthConfirm
                      (tokenAttrsToken env.auth.resp TokenTypeRegister)] }
              | none =>
                if payloadToken env.confirm.resp = "" then
                  { err := some (GoError.other "registration token not received"),
                    token := token0,
                    effects := [Effect.request OpcodeAuthRequest phone, Effect.askCode,
                      Effect.request OpcodeAuth tempToken,
                      Effect.request OpcodeAuthConfirm
                        (tokenAttrsToken env.auth.resp TokenTypeRegister)] }
                else
                  storeToken env (payloadToken env.confirm.resp)
                    [Effect.request OpcodeAuthRequest phone, Effect.askCode,
                      Effect.request OpcodeAuth tempToken,
                      Effect.request OpcodeAuthConfirm
                        (tokenAttrsToken env.auth.resp TokenTypeRegister)]

/-- The branch `if c.cfg.Registration { c.Register(...) } else { c.Login(ctx) }` of
`Start`. -/
def authenticate (cfg : ClientConfig) (env : AuthEnv) (token0 : String) : FlowRun :=
  if cfg.Registration then Register env cfg.Phone token0 else Login env cfg.Phone token0

/-- The return value of the method `sync`, after its exchange has returned `r`. -/
def syncResult (r : CallReturn) : Option GoError :=
  match r.err with
  | some e => some e.toError
  | none => HandleError r.resp

/-- The environment of one `Start`: the error of the dial (by its text), the error of
the `SESSION_INIT` exchange, whether `ctx.Done()` wins the `select` after the
handshake, and the environments of the two possible authentications and of the two
possible sync exchanges. -/
structure StartEnv where
  dial : Option String
  sessionInit : Option CallErr
  ctxDone : Bool
  auth1 : AuthEnv
  sync1 : CallReturn
  auth2 : AuthEnv
  sync2 : CallReturn

/-- The test `maxErr, ok := err.(*Error); ok && maxErr.Code == "login.token"`. -/
def isLoginTokenError : GoError → Bool
  | GoError.maxError maxErr => decide (maxErr.Code = "login.token")
  | _ => false

/-- The part of `Start` from the first `c.sync(ctx)` on, on a client whose token is
`token`, after the effects `done`. -/
def startSync (cfg : ClientConfig) (env : StartEnv) (token : String) (done : List Effect) :
    FlowRun :=
  match syncResult env.sync1 with
  | none =>
    { err := none, token := token,
      effects := done ++ [Effect.request OpcodeLogin token, Effect.startHandlers] }
  | some err =>
    if isLoginTokenError err then
      match (authenticate cfg env.auth2 "").err with
      | some e =>
        { err := some e, token := (authenticate cfg env.auth2 "").token,
          effects := done ++ [Effect.request OpcodeLogin token, Effect.tokenCleared] ++
            (authenticate cfg env.auth2 "").effects }
      | none =>
        match syncResult env.sync2 with
        | some e =>
          { err := some e, token := (authenticate cfg env.auth2 "").token,
            effects := done ++ [Effect.request OpcodeLogin token, Effect.tokenCleared] ++
              (authenticate cfg env.auth2 "").effects ++
              [Effect.request OpcodeLogin (authenticate cfg env.auth2 "").token,
                Effect.teardown] }
        | none =>
          { err := none, token := (authenticate cfg env.auth2 "").token,
            effects := done ++ [Effect.request OpcodeLogin token, Effect.tokenCleared] ++
              (authenticate cfg env.auth2 "").effects ++
              [Effect.request OpcodeLogin (authenticate cfg env.auth2 "").token,
                Effect.startHandlers] }
    else
      { err := some err, token := token,
        effects := done ++ [Effect.request OpcodeLogin token, Effect.teardown] }

/-- The method `Start` on a client whose token is `token0`. -/
def Start (cfg : ClientConfig) (env : StartEnv) (token0 : String) : FlowRun :=
  match env.dial with
  | some text => { err := some (GoError.other text), token := token0, effects := [Effect.dial] }
  | none =>
    match env.sessionInit with
    | some e =>
      { err := some e.toError, token := token0,
        effects := [Effect.dial, Effect.spawnLoops, Effect.request OpcodeSessionInit "",
          Effect.teardown] }
    | none =>
      if env.ctxDone then
        { err := some GoError.ctxError, token := token0,
          effects := [Effect.dial, Effect.spawnLoops, Effect.request OpcodeSessionInit ""] }
      else if token0 = "" then
        match (authenticate cfg env.auth1 token0).err with
        | some e =>
          { err := some e, token := (authenticate cfg env.auth1 token0).token,
            effects := [Effect.dial, Effect.spawnLoops, Effect.request OpcodeSessionInit ""] ++
              (authenticate cfg env.auth1 token0).effects ++ [Effect.teardown] }
        | none =>
          startSync cfg env (authenticate cfg env.auth1 token0).token
            ([Effect.dial, Effect.spawnLoops, Effect.request OpcodeSessionInit ""] ++
              (authenticate cfg env.auth1 token0).effects)
      else
        startSync cfg env token0
          [Effect.dial, Effect.spawnLoops, Effect.request OpcodeSessionInit ""]

/-- Whether an effect is a sync request. -/
def Effect.isSync : Effect → Bool
  | Effect.request opcode _ => decide (opcode = OpcodeLogin)
  | _ => false

/-- The number of sync requests among the effects. -/
def syncRequests (effects : List Effect) : Nat := effects.countP Effect.isSync

/-- Whether an effect is a write of the token to the session store. -/
def Effect.isUpdateToken : Effect → Bool
  | Effect.updateToken _ => true
  | _ => false

/-- Whether an effect is one of those of `Login` and `Register`. -/
def Effect.isAuth : Effect → Bool
  | Effect.request opcode _ =>
    decide (opcode = OpcodeAuthRequest ∨ opcode = OpcodeAuth ∨ opcode = OpcodeAuthConfirm)
  | Effect.askCode => true
  | Effect.updateToken _ => true
  | _ => false

/-- A response with the given payload. -/
def responseWith (payload : List (String × JSON)) : CallReturn :=
  { resp := some [("payload", JSON.obj payload)], err := none }

/-- A successful login: the code request returns a temporary token, the confirmation
returns the login token "fresh", and the store accepts it. -/
def loginOk : AuthEnv :=
  { requestCode := responseWith [("token", JSON.str "temp")],
    code := Except.ok "123456",
    auth := responseWith
      [("tokenAttrs", JSON.obj [("LOGIN", JSON.obj [("token", JSON.str "fresh")])])],
    confirm := responseWith [],
    updateToken := none }

/-- A login whose confirmation is accepted by the server but whose token the session
store fails to write. -/
def loginStoreFails : AuthEnv := { loginOk with updateToken := some "database is locked" }

/-- A login whose confirmation carries empty `tokenAttrs`. -/
def loginNoToken : AuthEnv :=
  { loginOk with auth := responseWith [("tokenAttrs", JSON.obj [])] }

/-- A successful registration with the final token "fresh". -/
def registerOk : AuthEnv :=
  { loginOk with
    auth := responseWith
      [("tokenAttrs", JSON.obj [("REGISTER", JSON.obj [("token", JSON.str "reg")])])],
    confirm := responseWith [("token", JSON.str "fresh")] }

/-- A configuration for login with a valid phone number. -/
def loginConfig : ClientConfig :=
  { Phone := "+79001234567", WorkDir := "", Token := "", Registration := false }

/-- A start in which the stored token is rejected with `login.token`, the login that
follows succeeds and the second sync succeeds. -/
def reloginEnv : StartEnv :=
  { dial := none, sessionInit := none, ctxDone := false, auth1 := loginOk,
    sync1 := responseWith [("error", JSON.str "login.token")],
    auth2 := loginOk, sync2 := responseWith [] }

/-- A start of a client without token in which the login receives no token. -/
def noTokenEnv : StartEnv := { reloginEnv with auth1 := loginNoToken }

/-- The token is as before the call and `UpdateToken` was never invoked. -/
def FlowRun.keptToken (r : FlowRun) (token0 : String) : Prop :=
  r.token = token0 ∧ ∀ e ∈ r.effects, e.isUpdateToken = false

/-- The flow obtained a non-empty final token, assigned it to `c.token`, invoked
`UpdateToken` once with it, and returned the error of that write. -/
def FlowRun.failedAtStore (r : FlowRun) (env : AuthEnv) : Prop :=
  ∃ text, env.updateToken = some text ∧ r.err = some (GoError.other text) ∧ r.token ≠ "" ∧
    r.effects.filter Effect.isUpdateToken = [Effect.updateToken r.token]

/-! ## Dialog ids -/

/-- The bit pattern of an `int64`, as an unsigned 64-bit number. -/
def toUint64 (n : Int) : Nat := (n % 2 ^ 64).toNat

/-- The method `GetChatId`: `firstUserID ^ secondUserID` on `int64`, bit by bit on the
two's complement patterns. -/
def GetChatId (firstUserID secondUserID : Int) : Int :=
  wrapInt ((toUint64 firstUserID ^^^ toUint64 secondUserID : Nat) : Int)

/-- A chat-update push frame with the given payload. -/
def notifChatFrame (payload : List (String × JSON)) : Frame :=
  [("ver", JSON.num 11), ("cmd", JSON.num 0), ("seq", JSON.num 0),
   ("opcode", JSON.num OpcodeNotifChat), ("payload", JSON.obj payload)]

/-- A chat-update push frame without a payload. -/
def notifChatFrameNoPayload : Frame :=
  [("ver", JSON.num 11), ("cmd", JSON.num 0), ("seq", JSON.num 0),
   ("opcode", JSON.num OpcodeNotifChat)]

/-- A client with two chat-update handlers and one cached chat. -/
def chatWatcher : MaxClient :=
  { NewMaxClient "token" [] [] [] 2 0 with Chats := [chatTitled 5 "a"] }

/-- The chat events of the spawned handler goroutines, in order. -/
def spawnedChats (c : MaxClient) : List (Option Chat) :=
  c.spawned.map (fun inv =>
    match inv.ev with
    | Event.chat chat => some chat
    | _ => none)

/-! ## Substring search with checked slices -/

/-- The slice expression `s[i:j]` with its bounds check: `none` is the runtime panic
"slice bounds out of range". -/
def goSliceChecked (s : List Char) (i j : Nat) : Option (List Char) :=
  if i ≤ j ∧ j ≤ s.length then some (goSlice s i j) else none

/-- The loop of `containsMiddle` from index `i` with `n` iterations to go, every slice
checked: `none` when a slice panics. -/
def containsMiddleFrom (s substr : List Char) : Nat → Nat → Option Bool
  | 0, _ => some false
  | n + 1, i =>
    match goSliceChecked s i (i + substr.length) with
    | none => none
    | some part => if part = substr then some true else containsMiddleFrom s substr n (i + 1)

/-- The function `containsMiddle` with checked slices:
`for i := 0; i <= len(s)-len(substr); i++`. -/
def containsMiddleChecked (s substr : List Char) : Option Bool :=
  containsMiddleFrom s substr (((s.length : Int) - (substr.length : Int) + 1).toNat) 0

/-- The function `contains` with checked slices and the short-circuit evaluation of
`&&` and `||`. -/
def containsChecked (s substr : List Char) : Option Bool :=
  if s.length ≥ substr.length then
    if s = substr then some true
    else if substr.length = 0 then some true
    else if s.length > substr.length then
      match goSliceChecked s 0 substr.length with
      | none => none
      | some head =>
        if head = substr then some true
        else
          match goSliceChecked s (s.length - substr.length) s.length with
          | none => none
          | some tail => if tail = substr then some true else containsMiddleChecked s substr
    else some false
  else some false

/-- The wording of the specification of `Filter.Match`: every criterion that is set in
the filter holds for the message. -/
def Filter.holds (f : Filter) (msg : Message) : Prop :=
  (∀ id, f.ChatID = some id → msg.ChatID = some id) ∧
  (∀ id, f.UserID = some id → msg.Sender = some id) ∧
  (∀ t ∈ f.Text.getD [], t.data <:+: msg.Text.data) ∧
  (∀ t, f.TextContains = some t → t.data <:+: msg.Text.data) ∧
  (∀ st, f.Status = some st → msg.Status = some st) ∧
  (∀ ty, f.Type_ = some ty → msg.Type_ = ty) ∧
  (∀ flag, f.ReactionInfo = some flag → msg.Reactions = flag)

/-- A message with the given chat, sender and text. -/
def textMessage (chat sender : Int) (text : String) : Message :=
  { ID := 1, ChatID := some chat, Sender := some sender, Text := text, Time := 0,
    Type_ := "USER", Status := none, Reactions := false, Link := false, Options := none }

/-! ## What a sync response puts in the caches -/

/-- The entry `mockserver.TestChat(id, chatType, title)`. -/
def TestChat (id : Int) (chatType title : String) : JSON :=
  JSON.obj [("id", JSON.num id), ("type", JSON.str chatType), ("title", JSON.str title)]

/-- A response to the login request of `demoSetup` (opcode 19, `seq` 1) that carries a
profile and one chat. -/
def loginResponseFrame : Frame :=
  [("ver", JSON.num 11), ("cmd", JSON.num 1), ("seq", JSON.num 1),
   ("opcode", JSON.num OpcodeLogin),
   ("payload", JSON.obj
     [("profile", JSON.obj [("contact", JSON.obj
        [("id", JSON.num 999), ("phone", JSON.str "+79001234567")])]),
      ("chats", JSON.arr [TestChat 200 "CHAT" "Test Group"])])]

/-! ## Closing of result slots -/

/-- Whether the channel at a position of a heap has been closed. -/
def Heap.isClosed (h : Heap) (ch : Nat) : Bool :=
  match h[ch]? with
  | some c => c.closed
  | none => false

/-- The keys of a registry are pairwise different, as in a Go map. -/
def Registry.keysNodup (r : Registry) : Prop := (r.map Prod.fst).Nodup

/-- No two keys of a registry hold the same slot. -/
def Registry.slotsInj (r : Registry) : Prop :=
  ∀ k k1 ch, r.get k = some ch → r.get k1 = some ch → k = k1

/-- What one step does to a registry `r` with heap `h`, giving `r1` and `h1`: the keys
stay pairwise different, and a slot that the step closes was stored in the registry
before the step and is stored under no key after it. -/
def SlotStep (r : Registry) (h : Heap) (r1 : Registry) (h1 : Heap) : Prop :=
  r.keysNodup → r.slotsInj →
    r1.keysNodup ∧
    ∀ ch, h.isClosed ch = false → h1.isClosed ch = true →
      (∃ k, r.get k = some ch) ∧ ∀ k, r1.get k ≠ some ch

/-- A step that closes no slot and at most deletes keys. -/
def SlotQuiet (r : Registry) (h : Heap) (r1 : Registry) (h1 : Heap) : Prop :=
  (r1.map Prod.fst).Sublist (r.map Prod.fst) ∧ ∀ ch, h1.isClosed ch = h.isClosed ch

/-! ## Reconnection

The method `reconnect` is three pieces: the guard on the flag `reconnecting` (one
critical section under `reconnectMu`), the reconnection sequence proper, and the deferred
function that clears the flag. Several goroutines may call it; every call is one
program counter. -/

/-- The errors `reconnect` returns: "reconnection already in progress", or the error of
a stage wrapped with the name of the stage. -/
inductive ReconnectErr where
  | alreadyInProgress : ReconnectErr
  | dialFailed (cause : GoError) : ReconnectErr
  | sessionInitFailed (cause : GoError) : ReconnectErr
  | registrationFailed (cause : GoError) : ReconnectErr
  | loginFailed (cause : GoError) : ReconnectErr
  | syncFailed (cause : GoError) : ReconnectErr
  deriving DecidableEq

/-- The environment of one reconnection sequence: the error of the dial (by its text),
the error of the `SESSION_INIT` exchange, and the environments of the two possible
authentications and of the two possible sync exchanges. -/
structure ReconnectEnv where
  dial : Option String
  sessionInit : Option CallErr
  auth1 : AuthEnv
  sync1 : CallReturn
  auth2 : AuthEnv
  sync2 : CallReturn

/-- The connection state that `reconnect` works on: the handle `c.ws` (a connection is
named by its dial number, `none` is nil), `c.isConnected`, `c.token`, the number of
connections dialed so far, the connections closed by `ws.Close()`, and the dial attempts
and frames sent, in order. -/
structure Conn where
  ws : Option Nat
  isConnected : Bool
  token : String
  dialed : Nat
  closed : List Nat
  trace : List Effect
  deriving DecidableEq

/-- The cleanup `if c.ws != nil { _ = c.ws.Close(); c.ws = nil }`. -/
def Conn.closeWs (c : Conn) : Conn :=
  match c.ws with
  | some w => { c with ws := none, closed := c.closed ++ [w] }
  | none => c

/-- The wrapping of an authentication error: "registration failed" or "login failed". -/
def authError (cfg : ClientConfig) (cause : GoError) : ReconnectErr :=
  if cfg.Registration then ReconnectErr.registrationFailed cause
  else ReconnectErr.loginFailed cause

/-- The part of `reconnect` from `c.sync(ctx)` on. -/
def reconnectSync (cfg : ClientConfig) (env : ReconnectEnv) (c : Conn) :
    Conn × Option ReconnectErr :=
  match syncResult env.sync1 with
  | none => ({ c with trace := c.trace ++ [Effect.request OpcodeLogin c.token] }, none)
  | some err =>
    if isLoginTokenError err then
      match (authenticate cfg env.auth2 "").err with
      | some e =>
        (Conn.closeWs
          { c with token := (authenticate cfg env.auth2 "").token,
                   trace := c.trace ++ [Effect.request OpcodeLogin c.token, Effect.tokenCleared]
                     ++ (authenticate cfg env.auth2 "").effects },
          some (authError cfg e))
      | none =>
        match syncResult env.sync2 with
        | some e =>
          (Conn.closeWs
            { c with token := (authenticate cfg env.auth2 "").token,
                     trace := c.trace ++ [Effect.request OpcodeLogin c.token, Effect.tokenCleared]
                       ++ (authenticate cfg env.auth2 "").effects
                       ++ [Effect.request OpcodeLogin (authenticate cfg env.auth2 "").token] },
            some (ReconnectErr.syncFailed e))
        | none =>
          ({ c with token := (authenticate cfg env.auth2 "").token,
                    trace := c.trace ++ [Effect.request OpcodeLogin c.token, Effect.tokenCleared]
                      ++ (authenticate cfg env.auth2 "").effects
                      ++ [Effect.request OpcodeLogin (authenticate cfg env.auth2 "").token] },
            none)
    else
      (Conn.closeWs { c with trace := c.trace ++ [Effect.request OpcodeLogin c.token] },
        some (ReconnectErr.syncFailed err))

/-- The part of `reconnect` after the handshake. -/
def reconnectAuth (cfg : ClientConfig) (env : ReconnectEnv) (c : Conn) :
    Conn × Option ReconnectErr :=
  if c.token = "" then
    match (authenticate cfg env.auth1 c.token).err with
    | some e =>
      (Conn.closeWs
        { c with token := (authenticate cfg env.auth1 c.token).token,
                 trace := c.trace ++ (authenticate cfg env.auth1 c.token).effects },
        some (authError cfg e))
    | none =>
      reconnectSync cfg env
        { c with token := (authenticate cfg env.auth1 c.token).token,
                 trace := c.trace ++ (authenticate cfg env.auth1 c.token).effects }
  else reconnectSync cfg env c

/-- The reconnection sequence of `reconnect`, from "Starting reconnection" to its return
statement: close the old connection, dial, handshake, authenticate, sync. -/
def reconnectBody (cfg : ClientConfig) (env : ReconnectEnv) (c : Conn) :
    Conn × Option ReconnectErr :=
  match env.dial with
  | some text =>
    ({ c.closeWs with isConnected := false, trace := c.trace ++ [Effect.dial] },
      some (ReconnectErr.dialFailed (GoError.other text)))
  | none =>
    match env.sessionInit with
    | some e =>
      (Conn.closeWs
        { c.closeWs with ws := some c.dialed, dialed := c.dialed + 1, isConnected := true,
                         trace := c.trace ++ [Effect.dial, Effect.request OpcodeSessionInit ""] },
        some (ReconnectErr.sessionInitFailed e.toError))
    | none =>
      reconnectAuth cfg env
        { c.closeWs with ws := some c.dialed, dialed := c.dialed + 1, isConnected := true,
                         trace := c.trace ++ [Effect.dial, Effect.request OpcodeSessionInit ""] }

/-- Program counter of one call of `reconnect`: not called yet, inside the reconnection
sequence (it has set the flag), at its return statement with the deferred function still
to run, or returned. -/
inductive ReconnectPc where
  | notCalled : ReconnectPc
  | running : ReconnectPc
  | returning (err : Option ReconnectErr) : ReconnectPc
  | returned (err : Option ReconnectErr) : ReconnectPc
  deriving DecidableEq

/-- Whether a call is between setting the flag and clearing it. -/
def ReconnectPc.active : ReconnectPc → Bool
  | ReconnectPc.running => true
  | ReconnectPc.returning _ => true
  | _ => false

/-- The flag `c.reconnecting`, the connection state, and the calls of `reconnect`. -/
structure ReconnectSys where
  reconnecting : Bool
  conn : Conn
  pcs : Nat → ReconnectPc

/-- One atomic step of one call: the guard, the reconnection sequence, the deferred
function. -/
inductive ReconnectAction where
  | enter (i : Nat) : ReconnectAction
  | body (i : Nat) : ReconnectAction
  | leave (i : Nat) : ReconnectAction
  deriving DecidableEq

/-- The program counter of call `i` moves to `pc`. -/
def ReconnectSys.setPc (s : ReconnectSys) (i : Nat) (pc : ReconnectPc) : ReconnectSys :=
  { s with pcs := Function.update s.pcs i pc }

/-- One step of the calls of `reconnect`; call `i` runs in the environment `envs i`. -/
def reconnectStep (cfg : ClientConfig) (envs : Nat → ReconnectEnv) :
    ReconnectAction → ReconnectSys → Option ReconnectSys
  | ReconnectAction.enter i, s =>
    match s.pcs i with
    | ReconnectPc.notCalled =>
      if s.reconnecting then
        some (s.setPc i (ReconnectPc.returned (some ReconnectErr.alreadyInProgress)))
      else some ({ s with reconnecting := true }.setPc i ReconnectPc.running)
    | _ => none
  | ReconnectAction.body i, s =>
    match s.pcs i with
    | ReconnectPc.running =>
      some ({ s with conn := (reconnectBody cfg (envs i) s.conn).1 }.setPc i
        (ReconnectPc.returning (reconnectBody cfg (envs i) s.conn).2))
    | _ => none
  | ReconnectAction.leave i, s =>
    match s.pcs i with
    | ReconnectPc.returning err =>
      some ({ s with reconnecting := false }.setPc i (ReconnectPc.returned err))
    | _ => none

/-- Execution of a schedule of the calls of `reconnect`. -/
def reconnectRun (cfg : ClientConfig) (envs : Nat → ReconnectEnv) (s : ReconnectSys) :
    List ReconnectAction → Option ReconnectSys
  | [] => some s
  | a :: rest => (reconnectStep cfg envs a s).bind (fun s1 => reconnectRun cfg envs s1 rest)

/-- A client that has lost its connection: no call of `reconnect` has been made and the
flag is clear. -/
def ReconnectSys.init (conn : Conn) : ReconnectSys :=
  { reconnecting := false, conn := conn, pcs := fun _ => ReconnectPc.notCalled }

/-- A connected client holding a token: connection 0 is the one dialed by `Start`. -/
def connectedConn : Conn :=
  { ws := some 0, isConnected := true, token := "stale", dialed := 1, closed := [], trace := [] }

/-- A reconnection whose dial fails. -/
def dialFailsEnv : ReconnectEnv :=
  { dial := some "connection refused", sessionInit := none, auth1 := loginOk,
    sync1 := responseWith [], auth2 := loginOk, sync2 := responseWith [] }

/-- A reconnection that succeeds at once. -/
def reconnectOkEnv : ReconnectEnv := { dialFailsEnv with dial := none }

/-- The calls of `reconnect` exclude each other, and the flag is set exactly while one
of them is between the guard and the deferred function. -/
structure ReconnectInv (s : ReconnectSys) : Prop where
  excl : ∀ i j, (s.pcs i).active = true → (s.pcs j).active = true → i = j
  flag : s.reconnecting = true ↔ ∃ i, (s.pcs i).active = true

/-- State of the demonstration client, connected and holding a token, after a schedule
of calls of `reconnect` whose dials all fail. -/
def reconnectDemo (acts : List ReconnectAction) : ReconnectSys :=
  (reconnectRun loginConfig (fun _ => dialFailsEnv) (ReconnectSys.init connectedConn) acts).getD
    (ReconnectSys.init connectedConn)

/-! ## Markdown elements

`GetElementsFromMarkdown` of `internal/utils/formatter.go`. A Go string is a sequence of
bytes and every index of the function is a byte index, so a text is a list of bytes.

The pattern `markupBlockPattern` is
`\*\*(?P<strong>.+?)\*\*|\*(?P<italic>.+?)\*|__(?P<underline>.+?)__|~~(?P<strike>.+?)~~`.
Its markers are ASCII bytes, which in a Go string never lie inside a longer rune (a byte
that does not continue a rune is decoded as a rune of width one), and `.` takes any rune
but the newline; so the lazy group ends at the first byte position, at least one byte
after the opening marker and with no newline in between, where the closing marker
stands. -/

/-- The byte of the newline. -/
def newline : UInt8 := 10

/-- The byte of `*`. -/
def star : UInt8 := 42

/-- The byte of `_`. -/
def underscore : UInt8 := 95

/-- The byte of `~`. -/
def tilde : UInt8 := 126

/-- The bytes of a string, in UTF-8. -/
def bytesOf (s : String) : List UInt8 := s.data.flatMap String.utf8EncodeChar

/-- The type `enums.FormattingType`, a string: its zero value and the four constants of
`enums/formatting.go` used by the formatter. -/
inductive FormattingType where
  | unset : FormattingType
  | strong : FormattingType
  | emphasized : FormattingType
  | underline : FormattingType
  | strikethrough : FormattingType
  deriving DecidableEq

/-- The struct `types.Element`, its field `Type` under the name `FmtType`; the formatter
always sets the pointer `From`. -/
structure Element where
  FmtType : FormattingType
  From : Nat
  Length : Nat
  deriving DecidableEq

/-- One entry of `FindAllStringSubmatchIndex`: the bounds of the match and of the four
named groups, `none` for a group that took no part (index -1). -/
structure Submatch where
  start : Nat
  stop : Nat
  strong : Option (Nat × Nat)
  italic : Option (Nat × Nat)
  underline : Option (Nat × Nat)
  strike : Option (Nat × Nat)
  deriving DecidableEq

/-- The lazy group `.+?` followed by the closing marker: the length of the shortest
non-empty run of bytes other than the newline after which the closing marker stands. -/
def shortestInner (closing : List UInt8) : List UInt8 → Option Nat
  | [] => none
  | b :: rest =>
    if b = newline then none
    else if closing.isPrefixOf rest then some 1
    else (shortestInner closing rest).map (fun k => k + 1)

/-- One alternative of the pattern anchored at the head of `s`: the marker, the lazy
group, the marker again. The result is the length of the group. -/
def matchBlock (marker : List UInt8) (s : List UInt8) : Option Nat :=
  if marker.isPrefixOf s then shortestInner marker (s.drop marker.length) else none

/-- The pattern anchored at position `pos`, where the text continues with `s`: the
first alternative that matches, in the order of the pattern. -/
def matchAtPos (pos : Nat) (s : List UInt8) : Option Submatch :=
  match matchBlock [star, star] s with
  | some k =>
    some { start := pos, stop := pos + 2 + k + 2, strong := some (pos + 2, pos + 2 + k),
           italic := none, underline := none, strike := none }
  | none =>
    match matchBlock [star] s with
    | some k =>
      some { start := pos, stop := pos + 1 + k + 1, strong := none,
             italic := some (pos + 1, pos + 1 + k), underline := none, strike := none }
    | none =>
      match matchBlock [underscore, underscore] s with
      | some k =>
        some { start := pos, stop := pos + 2 + k + 2, strong := none, italic := none,
               underline := some (pos + 2, pos + 2 + k), strike := none }
      | none =>
        match matchBlock [tilde, tilde] s with
        | some k =>
          some { start := pos, stop := pos + 2 + k + 2, strong := none, italic := none,
                 underline := none, strike := some (pos + 2, pos + 2 + k) }
        | none => none

/-- The successive matches from position `pos` on, where the text continues with the
list given; the first `skip` bytes belong to the previous match. The search for the next
match starts where the previous one stopped and takes the leftmost position that
matches. -/
def findAllFrom : Nat → Nat → List UInt8 → List Submatch
  | _, _, [] => []
  | pos, skip + 1, _ :: rest => findAllFrom (pos + 1) skip rest
  | pos, 0, b :: rest =>
    match matchAtPos pos (b :: rest) with
    | some m => m :: findAllFrom (pos + 1) (m.stop - pos - 1) rest
    | none => findAllFrom (pos + 1) 0 rest

/-- The call `markupBlockPattern.FindAllStringSubmatchIndex(text, -1)`. -/
def FindAllStringSubmatchIndex (text : List UInt8) : List Submatch := findAllFrom 0 0 text

/-- The call `strings.Trim(text, "\n")`. -/
def trimNewlines (text : List UInt8) : List UInt8 :=
  ((text.dropWhile (fun b => b = newline)).reverse.dropWhile (fun b => b = newline)).reverse

/-- The slice expression `text[i:j]` on bytes with its bounds check: `none` is the
runtime panic "slice bounds out of range". -/
def byteSlice (text : List UInt8) (i j : Nat) : Option (List UInt8) :=
  if i ≤ j ∧ j ≤ text.length then some ((text.drop i).take (j - i)) else none

/-- The variables of the loop of `GetElementsFromMarkdown`. -/
structure MarkdownState where
  elements : List Element
  cleanParts : List (List UInt8)
  currentPos : Nat
  lastEnd : Nat
  deriving DecidableEq

/-- The group of a match with its formatting type: the chain of tests of
`match[idx*2] >= 0` in the order strong, italic, underline, strike; without a group the
variables keep their zero values. `none` when the slice panics. -/
def innerOf (text : List UInt8) (m : Submatch) : Option (List UInt8 × FormattingType) :=
  match m.strong with
  | some g => (byteSlice text g.1 g.2).map (fun t => (t, FormattingType.strong))
  | none =>
    match m.italic with
    | some g => (byteSlice text g.1 g.2).map (fun t => (t, FormattingType.emphasized))
    | none =>
      match m.underline with
      | some g => (byteSlice text g.1 g.2).map (fun t => (t, FormattingType.underline))
      | none =>
        match m.strike with
        | some g => (byteSlice text g.1 g.2).map (fun t => (t, FormattingType.strikethrough))
        | none => some ([], FormattingType.unset)

/-- The test `nextPos < len(text) && text[nextPos] == '\n'`. -/
def newlineAt (text : List UInt8) (nextPos : Nat) : Bool :=
  decide (nextPos < text.length) && (text[nextPos]? == some newline)

/-- The variable `hasNewline`. -/
def hasNewline (text : List UInt8) (nextPos : Nat) : Bool :=
  newlineAt text nextPos || decide (nextPos = text.length)

/-- The first statements of the loop body: the text between the previous match and this
one joins the clean parts. -/
def addBetween (st : MarkdownState) (between : List UInt8) : MarkdownState :=
  if between = [] then st
  else { st with cleanParts := st.cleanParts ++ [between],
                 currentPos := st.currentPos + between.length }

/-- The rest of the loop body, for a match with the group `innerText`. -/
def addElement (text : List UInt8) (st : MarkdownState) (m : Submatch) (innerText : List UInt8)
    (fmtType : FormattingType) : MarkdownState :=
  if innerText = [] then { st with lastEnd := m.stop }
  else
    { elements := st.elements ++
        [{ FmtType := fmtType, From := st.currentPos,
           Length := if hasNewline text m.stop then innerText.length + 1 else innerText.length }],
      cleanParts := st.cleanParts ++ [innerText] ++
        (if hasNewline text m.stop then [[newline]] else []),
      currentPos := st.currentPos +
        (if hasNewline text m.stop then innerText.length + 1 else innerText.length),
      lastEnd := if newlineAt text m.stop then m.stop + 1 else m.stop }

/-- One iteration of the loop over the matches; `none` when a slice panics. -/
def markdownStep (text : List UInt8) (st : MarkdownState) (m : Submatch) :
    Option MarkdownState :=
  match byteSlice text st.lastEnd m.start with
  | none => none
  | some between =>
    match innerOf text m with
    | none => none
    | some inner => some (addElement text (addBetween st between) m inner.1 inner.2)

/-- The loop `for _, match := range matches`. -/
def markdownLoop (text : List UInt8) : MarkdownState → List Submatch → Option MarkdownState
  | st, [] => some st
  | st, m :: rest =>
    match markdownStep text st m with
    | none => none
    | some st1 => markdownLoop text st1 rest

/-- The statements after the loop: the tail joins the clean parts, which are joined. -/
def finishMarkdown (text : List UInt8) (st : MarkdownState) :
    Option (List Element × List UInt8) :=
  match byteSlice text st.lastEnd text.length with
  | none => none
  | some tail =>
    some (st.elements, (if tail = [] then st.cleanParts else st.cleanParts ++ [tail]).flatten)

/-- The function `GetElementsFromMarkdown`: the elements and the clean text, or `none`
when the run panics on an index out of range. -/
def GetElementsFromMarkdown (text : List UInt8) : Option (List Element × List UInt8) :=
  match markdownLoop (trimNewlines text)
      { elements := [], cleanParts := [], currentPos := 0, lastEnd := 0 }
      (FindAllStringSubmatchIndex (trimNewlines text)) with
  | none => none
  | some st => finishMarkdown (trimNewlines text) st

/-- The group of a match that the loop reads is the one with bounds `a` and `b`: the
first of the four groups that took part. -/
def Submatch.Inner (m : Submatch) (a b : Nat) : Prop :=
  m.strong = some (a, b) ∨
  (m.strong = none ∧ m.italic = some (a, b)) ∨
  (m.strong = none ∧ m.italic = none ∧ m.underline = some (a, b)) ∨
  (m.strong = none ∧ m.italic = none ∧ m.underline = none ∧ m.strike = some (a, b))

/-- What the loop relies on in a list of matches of `text` found from position `lo` on:
every match starts at or after the end of the one before, starts with a byte that is not
a newline, holds a non-empty group, and ends inside the text. -/
def MatchesFrom (text : List UInt8) : Nat → List Submatch → Prop
  | _, [] => True
  | lo, m :: ms =>
    lo ≤ m.start ∧ text[m.start]? ≠ some newline ∧
    (∃ a b, m.Inner a b ∧ m.start ≤ a ∧ a < b ∧ b ≤ m.stop) ∧
    m.stop ≤ text.length ∧ MatchesFrom text m.stop ms

/-- The variable `lastEnd` stands at or before `lo`, or one past it over a newline. -/
def LastEndAt (text : List UInt8) (st : MarkdownState) (lo : Nat) : Prop :=
  st.lastEnd ≤ lo ∨ (st.lastEnd = lo + 1 ∧ text[lo]? = some newline)

/-- The elements follow each other without overlap, in increasing order of `From`. -/
def ElementsOrdered (elements : List Element) : Prop :=
  elements.Pairwise (fun a b => a.From + a.Length ≤ b.From ∧ a.From < b.From)

/-- Invariant of the loop of `GetElementsFromMarkdown`: `currentPos` is the length of
the clean parts so far, the elements are ordered, non-empty and end at or before
`currentPos`, and `lastEnd` is inside the text. -/
structure MarkdownInv (text : List UInt8) (st : MarkdownState) : Prop where
  pos_eq : st.currentPos = st.cleanParts.flatten.length
  ordered : ElementsOrdered st.elements
  inside : ∀ e ∈ st.elements, 0 < e.Length ∧ e.From + e.Length ≤ st.currentPos
  lastEnd_le : st.lastEnd ≤ text.length

/-! ## The JSON codec on frames

`JSONMarshal` and `JSONUnmarshal` of `internal/utils/json.go` are `json.Marshal` and
`json.Unmarshal`. `json.Marshal` writes an integer as its decimal literal, exactly, and a
float64 by the shortest literal that reads back as the same float64; `json.Unmarshal`
into a `map[string]any` stores every number as the float64 nearest to its literal and
strings, booleans, null, arrays and objects as they stand. A document keeps the order of
its pairs here, which stands for nothing in a Go map. -/

mutual
/-- The value that `JSONUnmarshal` into an `any` makes of the bytes that `JSONMarshal`
wrote for a value: every number becomes the nearest float64. -/
def JSON.reload : JSON → JSON
  | JSON.null => JSON.null
  | JSON.bool b => JSON.bool b
  | JSON.num n => JSON.num (float64OfInt n)
  | JSON.str s => JSON.str s
  | JSON.arr xs => JSON.arr (reloadList xs)
  | JSON.obj kvs => JSON.obj (reloadPairs kvs)
/-- The elements of an array, reloaded. -/
def reloadList : List JSON → List JSON
  | [] => []
  | x :: xs => x.reload :: reloadList xs
/-- The pairs of an object, reloaded. -/
def reloadPairs : List (String × JSON) → List (String × JSON)
  | [] => []
  | (k, v) :: rest => (k, v.reload) :: reloadPairs rest
end

/-- The map `msg` that `JSONUnmarshal(data, &msg)` fills in `recvLoop` when `data` are the
bytes that `JSONMarshal` wrote for a frame in `sendLoop`. -/
def roundTrip (frame : Frame) : Frame := reloadPairs frame

mutual
/-- Whether every number of a value is a float64, as in every value that `JSONUnmarshal`
stores in an `any`, and so in every map that `utils.ToMap` returns. -/
def JSON.isDecoded : JSON → Bool
  | JSON.null => true
  | JSON.bool _ => true
  | JSON.num n => decide (float64OfInt n = n)
  | JSON.str _ => true
  | JSON.arr xs => allDecoded xs
  | JSON.obj kvs => pairsDecoded kvs
/-- Whether every element of an array is decoded. -/
def allDecoded : List JSON → Bool
  | [] => true
  | x :: xs => x.isDecoded && allDecoded xs
/-- Whether every value of an object is decoded. -/
def pairsDecoded : List (String × JSON) → Bool
  | [] => true
  | (_, v) :: rest => v.isDecoded && pairsDecoded rest
end

/-- Whether the numbers of a payload map are float64 values. -/
def GoMap.isDecoded : GoMap → Bool
  | none => true
  | some kvs => pairsDecoded kvs

/-! ## Registries and heaps: basic facts -/

theorem Registry.del_cons (k1 : Int) (v1 : Nat) (rest : Registry) (k : Int) :
    Registry.del ((k1, v1) :: rest) k =
      if k1 = k then Registry.del rest k else (k1, v1) :: Registry.del rest k := by
  by_cases h : k1 = k <;> simp [Registry.del, List.filter, h]

theorem Registry.get_cons (k1 : Int) (v1 : Nat) (rest : Registry) (k : Int) :
    Registry.get ((k1, v1) :: rest) k = if k1 = k then some v1 else Registry.get rest k := rfl

theorem Registry.get_del_self (r : Registry) (k : Int) : (r.del k).get k = none := by
  induction r with
  | nil => rfl
  | cons e rest ih =>
    obtain ⟨k1, v1⟩ := e
    rw [Registry.del_cons]
    by_cases h : k1 = k
    · simpa [h] using ih
    · simpa [h, Registry.get_cons] using ih

theorem Registry.get_del_ne (r : Registry) {k k1 : Int} (h : k1 ≠ k) :
    (r.del k).get k1 = r.get k1 := by
  induction r with
  | nil => rfl
  | cons e rest ih =>
    obtain ⟨k2, v2⟩ := e
    rw [Registry.del_cons, Registry.get_cons]
    by_cases h2 : k2 = k
    · have h3 : k2 ≠ k1 := fun e => h (e ▸ h2)
      simpa [h2, h3, Ne.symm h] using ih
    · by_cases h3 : k2 = k1
      · subst h3; simp [h2, Registry.get_cons]
      · simpa [h2, Registry.get_cons, h3] using ih

theorem Registry.get_put_self (r : Registry) (k : Int) (v : Nat) : (r.put k v).get k = some v := by
  simp [Registry.put, Registry.get]

theorem Registry.get_put_ne (r : Registry) {k k1 : Int} (v : Nat) (h : k1 ≠ k) :
    (r.put k v).get k1 = r.get k1 := by
  simp [Registry.put, Registry.get, Ne.symm h, Registry.get_del_ne r h]

theorem Registry.get_del_some (r : Registry) {k k1 : Int} {v : Nat}
    (h : (r.del k).get k1 = some v) : k1 ≠ k ∧ r.get k1 = some v := by
  by_cases hk : k1 = k
  · subst hk; rw [Registry.get_del_self] at h; cases h
  · exact ⟨hk, by rwa [Registry.get_del_ne r hk] at h⟩

theorem Registry.mem_of_get (r : Registry) {k : Int} {v : Nat} (h : r.get k = some v) :
    v ∈ r.map Prod.snd := by
  induction r with
  | nil => cases h
  | cons e rest ih =>
    obtain ⟨k2, v2⟩ := e
    by_cases h2 : k2 = k
    · simp [Registry.get, h2] at h; simp [h]
    · simp [Registry.get, h2] at h; simp [ih h]

theorem Heap.close_length (h : Heap) (id : Nat) : (h.close id).1.length = h.length := by
  unfold Heap.close; split <;> simp

theorem Heap.close_getElem?_ne (h : Heap) {id j : Nat} (hj : j ≠ id) :
    (h.close id).1[j]? = h[j]? := by
  unfold Heap.close; split
  · simp [List.getElem?_set, Ne.symm hj]
  · rfl

theorem Heap.close_getElem?_self (h : Heap) {id : Nat} {ch : Chan} (hc : h[id]? = some ch) :
    (h.close id).1[id]? = some ch.close.1 := by
  have hlt : id < h.length := by
    by_contra hge
    rw [List.getElem?_eq_none (by omega)] at hc; cases hc
  unfold Heap.close; rw [hc]; simp [List.getElem?_set, hlt]

theorem Chan.close_canRecv (ch : Chan) : ch.close.1.canRecv = true := by
  unfold Chan.close; split <;> simp_all [Chan.canRecv]

theorem Chan.close_fresh : (Chan.fresh.close).2 = ChanOp.done := by
  simp [Chan.close, Chan.fresh]

theorem Chan.fresh_not_canRecv : Chan.fresh.canRecv = false := by
  simp [Chan.canRecv, Chan.fresh]

theorem Chan.trySend_fresh (msg : Frame) :
    Chan.fresh.trySend msg = ({ buf := [some msg], closed := false }, ChanOp.done) := by
  simp [Chan.trySend, Chan.fresh]

theorem Heap.trySend_length (h : Heap) (id : Nat) (msg : Frame) :
    (h.trySend id msg).1.length = h.length := by
  unfold Heap.trySend; split <;> simp

theorem Heap.trySend_getElem?_ne (h : Heap) {id j : Nat} (msg : Frame) (hj : j ≠ id) :
    (h.trySend id msg).1[j]? = h[j]? := by
  unfold Heap.trySend; split
  · simp [List.getElem?_set, Ne.symm hj]
  · rfl

theorem Heap.trySend_at_fresh (h : Heap) {id : Nat} (msg : Frame) (hc : h[id]? = some Chan.fresh) :
    (h.trySend id msg).1[id]? = some { buf := [some msg], closed := false } ∧
      (h.trySend id msg).2 = ChanOp.done := by
  have hlt : id < h.length := by
    by_contra hge
    rw [List.getElem?_eq_none (by omega)] at hc; cases hc
  unfold Heap.trySend; rw [hc]; simp [List.getElem?_set, hlt, Chan.trySend_fresh]

/-- After `closeAll`, every channel keeps its position; a channel that could be received
from still can, and every listed channel is closed. -/
theorem Heap.closeAll_spec (ids : List Nat) (h : Heap) :
    (h.closeAll ids).1.length = h.length ∧
    ∀ j ch, h[j]? = some ch → ∃ ch1, (h.closeAll ids).1[j]? = some ch1 ∧
      (ch.canRecv = true → ch1.canRecv = true) ∧ (j ∈ ids → ch1.canRecv = true) ∧
      (j ∉ ids → ch1 = ch) := by
  induction ids generalizing h with
  | nil =>
    refine ⟨rfl, fun j ch hj => ⟨ch, hj, id, ?_, fun _ => rfl⟩⟩
    intro hmem; cases hmem
  | cons id rest ih =>
    obtain ⟨hlen, hall⟩ := ih (h.close id).1
    refine ⟨by simpa [Heap.closeAll, Heap.close_length] using hlen, ?_⟩
    intro j ch hj
    by_cases hji : j = id
    · subst hji
      obtain ⟨ch1, h1, h2, _, _⟩ := hall j ch.close.1 (Heap.close_getElem?_self h hj)
      exact ⟨ch1, by simpa [Heap.closeAll] using h1, fun _ => h2 (Chan.close_canRecv ch),
        fun _ => h2 (Chan.close_canRecv ch), fun hn => absurd (List.mem_cons_self _ _) hn⟩
    · obtain ⟨ch1, h1, h2, h3, h4⟩ := hall j ch (by rwa [Heap.close_getElem?_ne h hji])
      refine ⟨ch1, by simpa [Heap.closeAll] using h1, h2, ?_, ?_⟩
      · intro hmem
        rcases List.mem_cons.mp hmem with e | e
        · exact absurd e hji
        · exact h3 e
      · intro hn
        exact h4 (fun e => hn (List.mem_cons_of_mem _ e))

/-! ## The system: frame lemmas -/

theorem wrapInt_eq {x : Int} (h1 : -(2 : Int) ^ 63 ≤ x) (h2 : x < 2 ^ 63) : wrapInt x = x := by
  unfold wrapInt
  have h3 : (x + 2 ^ 63) % 2 ^ 64 = x + 2 ^ 63 := by
    apply Int.emod_eq_of_lt <;> norm_num at * <;> omega
  rw [h3]; ring

@[simp] theorem Sys.setCall_c (s : Sys) (i : Nat) (pc : CallPc) (c : MaxClient) :
    (s.setCall i pc c).c = c := rfl

@[simp] theorem Sys.setCall_reader (s : Sys) (i : Nat) (pc : CallPc) (c : MaxClient) :
    (s.setCall i pc c).reader = s.reader := rfl

theorem Sys.setCall_pc (s : Sys) (i : Nat) (pc : CallPc) (c : MaxClient) (j : Nat) :
    ((s.setCall i pc c).calls j).pc = if j = i then pc else (s.calls j).pc := by
  unfold Sys.setCall
  by_cases h : j = i
  · subst h; simp
  · simp [Function.update, h]

theorem Sys.setCall_pc_self (s : Sys) (i : Nat) (pc : CallPc) (c : MaxClient) :
    ((s.setCall i pc c).calls i).pc = pc := by
  simp [Sys.setCall_pc]

theorem Sys.setCall_pc_ne (s : Sys) {i j : Nat} (pc : CallPc) (c : MaxClient) (h : j ≠ i) :
    ((s.setCall i pc c).calls j).pc = (s.calls j).pc := by
  simp [Sys.setCall_pc, h]

theorem CallPc.seq_of_waiter {pc : CallPc} {q : Int} {ch : Nat}
    (h : pc.waiter? = some (q, ch)) : pc.seq? = some q := by
  cases pc <;> simp_all [CallPc.waiter?, CallPc.seq?]

namespace PendInv

variable {n : Nat} {s : Sys}

theorem mono (h : PendInv n s) : PendInv (n + 1) s :=
  { h with seq_le := by have := h.seq_le; push_cast; omega }

/-- Two keys of the pending registry never share a channel. -/
theorem key_inj (h : PendInv n s) {q q1 : Int} {ch : Nat} (h1 : s.c.pending.get q = some ch)
    (h2 : s.c.pending.get q1 = some ch) : q = q1 := by
  obtain ⟨i, hi⟩ := h.owner q ch h1
  obtain ⟨j, hj⟩ := h.owner q1 ch h2
  have hij := h.chan_inj i j q q1 ch hi hj
  subst hij
  rw [hi] at hj
  simpa using hj

/-- The registry entry under the sequence number of a call is that call's channel. -/
theorem own_entry (h : PendInv n s) {i : Nat} {q : Int} {ch ch1 : Nat}
    (hw : (s.calls i).pc.waiter? = some (q, ch)) (hg : s.c.pending.get q = some ch1) :
    ch1 = ch := by
  obtain ⟨j, hj⟩ := h.owner q ch1 hg
  have hij := h.call_inj i j q (CallPc.seq_of_waiter hw) (CallPc.seq_of_waiter hj)
  subst hij
  rw [hw] at hj
  simpa using hj.symm

/-- A system that differs from one satisfying the invariant only outside the pending
registry, its slots, the allocation state of the calls and a reader that holds no slot. -/
theorem same_view {s1 : Sys} (h : PendInv n s) (hseq : s1.c.seq = s.c.seq)
    (hp : s1.c.pending = s.c.pending) (hsl : s1.c.respSlots = s.c.respSlots)
    (hseq? : ∀ i, (s1.calls i).pc.seq? = (s.calls i).pc.seq?)
    (hw : ∀ i, (s1.calls i).pc.waiter? = (s.calls i).pc.waiter?)
    (hret : ∀ i q r e, (s1.calls i).pc = CallPc.returned q r e →
      ∃ r1 e1, (s.calls i).pc = CallPc.returned q r1 e1)
    (hr : s1.reader = s.reader ∨
      ((∀ ch msg, s.reader ≠ Reader.delivering ch msg) ∧
        ∀ ch msg, s1.reader ≠ Reader.delivering ch msg)) : PendInv n s1 where
  seq_nonneg := by rw [hseq]; exact h.seq_nonneg
  seq_le := by rw [hseq]; exact h.seq_le
  call_seq := by intro i q hq; rw [hseq? i] at hq; rw [hseq]; exact h.call_seq i q hq
  call_inj := by intro i j q hi hj; rw [hseq?] at hi hj; exact h.call_inj i j q hi hj
  owner := by
    intro q ch hg; rw [hp] at hg
    obtain ⟨i, hi⟩ := h.owner q ch hg
    exact ⟨i, by rw [hw]; exact hi⟩
  slot_fresh := by intro q ch hg; rw [hp] at hg; rw [hsl]; exact h.slot_fresh q ch hg
  chan_lt := by intro i q ch hi; rw [hw] at hi; rw [hsl]; exact h.chan_lt i q ch hi
  chan_inj := by intro i j q q1 ch hi hj; rw [hw] at hi hj; exact h.chan_inj i j q q1 ch hi hj
  reader_slot := by
    intro ch msg hrd
    rcases hr with hr | ⟨_, hr⟩
    · rw [hr] at hrd; rw [hsl, hp]; exact h.reader_slot ch msg hrd
    · exact absurd hrd (hr ch msg)
  waiter_state := by
    intro i q ch hi; rw [hw] at hi
    rcases h.waiter_state i q ch hi with h1 | ⟨msg, h2⟩ | h3
    · left; rw [hp]; exact h1
    · rcases hr with hr | ⟨hr, _⟩
      · right; left; exact ⟨msg, by rw [hr]; exact h2⟩
      · exact absurd h2 (hr ch msg)
    · right; right; rw [hsl]; exact h3
  returned_gone := by
    intro i q r e hi
    obtain ⟨r1, e1, h1⟩ := hret i q r e hi
    rw [hp]; exact h.returned_gone i q r1 e1 h1

/-- Allocation of a sequence number by a call that has not started. -/
theorem after_alloc {s1 : Sys} {i : Nat} (h : PendInv n s)
    (hpc : (s.calls i).pc = CallPc.start)
    (hseq : s1.c.seq = s.c.seq + 1) (hp : s1.c.pending = s.c.pending)
    (hsl : s1.c.respSlots = s.c.respSlots) (hr : s1.reader = s.reader)
    (hi : (s1.calls i).pc = CallPc.allocated (s.c.seq + 1))
    (hne : ∀ j, j ≠ i → (s1.calls j).pc = (s.calls j).pc) : PendInv (n + 1) s1 := by
  have hnw : ∀ j q ch, (s1.calls j).pc.waiter? = some (q, ch) →
      j ≠ i ∧ (s.calls j).pc.waiter? = some (q, ch) := by
    intro j q ch hj
    by_cases hji : j = i
    · subst hji; rw [hi] at hj; simp [CallPc.waiter?] at hj
    · exact ⟨hji, by rw [hne j hji] at hj; exact hj⟩
  have hold : ∀ j q ch, (s.calls j).pc.waiter? = some (q, ch) →
      (s1.calls j).pc.waiter? = some (q, ch) := by
    intro j q ch hj
    have hji : j ≠ i := by
      intro e; subst e; rw [hpc] at hj; simp [CallPc.waiter?] at hj
    rw [hne j hji]; exact hj
  have hsq : ∀ j q, (s1.calls j).pc.seq? = some q →
      (j = i ∧ q = s.c.seq + 1) ∨ (j ≠ i ∧ (s.calls j).pc.seq? = some q) := by
    intro j q hj
    by_cases hji : j = i
    · subst hji; rw [hi] at hj; left; simpa [CallPc.seq?, eq_comm] using hj
    · right; exact ⟨hji, by rw [hne j hji] at hj; exact hj⟩
  have h0 := h.seq_nonneg
  have hle := h.seq_le
  refine
    { seq_nonneg := by rw [hseq]; omega
      seq_le := by rw [hseq]; push_cast; omega
      call_seq := ?_, call_inj := ?_, owner := ?_, slot_fresh := ?_, chan_lt := ?_,
      chan_inj := ?_, reader_slot := ?_, waiter_state := ?_, returned_gone := ?_ }
  · intro j q hj
    rw [hseq]
    rcases hsq j q hj with ⟨_, e⟩ | ⟨_, e⟩
    · omega
    · have := h.call_seq j q e; omega
  · intro j k q hj hk
    rcases hsq j q hj with ⟨e1, e2⟩ | ⟨e1, e2⟩ <;>
      rcases hsq k q hk with ⟨e3, e4⟩ | ⟨e3, e4⟩
    · rw [e1, e3]
    · have := h.call_seq k q e4; omega
    · have := h.call_seq j q e2; omega
    · exact h.call_inj j k q e2 e4
  · intro q ch hg; rw [hp] at hg
    obtain ⟨j, hj⟩ := h.owner q ch hg
    exact ⟨j, hold j q ch hj⟩
  · intro q ch hg; rw [hp] at hg; rw [hsl]; exact h.slot_fresh q ch hg
  · intro j q ch hj; rw [hsl]; exact h.chan_lt j q ch (hnw j q ch hj).2
  · intro j k q q1 ch hj hk
    exact h.chan_inj j k q q1 ch (hnw j q ch hj).2 (hnw k q1 ch hk).2
  · intro ch msg hrd; rw [hr] at hrd; rw [hsl, hp]; exact h.reader_slot ch msg hrd
  · intro j q ch hj; rw [hp, hsl, hr]; exact h.waiter_state j q ch (hnw j q ch hj).2
  · intro j q r e hj
    have hji : j ≠ i := by
      intro e1; subst e1; rw [hi] at hj; cases hj
    rw [hne j hji] at hj; rw [hp]; exact h.returned_gone j q r e hj

/-- Registration of a waiter under the allocated sequence number, with a new channel. -/
theorem after_register {s1 : Sys} {i : Nat} {q : Int} (h : PendInv n s)
    (hpc : (s.calls i).pc = CallPc.allocated q)
    (hseq : s1.c.seq = s.c.seq)
    (hp : s1.c.pending = s.c.pending.put q s.c.respSlots.length)
    (hsl : s1.c.respSlots = s.c.respSlots ++ [Chan.fresh]) (hr : s1.reader = s.reader)
    (hi : (s1.calls i).pc = CallPc.registered q s.c.respSlots.length)
    (hne : ∀ j, j ≠ i → (s1.calls j).pc = (s.calls j).pc) : PendInv n s1 := by
  have hsq : ∀ j, (s1.calls j).pc.seq? = (s.calls j).pc.seq? := by
    intro j
    by_cases hji : j = i
    · subst hji; rw [hi, hpc]; rfl
    · rw [hne j hji]
  have hnw : ∀ j q1 ch, (s1.calls j).pc.waiter? = some (q1, ch) →
      (j = i ∧ q1 = q ∧ ch = s.c.respSlots.length) ∨
        (j ≠ i ∧ (s.calls j).pc.waiter? = some (q1, ch)) := by
    intro j q1 ch hj
    by_cases hji : j = i
    · subst hji; rw [hi] at hj; left
      simp [CallPc.waiter?] at hj; exact ⟨rfl, hj.1.symm, hj.2.symm⟩
    · right; exact ⟨hji, by rw [hne j hji] at hj; exact hj⟩
  have hgetne : ∀ q1, q1 ≠ q → s1.c.pending.get q1 = s.c.pending.get q1 := by
    intro q1 hq; rw [hp, Registry.get_put_ne _ _ hq]
  have hgetq : s1.c.pending.get q = some s.c.respSlots.length := by
    rw [hp, Registry.get_put_self]
  have hslot_old : ∀ ch, ch < s.c.respSlots.length →
      s1.c.respSlots[ch]? = s.c.respSlots[ch]? := by
    intro ch hlt; rw [hsl, List.getElem?_append_left hlt]
  have hlt_of : ∀ ch x, s.c.respSlots[ch]? = some x → ch < s.c.respSlots.length := by
    intro ch x hx
    by_contra hge
    rw [List.getElem?_eq_none (by omega)] at hx; cases hx
  have hseqi : (s.calls i).pc.seq? = some q := by rw [hpc]; rfl
  have hqne : ∀ j q1 ch, j ≠ i → (s.calls j).pc.waiter? = some (q1, ch) → q1 ≠ q := by
    intro j q1 ch hji hj e
    subst e
    exact hji (h.call_inj j i q1 (CallPc.seq_of_waiter hj) hseqi)
  refine
    { seq_nonneg := by rw [hseq]; exact h.seq_nonneg
      seq_le := by rw [hseq]; exact h.seq_le
      call_seq := ?_, call_inj := ?_, owner := ?_, slot_fresh := ?_, chan_lt := ?_,
      chan_inj := ?_, reader_slot := ?_, waiter_state := ?_, returned_gone := ?_ }
  · intro j q1 hj; rw [hsq] at hj; rw [hseq]; exact h.call_seq j q1 hj
  · intro j k q1 hj hk; rw [hsq] at hj hk; exact h.call_inj j k q1 hj hk
  · intro q1 ch hg
    by_cases hq : q1 = q
    · subst hq; rw [hgetq] at hg
      exact ⟨i, by rw [hi]; simp [CallPc.waiter?] at hg ⊢; exact hg⟩
    · rw [hgetne q1 hq] at hg
      obtain ⟨j, hj⟩ := h.owner q1 ch hg
      have hji : j ≠ i := by
        intro e; subst e; rw [hpc] at hj; simp [CallPc.waiter?] at hj
      exact ⟨j, by rw [hne j hji]; exact hj⟩
  · intro q1 ch hg
    by_cases hq : q1 = q
    · subst hq; rw [hgetq] at hg
      have e : s.c.respSlots.length = ch := by simpa using hg
      subst e; rw [hsl]; simp
    · rw [hgetne q1 hq] at hg
      have := h.slot_fresh q1 ch hg
      rw [hslot_old ch (hlt_of ch _ this)]; exact this
  · intro j q1 ch hj
    rw [hsl]
    rcases hnw j q1 ch hj with ⟨_, _, e⟩ | ⟨_, e⟩
    · simp [e]
    · have := h.chan_lt j q1 ch e; simp; omega
  · intro j k q1 q2 ch hj hk
    rcases hnw j q1 ch hj with ⟨e1, _, e2⟩ | ⟨e1, e2⟩ <;>
      rcases hnw k q2 ch hk with ⟨e3, _, e4⟩ | ⟨e3, e4⟩
    · rw [e1, e3]
    · have := h.chan_lt k q2 ch e4; omega
    · have := h.chan_lt j q1 ch e2; omega
    · exact h.chan_inj j k q1 q2 ch e2 e4
  · intro ch msg hrd; rw [hr] at hrd
    obtain ⟨hf, hnot⟩ := h.reader_slot ch msg hrd
    have hlt := hlt_of ch _ hf
    refine ⟨by rw [hslot_old ch hlt]; exact hf, ?_⟩
    intro q1 hg
    by_cases hq : q1 = q
    · subst hq; rw [hgetq] at hg
      have e : s.c.respSlots.length = ch := by simpa using hg
      omega
    · rw [hgetne q1 hq] at hg; exact hnot q1 hg
  · intro j q1 ch hj
    rcases hnw j q1 ch hj with ⟨_, e1, e2⟩ | ⟨e1, e2⟩
    · left; rw [e1, e2]; exact hgetq
    · have hq := hqne j q1 ch e1 e2
      rw [hgetne q1 hq, hr, hslot_old ch (h.chan_lt j q1 ch e2)]
      exact h.waiter_state j q1 ch e2
  · intro j q1 r e hj
    have hji : j ≠ i := by
      intro e1; subst e1; rw [hi] at hj; cases hj
    rw [hne j hji] at hj
    have hq : q1 ≠ q := by
      intro e1; subst e1
      exact hji (h.call_inj j i q1 (by rw [hj]; rfl) hseqi)
    rw [hgetne q1 hq]; exact h.returned_gone j q1 r e hj

/-- A call that holds a waiter returns: its key leaves the registry and at most its own
channel changes. -/
theorem after_leave {s1 : Sys} {i : Nat} {q : Int} {ch : Nat} {r : GoMap} {e : Option CallErr}
    (h : PendInv n s) (hw : (s.calls i).pc.waiter? = some (q, ch))
    (hseq : s1.c.seq = s.c.seq)
    (hget : ∀ q1, s1.c.pending.get q1 = if q1 = q then none else s.c.pending.get q1)
    (hlen : s1.c.respSlots.length = s.c.respSlots.length)
    (hsl : ∀ j, j ≠ ch → s1.c.respSlots[j]? = s.c.respSlots[j]?)
    (hrd : s1.c.respSlots = s.c.respSlots ∨ ∀ msg, s.reader ≠ Reader.delivering ch msg)
    (hr : s1.reader = s.reader)
    (hi : (s1.calls i).pc = CallPc.returned q r e)
    (hne : ∀ j, j ≠ i → (s1.calls j).pc = (s.calls j).pc) : PendInv n s1 := by
  have hseqi : (s.calls i).pc.seq? = some q := CallPc.seq_of_waiter hw
  have hsq : ∀ j, (s1.calls j).pc.seq? = (s.calls j).pc.seq? := by
    intro j
    by_cases hji : j = i
    · subst hji; rw [hi, hseqi]; rfl
    · rw [hne j hji]
  have hnw : ∀ j q1 c1, (s1.calls j).pc.waiter? = some (q1, c1) →
      j ≠ i ∧ (s.calls j).pc.waiter? = some (q1, c1) := by
    intro j q1 c1 hj
    by_cases hji : j = i
    · subst hji; rw [hi] at hj; simp [CallPc.waiter?] at hj
    · exact ⟨hji, by rw [hne j hji] at hj; exact hj⟩
  have hgs : ∀ q1 c1, s1.c.pending.get q1 = some c1 →
      q1 ≠ q ∧ s.c.pending.get q1 = some c1 := by
    intro q1 c1 hg
    rw [hget] at hg
    by_cases hq : q1 = q
    · simp [hq] at hg
    · simp [hq] at hg; exact ⟨hq, hg⟩
  have hother : ∀ j q1 c1, j ≠ i → (s.calls j).pc.waiter? = some (q1, c1) →
      q1 ≠ q ∧ c1 ≠ ch := by
    intro j q1 c1 hji hj
    constructor
    · intro e1; subst e1
      exact hji (h.call_inj j i q1 (CallPc.seq_of_waiter hj) hseqi)
    · intro e1; subst e1
      exact hji (h.chan_inj j i q1 q c1 hj hw)
  have hkey : ∀ q1 c1, q1 ≠ q → s.c.pending.get q1 = some c1 → c1 ≠ ch := by
    intro q1 c1 hq hg e1
    subst e1
    obtain ⟨j, hj⟩ := h.owner q1 c1 hg
    have hji : j = i := h.chan_inj j i q1 q c1 hj hw
    subst hji
    rw [hw] at hj
    simp at hj; exact hq hj.symm
  refine
    { seq_nonneg := by rw [hseq]; exact h.seq_nonneg
      seq_le := by rw [hseq]; exact h.seq_le
      call_seq := ?_, call_inj := ?_, owner := ?_, slot_fresh := ?_, chan_lt := ?_,
      chan_inj := ?_, reader_slot := ?_, waiter_state := ?_, returned_gone := ?_ }
  · intro j q1 hj; rw [hsq] at hj; rw [hseq]; exact h.call_seq j q1 hj
  · intro j k q1 hj hk; rw [hsq] at hj hk; exact h.call_inj j k q1 hj hk
  · intro q1 c1 hg
    obtain ⟨hq, hg1⟩ := hgs q1 c1 hg
    obtain ⟨j, hj⟩ := h.owner q1 c1 hg1
    have hji : j ≠ i := by
      intro e1; subst e1; rw [hw] at hj; simp at hj; exact hq hj.1.symm
    exact ⟨j, by rw [hne j hji]; exact hj⟩
  · intro q1 c1 hg
    obtain ⟨hq, hg1⟩ := hgs q1 c1 hg
    rw [hsl c1 (hkey q1 c1 hq hg1)]; exact h.slot_fresh q1 c1 hg1
  · intro j q1 c1 hj; rw [hlen]; exact h.chan_lt j q1 c1 (hnw j q1 c1 hj).2
  · intro j k q1 q2 c1 hj hk
    exact h.chan_inj j k q1 q2 c1 (hnw j q1 c1 hj).2 (hnw k q2 c1 hk).2
  · intro c1 msg hrdr; rw [hr] at hrdr
    obtain ⟨hf, hnot⟩ := h.reader_slot c1 msg hrdr
    refine ⟨?_, fun q1 hg => hnot q1 (hgs q1 c1 hg).2⟩
    rcases hrd with hrd | hrd
    · rw [hrd]; exact hf
    · have hc : c1 ≠ ch := by
        intro e1; subst e1; exact hrd msg hrdr
      rw [hsl c1 hc]; exact hf
  · intro j q1 c1 hj
    obtain ⟨hji, hj1⟩ := hnw j q1 c1 hj
    obtain ⟨hq, hc⟩ := hother j q1 c1 hji hj1
    rw [hget, if_neg hq, hr, hsl c1 hc]
    exact h.waiter_state j q1 c1 hj1
  · intro j q1 r1 e1 hj
    rw [hget]
    by_cases hq : q1 = q
    · simp [hq]
    · simp only [hq, if_false]
      have hji : j ≠ i := by
        intro e2; subst e2; rw [hi] at hj
        simp at hj; exact hq hj.1.symm
      rw [hne j hji] at hj
      exact h.returned_gone j q1 r1 e1 hj

/-- The reader finds the waiter of an inbound frame and removes it from the registry. -/
theorem after_take {s1 : Sys} {q : Int} {ch : Nat} {msg : Frame} (h : PendInv n s)
    (hidle : s.reader = Reader.idle) (hg : s.c.pending.get q = some ch)
    (hseq : s1.c.seq = s.c.seq)
    (hget : ∀ q1, s1.c.pending.get q1 = if q1 = q then none else s.c.pending.get q1)
    (hsl : s1.c.respSlots = s.c.respSlots)
    (hr : s1.reader = Reader.delivering ch msg)
    (hc : ∀ j, (s1.calls j).pc = (s.calls j).pc) : PendInv n s1 := by
  have hgs : ∀ q1 c1, s1.c.pending.get q1 = some c1 →
      q1 ≠ q ∧ s.c.pending.get q1 = some c1 := by
    intro q1 c1 hg1
    rw [hget] at hg1
    by_cases hq : q1 = q
    · simp [hq] at hg1
    · simp [hq] at hg1; exact ⟨hq, hg1⟩
  refine
    { seq_nonneg := by rw [hseq]; exact h.seq_nonneg
      seq_le := by rw [hseq]; exact h.seq_le
      call_seq := ?_, call_inj := ?_, owner := ?_, slot_fresh := ?_, chan_lt := ?_,
      chan_inj := ?_, reader_slot := ?_, waiter_state := ?_, returned_gone := ?_ }
  · intro j q1 hj; rw [hc] at hj; rw [hseq]; exact h.call_seq j q1 hj
  · intro j k q1 hj hk; rw [hc] at hj hk; exact h.call_inj j k q1 hj hk
  · intro q1 c1 hg1
    obtain ⟨j, hj⟩ := h.owner q1 c1 (hgs q1 c1 hg1).2
    exact ⟨j, by rw [hc]; exact hj⟩
  · intro q1 c1 hg1; rw [hsl]; exact h.slot_fresh q1 c1 (hgs q1 c1 hg1).2
  · intro j q1 c1 hj; rw [hc] at hj; rw [hsl]; exact h.chan_lt j q1 c1 hj
  · intro j k q1 q2 c1 hj hk; rw [hc] at hj hk; exact h.chan_inj j k q1 q2 c1 hj hk
  · intro c1 msg1 hrd
    rw [hr] at hrd
    have e1 : ch = c1 := by simp at hrd; exact hrd.1
    subst e1
    refine ⟨by rw [hsl]; exact h.slot_fresh q ch hg, ?_⟩
    intro q1 hg1
    obtain ⟨hq, hg2⟩ := hgs q1 ch hg1
    exact hq (h.key_inj hg2 hg)
  · intro j q1 c1 hj; rw [hc] at hj
    rcases h.waiter_state j q1 c1 hj with h1 | ⟨m, h2⟩ | h3
    · by_cases hq : q1 = q
      · subst hq
        rw [hg] at h1
        have e1 : ch = c1 := by simpa using h1
        subst e1
        right; left; exact ⟨msg, hr⟩
      · left; rw [hget, if_neg hq]; exact h1
    · rw [hidle] at h2; cases h2
    · right; right; rw [hsl]; exact h3
  · intro j q1 r e hj; rw [hc] at hj
    rw [hget]
    by_cases hq : q1 = q
    · simp [hq]
    · simp only [hq, if_false]; exact h.returned_gone j q1 r e hj

/-- The reader sends the frame it holds to the waiter's channel. -/
theorem after_deliver {s1 : Sys} {ch : Nat} {msg : Frame} (h : PendInv n s)
    (hrd : s.reader = Reader.delivering ch msg)
    (hseq : s1.c.seq = s.c.seq) (hp : s1.c.pending = s.c.pending)
    (hsl : s1.c.respSlots = (s.c.respSlots.trySend ch msg).1)
    (hr : s1.reader = Reader.idle)
    (hc : ∀ j, (s1.calls j).pc = (s.calls j).pc) : PendInv n s1 := by
  obtain ⟨hf, hnot⟩ := h.reader_slot ch msg hrd
  have hsent := (Heap.trySend_at_fresh s.c.respSlots msg hf).1
  refine
    { seq_nonneg := by rw [hseq]; exact h.seq_nonneg
      seq_le := by rw [hseq]; exact h.seq_le
      call_seq := ?_, call_inj := ?_, owner := ?_, slot_fresh := ?_, chan_lt := ?_,
      chan_inj := ?_, reader_slot := ?_, waiter_state := ?_, returned_gone := ?_ }
  · intro j q1 hj; rw [hc] at hj; rw [hseq]; exact h.call_seq j q1 hj
  · intro j k q1 hj hk; rw [hc] at hj hk; exact h.call_inj j k q1 hj hk
  · intro q1 c1 hg1; rw [hp] at hg1
    obtain ⟨j, hj⟩ := h.owner q1 c1 hg1
    exact ⟨j, by rw [hc]; exact hj⟩
  · intro q1 c1 hg1; rw [hp] at hg1
    have hne : c1 ≠ ch := by
      intro e1; subst e1; exact hnot q1 hg1
    rw [hsl, Heap.trySend_getElem?_ne _ _ hne]; exact h.slot_fresh q1 c1 hg1
  · intro j q1 c1 hj; rw [hc] at hj
    rw [hsl, Heap.trySend_length]; exact h.chan_lt j q1 c1 hj
  · intro j k q1 q2 c1 hj hk; rw [hc] at hj hk; exact h.chan_inj j k q1 q2 c1 hj hk
  · intro c1 msg1 hrd1; rw [hr] at hrd1; cases hrd1
  · intro j q1 c1 hj; rw [hc] at hj
    rcases h.waiter_state j q1 c1 hj with h1 | ⟨m, h2⟩ | ⟨slot, h3, h4⟩
    · left; rw [hp]; exact h1
    · rw [hrd] at h2
      have e1 : ch = c1 := by simp at h2; exact h2.1
      subst e1
      right; right
      exact ⟨_, by rw [hsl]; exact hsent, by simp [Chan.canRecv]⟩
    · have hne : c1 ≠ ch := by
        intro e1; subst e1
        rw [hf] at h3
        have e2 : Chan.fresh = slot := by simpa using h3
        subst e2
        simp [Chan.fresh_not_canRecv] at h4
      right; right
      exact ⟨slot, by rw [hsl, Heap.trySend_getElem?_ne _ _ hne]; exact h3, h4⟩
  · intro j q1 r e hj; rw [hc] at hj; rw [hp]; exact h.returned_gone j q1 r e hj

/-- The loop of `Close` over the pending registry, run after the reader has returned. -/
theorem after_closeAll {s1 : Sys} (h : PendInv n s)
    (hrd : ∀ ch msg, s.reader ≠ Reader.delivering ch msg)
    (hseq : s1.c.seq = s.c.seq) (hp : s1.c.pending = [])
    (hsl : s1.c.respSlots = (s.c.respSlots.closeAll (s.c.pending.map Prod.snd)).1)
    (hr : s1.reader = s.reader)
    (hc : ∀ j, (s1.calls j).pc = (s.calls j).pc) : PendInv n s1 := by
  obtain ⟨hlen, hall⟩ := Heap.closeAll_spec (s.c.pending.map Prod.snd) s.c.respSlots
  have hnone : ∀ q1, s1.c.pending.get q1 = none := by
    intro q1; rw [hp]; rfl
  refine
    { seq_nonneg := by rw [hseq]; exact h.seq_nonneg
      seq_le := by rw [hseq]; exact h.seq_le
      call_seq := ?_, call_inj := ?_, owner := ?_, slot_fresh := ?_, chan_lt := ?_,
      chan_inj := ?_, reader_slot := ?_, waiter_state := ?_, returned_gone := ?_ }
  · intro j q1 hj; rw [hc] at hj; rw [hseq]; exact h.call_seq j q1 hj
  · intro j k q1 hj hk; rw [hc] at hj hk; exact h.call_inj j k q1 hj hk
  · intro q1 c1 hg1; rw [hnone] at hg1; cases hg1
  · intro q1 c1 hg1; rw [hnone] at hg1; cases hg1
  · intro j q1 c1 hj; rw [hc] at hj
    rw [hsl, hlen]; exact h.chan_lt j q1 c1 hj
  · intro j k q1 q2 c1 hj hk; rw [hc] at hj hk; exact h.chan_inj j k q1 q2 c1 hj hk
  · intro c1 msg1 hrd1; rw [hr] at hrd1; exact absurd hrd1 (hrd c1 msg1)
  · intro j q1 c1 hj; rw [hc] at hj
    right; right
    have hlt := h.chan_lt j q1 c1 hj
    obtain ⟨slot, hslot⟩ : ∃ slot, s.c.respSlots[c1]? = some slot :=
      ⟨s.c.respSlots[c1], List.getElem?_eq_getElem hlt⟩
    obtain ⟨slot1, h1, h2, h3, _⟩ := hall c1 slot hslot
    refine ⟨slot1, by rw [hsl]; exact h1, ?_⟩
    rcases h.waiter_state j q1 c1 hj with hw1 | ⟨m, hw2⟩ | ⟨slot2, hw3, hw4⟩
    · exact h3 (Registry.mem_of_get _ hw1)
    · exact absurd hw2 (hrd c1 m)
    · rw [hslot] at hw3
      have e1 : slot = slot2 := by simpa using hw3
      subst e1; exact h2 hw4
  · intro j q1 r e _; exact hnone q1

end PendInv

/-! ## The handlers leave the registries of the multiplexer alone -/

theorem syncChat_registries (c : MaxClient) (chatData : JSON) :
    (syncChat c chatData).registries = c.registries := by
  unfold syncChat
  simp only
  split
  · rfl
  · split
    · split <;> rfl
    · split
      · rfl
      · split <;> rfl

theorem foldl_syncChat_registries (xs : List JSON) (c : MaxClient) :
    (xs.foldl syncChat c).registries = c.registries := by
  induction xs generalizing c with
  | nil => rfl
  | cons x rest ih => rw [List.foldl_cons, ih, syncChat_registries]

theorem handleSyncResponse_registries (c : MaxClient) (msg : Frame) :
    (handleSyncResponse c msg).registries = c.registries := by
  unfold handleSyncResponse
  simp only
  have h1 : ∀ c1 : MaxClient, c1.registries = c.registries →
      (match asMap ((asMap ((asMap (lookupKey msg "payload")).index "profile")).index
          "contact") with
        | some contact =>
          match unmarshalMeObj contact with
          | some me => { c1 with Me := some me }
          | none => c1
        | none => c1).registries = c.registries := by
    intro c1 hc1
    split
    · split
      · exact hc1
      · exact hc1
    · exact hc1
  apply h1
  rw [foldl_syncChat_registries]
  split
  · split <;> rfl
  · rfl

theorem handleMessageNotification_registries (c : MaxClient) (msg : Frame) :
    (handleMessageNotification c msg).registries = c.registries := by
  unfold handleMessageNotification
  simp only
  split <;> rfl

theorem handleReactionChange_registries (c : MaxClient) (msg : Frame) :
    (handleReactionChange c msg).registries = c.registries := rfl

theorem handleChatUpdate_registries (c : MaxClient) (msg : Frame) :
    (handleChatUpdate c msg).registries = c.registries := by
  unfold handleChatUpdate
  simp only
  split <;> rfl

theorem registries_pendingPart {c c1 : MaxClient} (h : c1.registries = c.registries) :
    c1.pendingPart = c.pendingPart := by
  simp only [MaxClient.registries, Prod.mk.injEq] at h
  simp [MaxClient.pendingPart, h.1, h.2.1, h.2.2.1]

theorem resolveWaiter_pendingPart (c : MaxClient) (id : Int) (msg : Frame) :
    (resolveWaiter c id msg).pendingPart = c.pendingPart := by
  unfold resolveWaiter
  split
  · split <;> rfl
  · rfl

theorem handleFileUploadNotification_pendingPart (c : MaxClient) (msg : Frame) :
    (handleFileUploadNotification c msg).pendingPart = c.pendingPart := by
  unfold handleFileUploadNotification
  simp only
  rw [resolveWaiter_pendingPart, resolveWaiter_pendingPart]

theorem routeNotification_pendingPart (c : MaxClient) (opcode : Int) (msg : Frame) :
    (routeNotification c opcode msg).pendingPart = c.pendingPart := by
  unfold routeNotification
  simp only
  have e1 : ∀ c0 : MaxClient,
      (if opcode = OpcodeNotifAttach then handleFileUploadNotification c0 msg else c0).pendingPart
        = c0.pendingPart := by
    intro c0; split
    · exact handleFileUploadNotification_pendingPart c0 msg
    · rfl
  have e2 : ∀ c0 : MaxClient,
      (if opcode = OpcodeNotifMessage then handleMessageNotification c0 msg else c0).pendingPart
        = c0.pendingPart := by
    intro c0; split
    · exact registries_pendingPart (handleMessageNotification_registries c0 msg)
    · rfl
  have e3 : ∀ c0 : MaxClient,
      (if opcode = OpcodeNotifMsgReactionsChanged then handleReactionChange c0 msg
        else c0).pendingPart = c0.pendingPart := by
    intro c0; split
    · exact registries_pendingPart (handleReactionChange_registries c0 msg)
    · rfl
  have e4 : ∀ c0 : MaxClient,
      (if opcode = OpcodeNotifChat then handleChatUpdate c0 msg else c0).pendingPart
        = c0.pendingPart := by
    intro c0; split
    · exact registries_pendingPart (handleChatUpdate_registries c0 msg)
    · rfl
  rw [e4, e3, e2, e1]

theorem syncPrefix_registries (c : MaxClient) (msg : Frame) (opcode : Int) :
    (if opcode = OpcodeSync ∨ opcode = OpcodeLogin then handleSyncResponse c msg
      else c).registries = c.registries := by
  split
  · exact handleSyncResponse_registries c msg
  · rfl

/-! ## Every step preserves the invariant of the pending registry -/

theorem giveUp_spec (c : MaxClient) (kind : CallKind) (q : Int) :
    (giveUp c kind q).seq = c.seq ∧
    (∀ q1, (giveUp c kind q).pending.get q1 = if q1 = q then none else c.pending.get q1) ∧
    ((giveUp c kind q).respSlots = c.respSlots ∨
      ∃ ch, c.pending.get q = some ch ∧
        (giveUp c kind q).respSlots = (c.respSlots.close ch).1) := by
  have hdel : ∀ q1, (c.pending.del q).get q1 = if q1 = q then none else c.pending.get q1 := by
    intro q1
    by_cases hq : q1 = q
    · subst hq; simp [Registry.get_del_self]
    · simp [hq, Registry.get_del_ne _ hq]
  cases kind with
  | sendAndWait => exact ⟨rfl, hdel, Or.inl rfl⟩
  | sendAndWaitResponse =>
    unfold giveUp dropPending
    simp only
    cases hg : c.pending.get q with
    | none =>
      refine ⟨rfl, ?_, Or.inl rfl⟩
      intro q1
      by_cases hq : q1 = q
      · subst hq; simp [hg]
      · simp [hq]
    | some ch => exact ⟨rfl, hdel, Or.inr ⟨ch, rfl, rfl⟩⟩

theorem PendInv.giveUp_step {n : Nat} {s : Sys} {i : Nat} {q : Int} {ch : Nat}
    (h : PendInv n s) (hw : (s.calls i).pc.waiter? = some (q, ch)) (e : Option CallErr) :
    PendInv n (s.setCall i (CallPc.returned q none e) (giveUp s.c (s.calls i).kind q)) := by
  obtain ⟨h1, h2, h3⟩ := giveUp_spec s.c (s.calls i).kind q
  refine h.after_leave hw h1 h2 ?_ ?_ ?_ rfl (Sys.setCall_pc_self _ _ _ _)
    (fun j hj => Sys.setCall_pc_ne _ _ _ hj)
  · rcases h3 with h3 | ⟨ch1, _, h3⟩
    · simp only [Sys.setCall_c]; rw [h3]
    · simp only [Sys.setCall_c]; rw [h3, Heap.close_length]
  · intro j hj
    rcases h3 with h3 | ⟨ch1, hg, h3⟩
    · simp only [Sys.setCall_c]; rw [h3]
    · have e1 := h.own_entry hw hg
      subst e1
      simp only [Sys.setCall_c]; rw [h3, Heap.close_getElem?_ne _ hj]
  · rcases h3 with h3 | ⟨ch1, hg, h3⟩
    · left; exact h3
    · right
      intro msg hrd
      have e1 := h.own_entry hw hg
      subst e1
      exact (h.reader_slot _ msg hrd).2 q hg

theorem PendInv.receive_step {n : Nat} {s : Sys} {i : Nat} {q : Int} {ch : Nat} {slot : Chan}
    {r : GoMap} (h : PendInv n s) (hpc : (s.calls i).pc = CallPc.waiting q ch)
    (hslot : s.c.respSlots[ch]? = some slot) (hcan : slot.canRecv = true) (c1 : MaxClient)
    (hseq : c1.seq = s.c.seq)
    (hp : c1.pending = s.c.pending ∨ c1.pending = s.c.pending.del q)
    (hsl : c1.respSlots = s.c.respSlots.set ch slot.afterRecv) :
    PendInv n (s.setCall i (CallPc.returned q r none) c1) := by
  have hw : (s.calls i).pc.waiter? = some (q, ch) := by rw [hpc]; rfl
  have hnf : slot ≠ Chan.fresh := by
    intro e; subst e; simp [Chan.fresh_not_canRecv] at hcan
  have hgone : s.c.pending.get q = none := by
    cases hg : s.c.pending.get q with
    | none => rfl
    | some ch1 =>
      have e1 := h.own_entry hw hg
      subst e1
      have := h.slot_fresh q _ hg
      rw [hslot] at this
      exact absurd (by simpa using this) hnf
  refine h.after_leave hw hseq ?_ ?_ ?_ ?_ rfl (Sys.setCall_pc_self _ _ _ _)
    (fun j hj => Sys.setCall_pc_ne _ _ _ hj)
  · intro q1
    simp only [Sys.setCall_c]
    by_cases hq : q1 = q
    · subst hq
      rcases hp with hp | hp
      · simp [hp, hgone]
      · simp [hp, Registry.get_del_self]
    · rcases hp with hp | hp
      · simp [hp, hq]
      · simp [hp, hq, Registry.get_del_ne _ hq]
  · simp only [Sys.setCall_c]; rw [hsl]; simp
  · intro j hj
    simp only [Sys.setCall_c]; rw [hsl, List.getElem?_set_ne (Ne.symm hj)]
  · right
    intro msg hrd
    have := (h.reader_slot ch msg hrd).1
    rw [hslot] at this
    exact hnf (by simpa using this)

theorem stepCall_pendInv {n : Nat} {s s1 : Sys} {i : Nat} {a : Action} (h : PendInv n s)
    (hn : (n : Int) + 1 < 2 ^ 63) (hs : stepCall s i a = some s1) : PendInv (n + 1) s1 := by
  unfold stepCall at hs
  split at hs
  · -- callNextSeq
    rename_i hpc
    have e1 := (Option.some.inj hs).symm
    subst e1
    have h0 := h.seq_nonneg
    have hle := h.seq_le
    have hw : wrapInt (s.c.seq + 1) = s.c.seq + 1 := by
      apply wrapInt_eq <;> norm_num at * <;> omega
    refine h.after_alloc hpc ?_ rfl rfl rfl ?_ (fun j hj => Sys.setCall_pc_ne _ _ _ hj)
    · simp [nextSeq, hw]
    · rw [Sys.setCall_pc_self]; simp [nextSeq, hw]
  · -- callRegister
    rename_i seq hpc
    have e1 := (Option.some.inj hs).symm
    subst e1
    apply PendInv.mono
    exact h.after_register hpc rfl rfl rfl rfl (Sys.setCall_pc_self _ _ _ _)
      (fun j hj => Sys.setCall_pc_ne _ _ _ hj)
  · -- callEnqueue
    rename_i seq ch hpc
    split at hs
    · have e1 := (Option.some.inj hs).symm
      subst e1
      apply PendInv.mono
      refine h.same_view rfl rfl rfl ?_ ?_ ?_ (Or.inl rfl)
      · intro j; rw [Sys.setCall_pc]; split
        · rename_i hj; subst hj; rw [hpc]; rfl
        · rfl
      · intro j; rw [Sys.setCall_pc]; split
        · rename_i hj; subst hj; rw [hpc]; rfl
        · rfl
      · intro j q r e hj; rw [Sys.setCall_pc] at hj; split at hj
        · cases hj
        · exact ⟨r, e, hj⟩
    · cases hs
  · -- callCancelEnqueue
    rename_i seq ch hpc
    have e1 := (Option.some.inj hs).symm
    subst e1
    apply PendInv.mono
    exact h.giveUp_step (by rw [hpc]; rfl) _
  · -- callReceive
    rename_i seq ch hpc
    split at hs
    · rename_i slot hslot
      split at hs
      · rename_i hcan
        split at hs
        · have e1 := (Option.some.inj hs).symm
          subst e1
          apply PendInv.mono
          exact h.receive_step hpc hslot hcan _ rfl (Or.inl rfl) rfl
        · have e1 := (Option.some.inj hs).symm
          subst e1
          apply PendInv.mono
          exact h.receive_step hpc hslot hcan _ rfl (Or.inr rfl) rfl
      · cases hs
    · cases hs
  · -- callCancel
    rename_i seq ch hpc
    have e1 := (Option.some.inj hs).symm
    subst e1
    apply PendInv.mono
    exact h.giveUp_step (by rw [hpc]; rfl) _
  · -- callTimeout
    rename_i seq ch hpc
    split at hs
    · rename_i hk
      have e1 := (Option.some.inj hs).symm
      subst e1
      have hw : (s.calls i).pc.waiter? = some (seq, ch) := by rw [hpc]; rfl
      have := h.giveUp_step hw (some CallErr.timeout)
      rw [hk] at this
      exact this.mono
    · cases hs
  · cases hs

theorem readerLeave_spec {s s1 : Sys} (hs : readerLeave s = some s1) :
    s1.c.pendingPart = s.c.pendingPart ∧ s1.c.uploadPart = s.c.uploadPart ∧
      s1.calls = s.calls ∧ s1.reader = Reader.exited := by
  unfold readerLeave at hs
  split at hs
  · have e1 := (Option.some.inj hs).symm
    subst e1; exact ⟨rfl, rfl, rfl, rfl⟩
  · split at hs
    · have e1 := (Option.some.inj hs).symm
      subst e1; exact ⟨rfl, rfl, rfl, rfl⟩
    · cases hs

theorem dropWaiter_pendingPart (c : MaxClient) (id : Int) :
    (dropWaiter c id).pendingPart = c.pendingPart := by
  unfold dropWaiter
  split <;> rfl

theorem pendingPart_fields {c c1 : MaxClient} (h : c1.pendingPart = c.pendingPart) :
    c1.seq = c.seq ∧ c1.pending = c.pending ∧ c1.respSlots = c.respSlots := by
  simpa [MaxClient.pendingPart] using h

theorem stepUpload_pendInv {n : Nat} {s s1 : Sys} {j : Nat} {a : Action} (h : PendInv n s)
    (hs : stepUpload s j a = some s1) : PendInv n s1 := by
  have key : ∀ (pc : UploadPc) (c1 : MaxClient), c1.pendingPart = s.c.pendingPart →
      PendInv n (s.setUpload j pc c1) := by
    intro pc c1 hc
    obtain ⟨h1, h2, h3⟩ := pendingPart_fields hc
    exact h.same_view h1 h2 h3 (fun _ => rfl) (fun _ => rfl) (fun _ q r e hj => ⟨r, e, hj⟩)
      (Or.inl rfl)
  unfold stepUpload at hs
  split at hs
  · have e1 := (Option.some.inj hs).symm
    subst e1
    exact key _ _ rfl
  · split at hs
    · split at hs
      · have e1 := (Option.some.inj hs).symm
        subst e1
        exact key _ _ rfl
      · cases hs
    · cases hs
  · have e1 := (Option.some.inj hs).symm
    subst e1
    exact key _ _ (dropWaiter_pendingPart _ _)
  · have e1 := (Option.some.inj hs).symm
    subst e1
    exact key _ _ (dropWaiter_pendingPart _ _)
  · cases hs

theorem recvFrame_pendInv {n : Nat} {s : Sys} (h : PendInv n s) (hidle : s.reader = Reader.idle)
    (msg : Frame) :
    PendInv n { s with c := (recvFrame s.c msg).1, reader := (recvFrame s.c msg).2 } := by
  have hpre := registries_pendingPart
    (syncPrefix_registries s.c msg (asFloatOrZero (lookupKey msg "opcode")))
  obtain ⟨p1, p2, p3⟩ := pendingPart_fields hpre
  have hnotif : ∀ c1 : MaxClient, c1.pendingPart = s.c.pendingPart →
      PendInv n { s with c := c1, reader := Reader.queueing msg } := by
    intro c1 hc
    obtain ⟨h1, h2, h3⟩ := pendingPart_fields hc
    refine h.same_view h1 h2 h3 (fun _ => rfl) (fun _ => rfl) (fun _ q r e hj => ⟨r, e, hj⟩)
      (Or.inr ⟨?_, ?_⟩)
    · intro ch m hr; rw [hidle] at hr; cases hr
    · intro ch m hr; cases hr
  unfold recvFrame
  simp only
  split
  · rename_i seq hseq
    split
    · rename_i ch hg
      rw [p2] at hg
      refine h.after_take hidle hg p1 ?_ p3 rfl (fun _ => rfl)
      intro q1
      show (Registry.del _ seq).get q1 = _
      rw [p2]
      by_cases hq : q1 = seq
      · subst hq; simp [Registry.get_del_self]
      · simp [hq, Registry.get_del_ne _ hq]
    · exact hnotif _ ((routeNotification_pendingPart _ _ _).trans hpre)
  · exact hnotif _ ((routeNotification_pendingPart _ _ _).trans hpre)

theorem stepBackground_pendInv {n : Nat} {s s1 : Sys} {a : Action} (h : PendInv n s)
    (hs : stepBackground s a = some s1) : PendInv n s1 := by
  have same : ∀ s2 : Sys, s2.c.pendingPart = s.c.pendingPart → s2.calls = s.calls →
      (s2.reader = s.reader ∨
        ((∀ ch msg, s.reader ≠ Reader.delivering ch msg) ∧
          ∀ ch msg, s2.reader ≠ Reader.delivering ch msg)) → PendInv n s2 := by
    intro s2 hc hcalls hr
    obtain ⟨h1, h2, h3⟩ := pendingPart_fields hc
    exact h.same_view h1 h2 h3 (fun i => by rw [hcalls]) (fun i => by rw [hcalls])
      (fun i q r e hj => ⟨r, e, by rw [hcalls] at hj; exact hj⟩) hr
  unfold stepBackground at hs
  split at hs
  · -- readerFrame
    rename_i msg hidle
    have e1 := (Option.some.inj hs).symm
    subst e1
    exact recvFrame_pendInv h hidle msg
  · -- readerDeliver
    rename_i ch msg hrd
    have e1 := (Option.some.inj hs).symm
    subst e1
    exact h.after_deliver hrd rfl rfl rfl rfl (fun _ => rfl)
  · -- readerQueue
    rename_i msg hrd
    split at hs
    · have e1 := (Option.some.inj hs).symm
      subst e1
      refine same _ rfl rfl (Or.inr ⟨?_, ?_⟩)
      · intro ch m hr; rw [hrd] at hr; cases hr
      · intro ch m hr; cases hr
    · cases hs
  · -- readerExit from idle
    rename_i hrd
    obtain ⟨h1, _, h3, h4⟩ := readerLeave_spec hs
    refine same _ h1 h3 (Or.inr ⟨?_, ?_⟩)
    · intro ch m hr; rw [hrd] at hr; cases hr
    · intro ch m hr; rw [h4] at hr; cases hr
  · -- readerExit from queueing
    rename_i msg hrd
    have e1 := (Option.some.inj hs).symm
    subst e1
    refine same _ rfl rfl (Or.inr ⟨?_, ?_⟩)
    · intro ch m hr; rw [hrd] at hr; cases hr
    · intro ch m hr; cases hr
  · -- writerSend
    split at hs
    · split at hs
      · split at hs
        · have e1 := (Option.some.inj hs).symm
          subst e1
          exact same _ rfl rfl (Or.inl rfl)
        · have e1 := (Option.some.inj hs).symm
          subst e1
          exact same _ rfl rfl (Or.inl rfl)
      · cases hs
    · cases hs
  · -- writerExit
    split at hs
    · have e1 := (Option.some.inj hs).symm
      subst e1
      exact same _ rfl rfl (Or.inl rfl)
    · cases hs
  · -- closeCancel
    split at hs
    · have e1 := (Option.some.inj hs).symm
      subst e1
      exact same _ rfl rfl (Or.inl rfl)
    · cases hs
  · -- closePending
    rename_i hrd
    split at hs
    · have e1 := (Option.some.inj hs).symm
      subst e1
      refine h.after_closeAll ?_ rfl rfl rfl rfl (fun _ => rfl)
      intro ch m hr; rw [hrd] at hr; cases hr
    · cases hs
  · -- closeUploads
    split at hs
    · have e1 := (Option.some.inj hs).symm
      subst e1
      exact same _ rfl rfl (Or.inl rfl)
    · cases hs
  · cases hs

/-- Every step preserves the invariant of the pending registry, as long as the sequence
counter stays below `2 ^ 63`. -/
theorem step_pendInv {n : Nat} {s s1 : Sys} {a : Action} (h : PendInv n s)
    (hn : (n : Int) + 1 < 2 ^ 63) (hs : step a s = some s1) : PendInv (n + 1) s1 := by
  unfold step at hs
  split at hs
  · cases hs
  · cases a <;> first
      | exact stepCall_pendInv h hn hs
      | exact (stepUpload_pendInv h hs).mono
      | exact (stepBackground_pendInv h hs).mono

theorem init_pendInv (cfg : Setup) : PendInv 0 (Sys.init cfg) where
  seq_nonneg := by simp [Sys.init, NewMaxClient]
  seq_le := by simp [Sys.init, NewMaxClient]
  call_seq := by intro i q hq; simp [Sys.init, CallPc.seq?] at hq
  call_inj := by intro i j q hq; simp [Sys.init, CallPc.seq?] at hq
  owner := by intro q ch hg; simp [Sys.init, NewMaxClient, Registry.get] at hg
  slot_fresh := by intro q ch hg; simp [Sys.init, NewMaxClient, Registry.get] at hg
  chan_lt := by intro i q ch hq; simp [Sys.init, CallPc.waiter?] at hq
  chan_inj := by intro i j q q1 ch hq; simp [Sys.init, CallPc.waiter?] at hq
  reader_slot := by
    intro ch msg hr
    simp only [Sys.init] at hr
    split at hr <;> cases hr
  waiter_state := by intro i q ch hq; simp [Sys.init, CallPc.waiter?] at hq
  returned_gone := by intro i q r e hq; simp [Sys.init] at hq

/-- The invariant of the pending registry holds after every schedule shorter than
`2 ^ 63` steps. -/
theorem run_pendInv {n : Nat} (acts : List Action) {s s1 : Sys} (h : PendInv n s)
    (hn : ((n + acts.length : Nat) : Int) < 2 ^ 63) (hs : run s acts = some s1) :
    PendInv (n + acts.length) s1 := by
  induction acts generalizing n s with
  | nil =>
    have e1 := (Option.some.inj hs).symm
    subst e1
    simpa using h
  | cons a rest ih =>
    simp only [run] at hs
    cases hstep : step a s with
    | none => rw [hstep] at hs; cases hs
    | some s2 =>
      rw [hstep] at hs
      simp only [Option.bind] at hs
      simp only [List.length_cons] at hn ⊢
      have hn1 : (n : Int) + 1 < 2 ^ 63 := by push_cast at hn; omega
      have h2 := step_pendInv h hn1 hstep
      have := ih h2 (by push_cast at hn ⊢; omega) hs
      have e2 : n + 1 + rest.length = n + (rest.length + 1) := by omega
      rw [← e2]; exact this

/-! ## Every step preserves the invariant of the upload-waiter registry -/

namespace UpInv

variable {c : MaxClient}

theorem same_part {c1 : MaxClient} (h : UpInv c) (hc : c1.uploadPart = c.uploadPart) :
    UpInv c1 := by
  have h1 : c1.fileUploadWaiters = c.fileUploadWaiters ∧ c1.waitSlots = c.waitSlots := by
    simpa [MaxClient.uploadPart] using hc
  exact ⟨by rw [h1.1, h1.2]; exact h.slot_fresh, by rw [h1.1]; exact h.inj⟩

theorem lt_of_get (h : UpInv c) {k : Int} {ch : Nat} (hg : c.fileUploadWaiters.get k = some ch) :
    ch < c.waitSlots.length := by
  have := h.slot_fresh k ch hg
  by_contra hge
  rw [List.getElem?_eq_none (by omega)] at this; cases this

/-- Registration of a waiter with a new channel. -/
theorem after_put {c1 : MaxClient} (h : UpInv c) (k : Int)
    (hp : c1.fileUploadWaiters = c.fileUploadWaiters.put k c.waitSlots.length)
    (hsl : c1.waitSlots = c.waitSlots ++ [Chan.fresh]) : UpInv c1 := by
  have hget : ∀ k1 ch, c1.fileUploadWaiters.get k1 = some ch →
      (k1 = k ∧ ch = c.waitSlots.length) ∨
        (k1 ≠ k ∧ c.fileUploadWaiters.get k1 = some ch) := by
    intro k1 ch hg
    rw [hp] at hg
    by_cases hk : k1 = k
    · subst hk; rw [Registry.get_put_self] at hg; left; exact ⟨rfl, by simpa using hg.symm⟩
    · rw [Registry.get_put_ne _ _ hk] at hg; right; exact ⟨hk, hg⟩
  constructor
  · intro k1 ch hg
    rcases hget k1 ch hg with ⟨_, e⟩ | ⟨_, e⟩
    · subst e; rw [hsl]; simp
    · rw [hsl, List.getElem?_append_left (h.lt_of_get e)]; exact h.slot_fresh k1 ch e
  · intro k1 k2 ch hg1 hg2
    rcases hget k1 ch hg1 with ⟨e1, e2⟩ | ⟨e1, e2⟩ <;>
      rcases hget k2 ch hg2 with ⟨e3, e4⟩ | ⟨e3, e4⟩
    · rw [e1, e3]
    · have := h.lt_of_get e4; omega
    · have := h.lt_of_get e2; omega
    · exact h.inj k1 k2 ch e2 e4

/-- Removal of the entry under `k`, with any change confined to the slot it named. -/
theorem after_remove {c1 : MaxClient} (h : UpInv c) (k : Int)
    (hget : ∀ k1, c1.fileUploadWaiters.get k1 =
      if k1 = k then none else c.fileUploadWaiters.get k1)
    (hsl : c1.waitSlots = c.waitSlots ∨
      ∃ ch, c.fileUploadWaiters.get k = some ch ∧
        ∀ j, j ≠ ch → c1.waitSlots[j]? = c.waitSlots[j]?) :
    UpInv c1 := by
  have hgs : ∀ k1 ch, c1.fileUploadWaiters.get k1 = some ch →
      k1 ≠ k ∧ c.fileUploadWaiters.get k1 = some ch := by
    intro k1 ch hg
    rw [hget] at hg
    by_cases hk : k1 = k
    · simp [hk] at hg
    · simp [hk] at hg; exact ⟨hk, hg⟩
  constructor
  · intro k1 ch hg
    obtain ⟨hk, hg1⟩ := hgs k1 ch hg
    rcases hsl with hsl | ⟨ch0, hg0, hsl⟩
    · rw [hsl]; exact h.slot_fresh k1 ch hg1
    · have hne : ch ≠ ch0 := by
        intro e; subst e; exact hk (h.inj k1 k ch hg1 hg0)
      rw [hsl ch hne]; exact h.slot_fresh k1 ch hg1
  · intro k1 k2 ch hg1 hg2
    exact h.inj k1 k2 ch (hgs k1 ch hg1).2 (hgs k2 ch hg2).2

theorem registry_get_del (r : Registry) (k k1 : Int) :
    (r.del k).get k1 = if k1 = k then none else r.get k1 := by
  by_cases hk : k1 = k
  · subst hk; simp [Registry.get_del_self]
  · simp [hk, Registry.get_del_ne _ hk]

theorem after_dropWaiter (h : UpInv c) (k : Int) : UpInv (dropWaiter c k) := by
  unfold Gomax.dropWaiter
  split
  · rename_i ch hg
    refine h.after_remove k (fun k1 => registry_get_del _ k k1) (Or.inr ⟨ch, hg, ?_⟩)
    intro j hj
    exact Heap.close_getElem?_ne _ hj
  · exact h

theorem after_resolveWaiter (h : UpInv c) (id : Int) (msg : Frame) :
    UpInv (resolveWaiter c id msg) := by
  unfold Gomax.resolveWaiter
  split
  · split
    · rename_i ch hg
      refine h.after_remove id (fun k1 => registry_get_del _ id k1) (Or.inr ⟨ch, hg, ?_⟩)
      intro j hj
      exact Heap.trySend_getElem?_ne _ _ hj
    · exact h
  · exact h

theorem after_attach (h : UpInv c) (msg : Frame) :
    UpInv (handleFileUploadNotification c msg) := by
  unfold Gomax.handleFileUploadNotification
  exact (h.after_resolveWaiter _ msg).after_resolveWaiter _ msg

/-- A receive from a slot that holds a frame or is closed. -/
theorem after_recv {c1 : MaxClient} (h : UpInv c) {ch : Nat} {slot : Chan}
    (hslot : c.waitSlots[ch]? = some slot) (hcan : slot.canRecv = true)
    (hp : c1.fileUploadWaiters = c.fileUploadWaiters)
    (hsl : c1.waitSlots = c.waitSlots.set ch slot.afterRecv) : UpInv c1 := by
  constructor
  · intro k1 ch1 hg
    rw [hp] at hg
    have hf := h.slot_fresh k1 ch1 hg
    have hne : ch ≠ ch1 := by
      intro e; subst e
      rw [hslot] at hf
      have e2 : slot = Chan.fresh := by simpa using hf
      subst e2
      simp [Chan.fresh_not_canRecv] at hcan
    rw [hsl, List.getElem?_set_ne hne]; exact hf
  · rw [hp]; exact h.inj

theorem after_closeAllWaiters (c : MaxClient) : UpInv (closeAllWaiters c) :=
  ⟨fun k ch hg => by simp [Gomax.closeAllWaiters, Registry.get] at hg,
   fun k k1 ch hg => by simp [Gomax.closeAllWaiters, Registry.get] at hg⟩

end UpInv

theorem registries_uploadPart {c c1 : MaxClient} (h : c1.registries = c.registries) :
    c1.uploadPart = c.uploadPart := by
  simp only [MaxClient.registries, Prod.mk.injEq] at h
  simp [MaxClient.uploadPart, h.2.2.2.1, h.2.2.2.2]

theorem routeNotification_upInv {c : MaxClient} (h : UpInv c) (opcode : Int) (msg : Frame) :
    UpInv (routeNotification c opcode msg) := by
  unfold routeNotification
  simp only
  have e1 : UpInv (if opcode = OpcodeNotifAttach then handleFileUploadNotification c msg
      else c) := by
    split
    · exact h.after_attach msg
    · exact h
  have e2 : ∀ c0 : MaxClient, UpInv c0 →
      UpInv (if opcode = OpcodeNotifMessage then handleMessageNotification c0 msg else c0) := by
    intro c0 h0; split
    · exact h0.same_part (registries_uploadPart (handleMessageNotification_registries c0 msg))
    · exact h0
  have e3 : ∀ c0 : MaxClient, UpInv c0 →
      UpInv (if opcode = OpcodeNotifMsgReactionsChanged then handleReactionChange c0 msg
        else c0) := by
    intro c0 h0; split
    · exact h0.same_part (registries_uploadPart (handleReactionChange_registries c0 msg))
    · exact h0
  have e4 : ∀ c0 : MaxClient, UpInv c0 →
      UpInv (if opcode = OpcodeNotifChat then handleChatUpdate c0 msg else c0) := by
    intro c0 h0; split
    · exact h0.same_part (registries_uploadPart (handleChatUpdate_registries c0 msg))
    · exact h0
  exact e4 _ (e3 _ (e2 _ e1))

theorem recvFrame_upInv {c : MaxClient} (h : UpInv c) (msg : Frame) :
    UpInv (recvFrame c msg).1 := by
  have hpre : UpInv (if asFloatOrZero (lookupKey msg "opcode") = OpcodeSync ∨
      asFloatOrZero (lookupKey msg "opcode") = OpcodeLogin then handleSyncResponse c msg
      else c) :=
    h.same_part (registries_uploadPart (syncPrefix_registries c msg _))
  unfold recvFrame
  simp only
  split
  · split
    · exact hpre.same_part rfl
    · exact routeNotification_upInv hpre _ msg
  · exact routeNotification_upInv hpre _ msg

theorem giveUp_uploadPart (c : MaxClient) (kind : CallKind) (q : Int) :
    (giveUp c kind q).uploadPart = c.uploadPart := by
  cases kind
  · rfl
  · unfold giveUp dropPending
    simp only
    split <;> rfl

theorem stepCall_upInv {s s1 : Sys} {i : Nat} {a : Action} (h : UpInv s.c)
    (hs : stepCall s i a = some s1) : UpInv s1.c := by
  unfold stepCall at hs
  split at hs
  · have e1 := (Option.some.inj hs).symm
    subst e1; exact h.same_part rfl
  · have e1 := (Option.some.inj hs).symm
    subst e1; exact h.same_part rfl
  · split at hs
    · have e1 := (Option.some.inj hs).symm
      subst e1; exact h.same_part rfl
    · cases hs
  · have e1 := (Option.some.inj hs).symm
    subst e1; exact h.same_part (giveUp_uploadPart _ _ _)
  · split at hs
    · split at hs
      · split at hs
        · have e1 := (Option.some.inj hs).symm
          subst e1; exact h.same_part rfl
        · have e1 := (Option.some.inj hs).symm
          subst e1; exact h.same_part rfl
      · cases hs
    · cases hs
  · have e1 := (Option.some.inj hs).symm
    subst e1; exact h.same_part (giveUp_uploadPart _ _ _)
  · split at hs
    · have e1 := (Option.some.inj hs).symm
      subst e1; exact h.same_part (giveUp_uploadPart _ CallKind.sendAndWaitResponse _)
    · cases hs
  · cases hs

theorem stepUpload_upInv {s s1 : Sys} {j : Nat} {a : Action} (h : UpInv s.c)
    (hs : stepUpload s j a = some s1) : UpInv s1.c := by
  unfold stepUpload at hs
  split at hs
  · have e1 := (Option.some.inj hs).symm
    subst e1; exact h.after_put _ rfl rfl
  · split at hs
    · rename_i slot hslot
      split at hs
      · rename_i hcan
        have e1 := (Option.some.inj hs).symm
        subst e1; exact h.after_recv hslot hcan rfl rfl
      · cases hs
    · cases hs
  · have e1 := (Option.some.inj hs).symm
    subst e1; exact h.after_dropWaiter _
  · have e1 := (Option.some.inj hs).symm
    subst e1; exact h.after_dropWaiter _
  · cases hs

theorem stepBackground_upInv {s s1 : Sys} {a : Action} (h : UpInv s.c)
    (hs : stepBackground s a = some s1) : UpInv s1.c := by
  unfold stepBackground at hs
  split at hs
  · have e1 := (Option.some.inj hs).symm
    subst e1; exact recvFrame_upInv h _
  · have e1 := (Option.some.inj hs).symm
    subst e1; exact h.same_part rfl
  · split at hs
    · have e1 := (Option.some.inj hs).symm
      subst e1; exact h.same_part rfl
    · cases hs
  · exact h.same_part (readerLeave_spec hs).2.1
  · have e1 := (Option.some.inj hs).symm
    subst e1; exact h
  · split at hs
    · split at hs
      · split at hs
        · have e1 := (Option.some.inj hs).symm
          subst e1; exact h.same_part rfl
        · have e1 := (Option.some.inj hs).symm
          subst e1; exact h.same_part rfl
      · cases hs
    · cases hs
  · split at hs
    · have e1 := (Option.some.inj hs).symm
      subst e1; exact h
    · cases hs
  · split at hs
    · have e1 := (Option.some.inj hs).symm
      subst e1; exact h.same_part rfl
    · cases hs
  · split at hs
    · have e1 := (Option.some.inj hs).symm
      subst e1; exact h.same_part rfl
    · cases hs
  · split at hs
    · have e1 := (Option.some.inj hs).symm
      subst e1; exact UpInv.after_closeAllWaiters _
    · cases hs
  · cases hs

theorem step_upInv {s s1 : Sys} {a : Action} (h : UpInv s.c) (hs : step a s = some s1) :
    UpInv s1.c := by
  unfold step at hs
  split at hs
  · cases hs
  · cases a <;> first
      | exact stepCall_upInv h hs
      | exact stepUpload_upInv h hs
      | exact stepBackground_upInv h hs

theorem init_upInv (cfg : Setup) : UpInv (Sys.init cfg).c :=
  ⟨fun k ch hg => by simp [Sys.init, NewMaxClient, Registry.get] at hg,
   fun k k1 ch hg => by simp [Sys.init, NewMaxClient, Registry.get] at hg⟩

/-- The invariant of the upload-waiter registry holds after every schedule. -/
theorem run_upInv (acts : List Action) {s s1 : Sys} (h : UpInv s.c)
    (hs : run s acts = some s1) : UpInv s1.c := by
  induction acts generalizing s with
  | nil =>
    have e1 := (Option.some.inj hs).symm
    subst e1; exact h
  | cons a rest ih =>
    simp only [run] at hs
    cases hstep : step a s with
    | none => rw [hstep] at hs; cases hs
    | some s2 =>
      rw [hstep] at hs
      exact ih (step_upInv h hstep) hs

/-! ## Dispatch of message notifications (C1, C2) -/

/-- C1 (code defect). With one unfiltered handler registered in each category, a frame
whose decoded status is `EDITED` makes `handleMessageNotification` spawn the edit
handler and then also the new-message handler, and a frame whose decoded status is
`REMOVED` the delete handler and then also the new-message handler: handlers of two
categories run for one frame. -/
theorem handleMessageNotification_status_runs_two_categories :
    (FromMapMessage (some editedPayload)).isOk = true ∧
    spawnedCats (handleMessageNotification oneHandlerEach (notifMessageFrame editedPayload))
      = [Category.edit, Category.message] ∧
    (FromMapMessage (some removedPayload)).isOk = true ∧
    spawnedCats (handleMessageNotification oneHandlerEach (notifMessageFrame removedPayload))
      = [Category.delete, Category.message] := by
  decide

theorem reachable_pendInv {cfg : Setup} {acts : List Action} {s : Sys}
    (hrun : run (Sys.init cfg) acts = some s) (hlen : acts.length < 2 ^ 63) :
    PendInv acts.length s := by
  have h := run_pendInv acts (init_pendInv cfg) (by
    simp only [Nat.zero_add]
    have : ((acts.length : Nat) : Int) < ((2 ^ 63 : Nat) : Int) := by exact_mod_cast hlen
    simpa using this) hrun
  simpa using h

theorem recvFrame_not_pending (c : MaxClient) (msg : Frame) {q : Int}
    (hseq : asFloat (lookupKey msg "seq") = some q) (hg : c.pending.get q = none) :
    (recvFrame c msg).2 = Reader.queueing msg ∧
      (recvFrame c msg).1.pendingPart = c.pendingPart := by
  have hpre := registries_pendingPart
    (syncPrefix_registries c msg (asFloatOrZero (lookupKey msg "opcode")))
  have hp := (pendingPart_fields hpre).2.1
  unfold recvFrame
  simp only [hseq]
  rw [hp, hg]
  exact ⟨rfl, (routeNotification_pendingPart _ _ _).trans hpre⟩

/-- C3. In every state the system reaches, a call that has returned, by whichever path,
has no entry in the pending registry under the sequence number it allocated, and a
frame arriving with that sequence number is routed as a notification: no result slot
receives it. -/
theorem sendAndWaitResponse_return_deregisters (cfg : Setup) (acts : List Action) (s : Sys)
    (hrun : run (Sys.init cfg) acts = some s) (hlen : acts.length < 2 ^ 63)
    (i : Nat) (q : Int) (r : GoMap) (e : Option CallErr)
    (hret : (s.calls i).pc = CallPc.returned q r e) :
    s.c.pending.get q = none ∧
    ∀ msg, asFloat (lookupKey msg "seq") = some q →
      (recvFrame s.c msg).2 = Reader.queueing msg ∧
        (recvFrame s.c msg).1.respSlots = s.c.respSlots := by
  have hinv := reachable_pendInv hrun hlen
  have hg := hinv.returned_gone i q r e hret
  refine ⟨hg, fun msg hseq => ?_⟩
  obtain ⟨h1, h2⟩ := recvFrame_not_pending s.c msg hseq hg
  exact ⟨h1, (pendingPart_fields h2).2.2⟩

/-- C3 (witness). A call that times out: after `nextSeq`, registration, enqueue and
timeout the call has returned with sequence number 1 and the registry has no entry 1. -/
theorem sendAndWaitResponse_return_deregisters_witness :
    ((demoState [Action.callNextSeq 0, Action.callRegister 0, Action.callEnqueue 0,
        Action.callTimeout 0]).c.pending.get 1 = none) ∧
    ∀ msg, asFloat (lookupKey msg "seq") = some 1 →
      (recvFrame (demoState [Action.callNextSeq 0, Action.callRegister 0,
        Action.callEnqueue 0, Action.callTimeout 0]).c msg).2 = Reader.queueing msg ∧
      (recvFrame (demoState [Action.callNextSeq 0, Action.callRegister 0,
        Action.callEnqueue 0, Action.callTimeout 0]).c msg).1.respSlots =
        (demoState [Action.callNextSeq 0, Action.callRegister 0, Action.callEnqueue 0,
          Action.callTimeout 0]).c.respSlots :=
  sendAndWaitResponse_return_deregisters demoSetup
    [Action.callNextSeq 0, Action.callRegister 0, Action.callEnqueue 0, Action.callTimeout 0]
    _ rfl (by decide) 0 1 none (some CallErr.timeout) rfl

theorem nextSeqIter_seq (c : MaxClient) (hc : c.seq = 0) (k : Nat) (hk : k < 2 ^ 63) :
    (nextSeqIter c k).seq = k := by
  induction k with
  | zero => simpa [nextSeqIter] using hc
  | succ k ih =>
    have hk1 : k < 2 ^ 63 := by omega
    have e := ih hk1
    simp only [nextSeqIter, nextSeq, e]
    have hb : ((k : Int) + 1) < 2 ^ 63 := by
      have : ((k + 1 : Nat) : Int) < ((2 ^ 63 : Nat) : Int) := by exact_mod_cast hk
      simpa using this
    rw [wrapInt_eq (by norm_num; omega) hb]
    push_cast; ring

/-- C4. On a new client the `k`-th call of `nextSeq` returns `k` (for `k` below `2 ^ 63`,
the range of the counter); in every state the system reaches no two calls hold the same
sequence number, and a call about to register its waiter finds no entry under its
sequence number, so a registration never overwrites a live entry. -/
theorem nextSeq_counts_and_never_reuses (cfg : Setup) :
    (∀ c : MaxClient, c.seq = 0 → ∀ k : Nat, 1 ≤ k → k < 2 ^ 63 → kthSeq c k = k) ∧
    (∀ (acts : List Action) (s : Sys), run (Sys.init cfg) acts = some s →
      acts.length < 2 ^ 63 →
      (∀ i j q, (s.calls i).pc.seq? = some q → (s.calls j).pc.seq? = some q → i = j) ∧
      (∀ i q, (s.calls i).pc = CallPc.allocated q → s.c.pending.get q = none)) := by
  constructor
  · intro c hc k hk1 hk2
    obtain ⟨k0, rfl⟩ : ∃ k0, k = k0 + 1 := ⟨k - 1, by omega⟩
    have e := nextSeqIter_seq c hc k0 (by omega)
    simp only [kthSeq, Nat.add_sub_cancel, nextSeq, e]
    have hb : ((k0 : Int) + 1) < 2 ^ 63 := by
      have : ((k0 + 1 : Nat) : Int) < ((2 ^ 63 : Nat) : Int) := by exact_mod_cast hk2
      simpa using this
    rw [wrapInt_eq (by norm_num; omega) hb]
    push_cast; ring
  · intro acts s hrun hlen
    have hinv := reachable_pendInv hrun hlen
    refine ⟨hinv.call_inj, ?_⟩
    intro i q hpc
    cases hg : s.c.pending.get q with
    | none => rfl
    | some ch =>
      obtain ⟨j, hj⟩ := hinv.owner q ch hg
      have hij := hinv.call_inj i j q (by rw [hpc]; rfl) (CallPc.seq_of_waiter hj)
      subst hij
      rw [hpc] at hj
      simp [CallPc.waiter?] at hj

/-- C4 (witness). The third call of `nextSeq` on a new client returns 3, and after two
calls have allocated their sequence numbers these differ. -/
theorem nextSeq_counts_and_never_reuses_witness :
    kthSeq (NewMaxClient "token" [] [] [] 0 0) 3 = ((3 : Nat) : Int) ∧
    ((demoState [Action.callNextSeq 0, Action.callNextSeq 1]).c.pending.get 2 = none) :=
  ⟨(nextSeq_counts_and_never_reuses demoSetup).1 (NewMaxClient "token" [] [] [] 0 0) rfl 3
      (by decide) (by decide),
   ((nextSeq_counts_and_never_reuses demoSetup).2
      [Action.callNextSeq 0, Action.callNextSeq 1] _ rfl (by decide)).2 1 2 rfl⟩

theorem setCall_registered {s : Sys} {i1 i : Nat} {pc1 : CallPc} {c1 : MaxClient} {q : Int}
    {ch : Nat} (h : ((s.setCall i1 pc1 c1).calls i).pc = CallPc.registered q ch) :
    (s.calls i).pc = CallPc.registered q ch ∨ (i = i1 ∧ pc1 = CallPc.registered q ch) := by
  rw [Sys.setCall_pc] at h
  split at h
  · rename_i hi; exact Or.inr ⟨hi, h⟩
  · exact Or.inl h

theorem stepCall_registered {s s1 : Sys} {i1 i : Nat} {a : Action} {q : Int} {ch : Nat}
    (hs : stepCall s i1 a = some s1) (h : (s1.calls i).pc = CallPc.registered q ch) :
    (s.calls i).pc = CallPc.registered q ch ∨
      (i = i1 ∧ (∃ k, a = Action.callRegister k) ∧ (s.calls i).pc = CallPc.allocated q ∧
        s1.c.pending.get q = some ch) := by
  unfold stepCall at hs
  split at hs
  · have e1 := (Option.some.inj hs).symm
    subst e1
    rcases setCall_registered h with h1 | ⟨_, h2⟩
    · exact Or.inl h1
    · cases h2
  · rename_i k seq hpc
    have e1 := (Option.some.inj hs).symm
    subst e1
    rcases setCall_registered h with h1 | ⟨h2, h3⟩
    · exact Or.inl h1
    · right
      subst h2
      have e2 : seq = q ∧ s.c.respSlots.length = ch := by simpa using h3
      obtain ⟨e3, e4⟩ := e2
      subst e3
      exact ⟨rfl, ⟨k, rfl⟩, hpc, by simp [Registry.get_put_self, e4]⟩
  · split at hs
    · have e1 := (Option.some.inj hs).symm
      subst e1
      rcases setCall_registered h with h1 | ⟨_, h2⟩
      · exact Or.inl h1
      · cases h2
    · cases hs
  · have e1 := (Option.some.inj hs).symm
    subst e1
    rcases setCall_registered h with h1 | ⟨_, h2⟩
    · exact Or.inl h1
    · cases h2
  · split at hs
    · split at hs
      · split at hs
        · have e1 := (Option.some.inj hs).symm
          subst e1
          rcases setCall_registered h with h1 | ⟨_, h2⟩
          · exact Or.inl h1
          · cases h2
        · have e1 := (Option.some.inj hs).symm
          subst e1
          rcases setCall_registered h with h1 | ⟨_, h2⟩
          · exact Or.inl h1
          · cases h2
      · cases hs
    · cases hs
  · have e1 := (Option.some.inj hs).symm
    subst e1
    rcases setCall_registered h with h1 | ⟨_, h2⟩
    · exact Or.inl h1
    · cases h2
  · split at hs
    · have e1 := (Option.some.inj hs).symm
      subst e1
      rcases setCall_registered h with h1 | ⟨_, h2⟩
      · exact Or.inl h1
      · cases h2
    · cases hs
  · cases hs

theorem stepUpload_calls {s s1 : Sys} {j : Nat} {a : Action}
    (hs : stepUpload s j a = some s1) : s1.calls = s.calls := by
  unfold stepUpload at hs
  split at hs
  · have e1 := (Option.some.inj hs).symm
    subst e1; rfl
  · split at hs
    · split at hs
      · have e1 := (Option.some.inj hs).symm
        subst e1; rfl
      · cases hs
    · cases hs
  · have e1 := (Option.some.inj hs).symm
    subst e1; rfl
  · have e1 := (Option.some.inj hs).symm
    subst e1; rfl
  · cases hs

theorem stepBackground_calls {s s1 : Sys} {a : Action}
    (hs : stepBackground s a = some s1) : s1.calls = s.calls := by
  unfold stepBackground at hs
  split at hs
  · have e1 := (Option.some.inj hs).symm
    subst e1; rfl
  · have e1 := (Option.some.inj hs).symm
    subst e1; rfl
  · split at hs
    · have e1 := (Option.some.inj hs).symm
      subst e1; rfl
    · cases hs
  · exact (readerLeave_spec hs).2.2.1
  · have e1 := (Option.some.inj hs).symm
    subst e1; rfl
  · split at hs
    · split at hs
      · split at hs
        · have e1 := (Option.some.inj hs).symm
          subst e1; rfl
        · have e1 := (Option.some.inj hs).symm
          subst e1; rfl
      · cases hs
    · cases hs
  · split at hs
    · have e1 := (Option.some.inj hs).symm
      subst e1; rfl
    · cases hs
  · split at hs
    · have e1 := (Option.some.inj hs).symm
      subst e1; rfl
    · cases hs
  · split at hs
    · have e1 := (Option.some.inj hs).symm
      subst e1; rfl
    · cases hs
  · split at hs
    · have e1 := (Option.some.inj hs).symm
      subst e1; rfl
    · cases hs
  · cases hs

/-- A call stands at `registered q ch` after a step only if it stood there before or the
step was its registration, which stored `ch` under `q`. -/
theorem step_registered {s s1 : Sys} {a : Action} {i : Nat} {q : Int} {ch : Nat}
    (hs : step a s = some s1) (h : (s1.calls i).pc = CallPc.registered q ch) :
    (s.calls i).pc = CallPc.registered q ch ∨
      (a = Action.callRegister i ∧ (s.calls i).pc = CallPc.allocated q ∧
        s1.c.pending.get q = some ch) := by
  unfold step at hs
  split at hs
  · cases hs
  · cases a with
    | callRegister k =>
      rcases stepCall_registered hs h with h1 | ⟨h2, _, h3, h4⟩
      · exact Or.inl h1
      · subst h2; exact Or.inr ⟨rfl, h3, h4⟩
    | callNextSeq k =>
      rcases stepCall_registered hs h with h1 | ⟨_, ⟨k1, h2⟩, _⟩
      · exact Or.inl h1
      · cases h2
    | callEnqueue k =>
      rcases stepCall_registered hs h with h1 | ⟨_, ⟨k1, h2⟩, _⟩
      · exact Or.inl h1
      · cases h2
    | callCancelEnqueue k =>
      rcases stepCall_registered hs h with h1 | ⟨_, ⟨k1, h2⟩, _⟩
      · exact Or.inl h1
      · cases h2
    | callReceive k =>
      rcases stepCall_registered hs h with h1 | ⟨_, ⟨k1, h2⟩, _⟩
      · exact Or.inl h1
      · cases h2
    | callCancel k =>
      rcases stepCall_registered hs h with h1 | ⟨_, ⟨k1, h2⟩, _⟩
      · exact Or.inl h1
      · cases h2
    | callTimeout k =>
      rcases stepCall_registered hs h with h1 | ⟨_, ⟨k1, h2⟩, _⟩
      · exact Or.inl h1
      · cases h2
    | uploadRegister j => left; rw [← stepUpload_calls hs]; exact h
    | uploadReceive j => left; rw [← stepUpload_calls hs]; exact h
    | uploadCancel j => left; rw [← stepUpload_calls hs]; exact h
    | uploadTimeout j => left; rw [← stepUpload_calls hs]; exact h
    | readerFrame msg => left; rw [← stepBackground_calls hs]; exact h
    | readerDeliver => left; rw [← stepBackground_calls hs]; exact h
    | readerQueue => left; rw [← stepBackground_calls hs]; exact h
    | readerExit => left; rw [← stepBackground_calls hs]; exact h
    | writerSend => left; rw [← stepBackground_calls hs]; exact h
    | writerExit => left; rw [← stepBackground_calls hs]; exact h
    | closeCancel => left; rw [← stepBackground_calls hs]; exact h
    | closePending => left; rw [← stepBackground_calls hs]; exact h
    | closeUploads => left; rw [← stepBackground_calls hs]; exact h

/-- C5 (claim as stated fails). A call registers its waiter under sequence number 1;
`Close` then empties the registry; the call then puts its frame on the outgoing queue:
at that moment 1 is not a key of the pending registry. -/
theorem enqueue_after_close_not_registered :
    (demoState [Action.callNextSeq 0, Action.callRegister 0, Action.closeCancel,
        Action.readerExit, Action.writerExit, Action.closePending]).c.pending.get 1 = none ∧
    ((step (Action.callEnqueue 0)
        (demoState [Action.callNextSeq 0, Action.callRegister 0, Action.closeCancel,
          Action.readerExit, Action.writerExit, Action.closePending])).map
      (fun s => outgoingSeqs s.c)) = some [some 1] := by
  decide

/-- C5 (amended). A frame is put on the outgoing queue only by a call that has registered
its waiter: the call stands at `registered q ch`, a state entered only by the
registration step, which stores `ch` under `q`. At the moment of enqueueing `q` is still
a key of the registry (bound to `ch`) unless the waiter has already been taken out: by
the reader, for an inbound frame carrying `q` (it holds `ch` or has filled its slot),
or by `Close` (the slot is closed). -/
theorem enqueue_only_after_register (cfg : Setup) (acts : List Action) (s s1 : Sys)
    (hrun : run (Sys.init cfg) acts = some s) (hlen : acts.length < 2 ^ 63) :
    (∀ i, step (Action.callEnqueue i) s = some s1 →
      ∃ q ch, (s.calls i).pc = CallPc.registered q ch ∧
        s1.c.outgoing = s.c.outgoing ++ [requestFrame q (s.calls i).opcode (s.calls i).payload] ∧
        (s.c.pending.get q = some ch ∨
          (s.c.pending.get q = none ∧
            ((∃ msg, s.reader = Reader.delivering ch msg) ∨
              ∃ slot, s.c.respSlots[ch]? = some slot ∧ slot.canRecv = true)))) ∧
    (∀ a i q ch, step a s = some s1 → (s1.calls i).pc = CallPc.registered q ch →
      (s.calls i).pc = CallPc.registered q ch ∨
        (a = Action.callRegister i ∧ (s.calls i).pc = CallPc.allocated q ∧
          s1.c.pending.get q = some ch)) := by
  have hinv := reachable_pendInv hrun hlen
  constructor
  · intro i hstep
    unfold step at hstep
    split at hstep
    · cases hstep
    · simp only [stepCall] at hstep
      split at hstep
      · rename_i hact _; cases hact
      · rename_i hact _; cases hact
      · rename_i q ch _ hpc
        split at hstep
        · have e1 := (Option.some.inj hstep).symm
          subst e1
          refine ⟨q, ch, hpc, rfl, ?_⟩
          have hw : (s.calls i).pc.waiter? = some (q, ch) := by rw [hpc]; rfl
          rcases hinv.waiter_state i q ch hw with h1 | h2 | h3
          · exact Or.inl h1
          · right
            refine ⟨?_, Or.inl h2⟩
            obtain ⟨msg, hmsg⟩ := h2
            cases hg : s.c.pending.get q with
            | none => rfl
            | some ch1 =>
              have e2 := hinv.own_entry hw hg
              subst e2
              exact absurd hg ((hinv.reader_slot _ msg hmsg).2 q)
          · right
            refine ⟨?_, Or.inr h3⟩
            obtain ⟨slot, hslot, hcan⟩ := h3
            cases hg : s.c.pending.get q with
            | none => rfl
            | some ch1 =>
              have e2 := hinv.own_entry hw hg
              subst e2
              have hf := hinv.slot_fresh q _ hg
              rw [hslot] at hf
              have e3 : slot = Chan.fresh := by simpa using hf
              subst e3
              simp [Chan.fresh_not_canRecv] at hcan
        · cases hstep
      · rename_i hact _; cases hact
      · rename_i hact _; cases hact
      · rename_i hact _; cases hact
      · rename_i hact _; cases hact
      · cases hstep
  · intro a i q ch hstep hpc1
    exact step_registered hstep hpc1

/-- C5 (witness). A call that has registered under sequence number 1 enqueues its frame
while 1 is bound in the registry. -/
theorem enqueue_only_after_register_witness :
    ∃ q ch, ((demoState [Action.callNextSeq 0, Action.callRegister 0]).calls 0).pc =
        CallPc.registered q ch ∧
      (demoState [Action.callNextSeq 0, Action.callRegister 0, Action.callEnqueue 0]).c.outgoing =
        (demoState [Action.callNextSeq 0, Action.callRegister 0]).c.outgoing ++
          [requestFrame q ((demoState [Action.callNextSeq 0, Action.callRegister 0]).calls 0).opcode
            ((demoState [Action.callNextSeq 0, Action.callRegister 0]).calls 0).payload] ∧
      ((demoState [Action.callNextSeq 0, Action.callRegister 0]).c.pending.get q = some ch ∨
        ((demoState [Action.callNextSeq 0, Action.callRegister 0]).c.pending.get q = none ∧
          ((∃ msg, (demoState [Action.callNextSeq 0, Action.callRegister 0]).reader =
              Reader.delivering ch msg) ∨
            ∃ slot, (demoState [Action.callNextSeq 0, Action.callRegister 0]).c.respSlots[ch]? =
              some slot ∧ slot.canRecv = true))) :=
  (enqueue_only_after_register demoSetup [Action.callNextSeq 0, Action.callRegister 0]
    (demoState [Action.callNextSeq 0, Action.callRegister 0])
    (demoState [Action.callNextSeq 0, Action.callRegister 0, Action.callEnqueue 0])
    rfl (by decide)).1 0 rfl

theorem recvFrame_pending {c : MaxClient} {msg : Frame} {q : Int} {ch : Nat}
    (hseq : asFloat (lookupKey msg "seq") = some q) (hg : c.pending.get q = some ch)
    (h19 : asFloatOrZero (lookupKey msg "opcode") ≠ OpcodeLogin)
    (h21 : asFloatOrZero (lookupKey msg "opcode") ≠ OpcodeSync) :
    recvFrame c msg = ({ c with pending := c.pending.del q }, Reader.delivering ch msg) := by
  unfold recvFrame
  simp only [hseq, h19, h21, or_self, if_false, hg]

theorem deliver_fresh {c : MaxClient} {ch : Nat} (msg : Frame)
    (hf : c.respSlots[ch]? = some Chan.fresh) :
    deliver c ch msg =
      { c with respSlots := c.respSlots.set ch { buf := [some msg], closed := false } } := by
  unfold deliver Heap.trySend
  simp only [hf, Chan.trySend_fresh]
  simp

/-- C6. In every state the system reaches: when the reader takes a frame whose sequence
number is bound in the pending registry and whose opcode is neither login (19) nor sync
(21), the only effect is that the entry leaves the registry and the reader holds the
waiter's channel; when the reader then sends, the only effect is that the frame sits in
that waiter's slot, which was open and empty. No handler is spawned, the caches, the
upload-waiter registry and the incoming queue are untouched, and the reader is back at
reading the next frame. -/
theorem recvLoop_pending_delivery_only (cfg : Setup) (acts : List Action) (s : Sys)
    (hrun : run (Sys.init cfg) acts = some s) (hlen : acts.length < 2 ^ 63)
    (hlive : s.c.panicked = false) :
    (∀ msg q ch, s.reader = Reader.idle → asFloat (lookupKey msg "seq") = some q →
      s.c.pending.get q = some ch →
      asFloatOrZero (lookupKey msg "opcode") ≠ OpcodeLogin →
      asFloatOrZero (lookupKey msg "opcode") ≠ OpcodeSync →
      step (Action.readerFrame msg) s =
        some { s with c := { s.c with pending := s.c.pending.del q },
                      reader := Reader.delivering ch msg }) ∧
    (∀ ch msg, s.reader = Reader.delivering ch msg →
      s.c.respSlots[ch]? = some Chan.fresh ∧
      step Action.readerDeliver s =
        some { s with c := { s.c with respSlots :=
                                s.c.respSlots.set ch { buf := [some msg], closed := false } },
                      reader := Reader.idle }) := by
  have hinv := reachable_pendInv hrun hlen
  constructor
  · intro msg q ch hidle hseq hg h19 h21
    simp only [step, hlive, stepBackground, hidle, recvFrame_pending hseq hg h19 h21]
    rfl
  · intro ch msg hrd
    have hf := (hinv.reader_slot ch msg hrd).1
    refine ⟨hf, ?_⟩
    simp only [step, hlive, stepBackground, hrd, deliver_fresh msg hf]
    rfl

/-- C6 (witness). The response to the first request (sequence number 1, opcode 64) is
taken by the reader and then placed in the slot of the waiting call. -/
theorem recvLoop_pending_delivery_only_witness :
    step (Action.readerFrame (requestFrame 1 64 (some [])))
        (demoState [Action.callNextSeq 0, Action.callRegister 0, Action.callEnqueue 0]) =
      some { demoState [Action.callNextSeq 0, Action.callRegister 0, Action.callEnqueue 0] with
        c := { (demoState [Action.callNextSeq 0, Action.callRegister 0,
                  Action.callEnqueue 0]).c with
                pending := (demoState [Action.callNextSeq 0, Action.callRegister 0,
                  Action.callEnqueue 0]).c.pending.del 1 },
        reader := Reader.delivering 0 (requestFrame 1 64 (some [])) } :=
  (recvLoop_pending_delivery_only demoSetup
    [Action.callNextSeq 0, Action.callRegister 0, Action.callEnqueue 0] _ rfl (by decide) rfl).1
    (requestFrame 1 64 (some [])) 1 0 rfl rfl rfl (by decide) (by decide)

/-! ## Close and the waiting callers (C7, C8) -/

/-- C7 (code defect). A `sendAndWaitResponse` call is waiting for its response when
`Close` runs; `Close` closes the call's channel, the call's receive then yields the nil
map and the call returns `(nil, nil)`: no response and a nil error. -/
theorem sendAndWaitResponse_returns_nil_error_after_Close :
    ((demoState [Action.callNextSeq 0, Action.callRegister 0, Action.callEnqueue 0]).calls 0).kind
        = CallKind.sendAndWaitResponse ∧
    ((demoState [Action.callNextSeq 0, Action.callRegister 0, Action.callEnqueue 0,
        Action.closeCancel, Action.readerExit, Action.writerExit]).calls 0).pc.isWaiting
        = true ∧
    (run (Sys.init demoSetup)
        [Action.callNextSeq 0, Action.callRegister 0, Action.callEnqueue 0,
         Action.closeCancel, Action.readerExit, Action.writerExit, Action.closePending,
         Action.closeUploads, Action.callReceive 0]).isSome = true ∧
    ((demoState [Action.callNextSeq 0, Action.callRegister 0, Action.callEnqueue 0,
        Action.closeCancel, Action.readerExit, Action.writerExit, Action.closePending,
        Action.closeUploads, Action.callReceive 0]).calls 0).pc.returnedNilNil = true := by
  decide

/-- C8 (code defect). An `uploadFile` call (and likewise an `uploadVideo` call) is waiting
for its attach completion when `Close` runs; `Close` closes the waiter's channel, the
receive then succeeds and the call returns the attachment payload with a nil error. -/
theorem uploadFile_returns_payload_after_Close :
    ((demoState [Action.uploadRegister 0, Action.closeCancel, Action.readerExit,
        Action.writerExit, Action.closePending]).uploads 0).pc.isWaiting = true ∧
    (run (Sys.init demoSetup)
        [Action.uploadRegister 0, Action.closeCancel, Action.readerExit, Action.writerExit,
         Action.closePending, Action.closeUploads, Action.uploadReceive 0]).isSome = true ∧
    ((demoState [Action.uploadRegister 0, Action.closeCancel, Action.readerExit,
        Action.writerExit, Action.closePending, Action.closeUploads,
        Action.uploadReceive 0]).uploads 0).pc.returnedPayload = true ∧
    ((demoState [Action.uploadRegister 1, Action.closeCancel, Action.readerExit,
        Action.writerExit, Action.closePending]).uploads 1).pc.isWaiting = true ∧
    ((demoState [Action.uploadRegister 1, Action.closeCancel, Action.readerExit,
        Action.writerExit, Action.closePending, Action.closeUploads,
        Action.uploadReceive 1]).uploads 1).pc.returnedPayload = true := by
  decide

/-! ## The upload correlator (C9, C10) -/

theorem resolveWaiter_get (c : MaxClient) (id : Int) (msg : Frame) (k : Int) :
    (resolveWaiter c id msg).fileUploadWaiters.get k =
      if k = id ∧ 0 < id then none else c.fileUploadWaiters.get k := by
  unfold resolveWaiter
  by_cases hid : id > 0
  · simp only [hid, if_true]
    cases hg : c.fileUploadWaiters.get id with
    | none =>
      by_cases hk : k = id
      · subst hk; simp [hg, hid]
      · simp [hk]
    | some ch =>
      simp only [UpInv.registry_get_del]
      by_cases hk : k = id
      · simp [hk, hid]
      · simp [hk]
  · have h0 : ¬ 0 < id := hid
    simp [hid, h0]

/-- C9 (claim as stated fails). With waiters open under 77 and 78, one frame carrying
`fileId` 77 and `videoId` 78 removes both of them and fills both slots. -/
theorem handleFileUploadNotification_resolves_two :
    (twoWaiters.fileUploadWaiters.get 77).isSome = true ∧
    (twoWaiters.fileUploadWaiters.get 78).isSome = true ∧
    (handleFileUploadNotification twoWaiters (notifAttachFrame 77 78)).fileUploadWaiters.get 77
      = none ∧
    (handleFileUploadNotification twoWaiters (notifAttachFrame 77 78)).fileUploadWaiters.get 78
      = none ∧
    (handleFileUploadNotification twoWaiters (notifAttachFrame 77 78)).waitSlots.map
      (fun slot => slot.buf.length) = [1, 1] := by
  decide

/-- C9 (amended). The attach handler removes exactly the entries under the frame's
positive `fileId` and under its positive `videoId`, and no other entry: at most one
waiter for each of the two id fields, hence at most two for one frame, and at most one
when only one id is positive or both are the same. -/
theorem handleFileUploadNotification_removes_by_id (c : MaxClient) (msg : Frame) (k : Int) :
    (handleFileUploadNotification c msg).fileUploadWaiters.get k =
      if (k = (attachIds msg).1 ∧ 0 < (attachIds msg).1) ∨
          (k = (attachIds msg).2 ∧ 0 < (attachIds msg).2) then none
      else c.fileUploadWaiters.get k := by
  unfold handleFileUploadNotification attachIds
  simp only [resolveWaiter_get]
  by_cases h1 : k = asFloatOrZero ((asMap (lookupKey msg "payload")).index "videoId") ∧
      0 < asFloatOrZero ((asMap (lookupKey msg "payload")).index "videoId")
  · simp [h1]
  · simp only [h1, if_false, or_false]


theorem resolveWaiter_absent {c : MaxClient} {id : Int} (msg : Frame)
    (h : id ≤ 0 ∨ c.fileUploadWaiters.get id = none) : resolveWaiter c id msg = c := by
  unfold resolveWaiter
  rcases h with h | h
  · have : ¬ id > 0 := by omega
    simp [this]
  · simp [h]

theorem resolveWaiter_hit {c : MaxClient} {id : Int} {ch : Nat} (msg : Frame) (hid : 0 < id)
    (hg : c.fileUploadWaiters.get id = some ch) (hf : c.waitSlots[ch]? = some Chan.fresh) :
    resolveWaiter c id msg =
      { c with fileUploadWaiters := c.fileUploadWaiters.del id,
               waitSlots := c.waitSlots.set ch { buf := [some msg], closed := false } } := by
  unfold resolveWaiter Heap.trySend
  have : id > 0 := hid
  simp only [this, if_true, hg, hf, Chan.trySend_fresh]
  simp

theorem resolveWaiter_slot_ne {c : MaxClient} {id : Int} (msg : Frame) (h : UpInv c)
    {k : Int} {ch : Nat} (hk : k ≠ id) (hg : c.fileUploadWaiters.get k = some ch) :
    (resolveWaiter c id msg).waitSlots[ch]? = c.waitSlots[ch]? ∧
      (resolveWaiter c id msg).panicked = c.panicked := by
  by_cases hhit : 0 < id ∧ ∃ ch1, c.fileUploadWaiters.get id = some ch1
  · obtain ⟨hid, ch1, hg1⟩ := hhit
    rw [resolveWaiter_hit msg hid hg1 (h.slot_fresh id ch1 hg1)]
    have hne : ch1 ≠ ch := by
      intro e; subst e; exact hk (h.inj k id _ hg hg1)
    exact ⟨List.getElem?_set_ne hne, rfl⟩
  · rw [resolveWaiter_absent msg]
    · exact ⟨rfl, rfl⟩
    · by_cases hid : 0 < id
      · right
        cases hg1 : c.fileUploadWaiters.get id with
        | none => rfl
        | some ch1 => exact absurd ⟨hid, ch1, hg1⟩ hhit
      · left; omega

theorem resolveWaiter_panicked {c : MaxClient} (id : Int) (msg : Frame) (h : UpInv c) :
    (resolveWaiter c id msg).panicked = c.panicked := by
  by_cases hhit : 0 < id ∧ ∃ ch1, c.fileUploadWaiters.get id = some ch1
  · obtain ⟨hid, ch1, hg1⟩ := hhit
    rw [resolveWaiter_hit msg hid hg1 (h.slot_fresh id ch1 hg1)]
  · rw [resolveWaiter_absent msg]
    by_cases hid : 0 < id
    · right
      cases hg1 : c.fileUploadWaiters.get id with
      | none => rfl
      | some ch1 => exact absurd ⟨hid, ch1, hg1⟩ hhit
    · left; omega

/-- C10. In every state the system reaches, an attach-completion frame whose `fileId` or
`videoId` is the positive id `n` of a registered waiter puts the frame in that waiter's
slot and removes `n` from the registry, without a panic; handling the same frame again
changes nothing; and a frame whose ids name no registered waiter leaves the client as it
was. -/
theorem handleFileUploadNotification_resolves_once (cfg : Setup) (acts : List Action)
    (s : Sys) (hrun : run (Sys.init cfg) acts = some s) :
    (∀ (msg : Frame) (n : Int) (ch : Nat), 0 < n → s.c.fileUploadWaiters.get n = some ch →
      (attachIds msg).1 = n ∨ (attachIds msg).2 = n →
      (handleFileUploadNotification s.c msg).waitSlots[ch]? =
          some { buf := [some msg], closed := false } ∧
      (handleFileUploadNotification s.c msg).fileUploadWaiters.get n = none ∧
      (handleFileUploadNotification s.c msg).panicked = s.c.panicked ∧
      handleFileUploadNotification (handleFileUploadNotification s.c msg) msg =
        handleFileUploadNotification s.c msg) ∧
    (∀ msg : Frame,
      ((attachIds msg).1 ≤ 0 ∨ s.c.fileUploadWaiters.get (attachIds msg).1 = none) →
      ((attachIds msg).2 ≤ 0 ∨ s.c.fileUploadWaiters.get (attachIds msg).2 = none) →
      handleFileUploadNotification s.c msg = s.c) := by
  have hinv : UpInv s.c := run_upInv acts (init_upInv cfg) hrun
  constructor
  · intro msg n ch hn hg hid
    have hrem := handleFileUploadNotification_removes_by_id s.c msg
    have hidem : handleFileUploadNotification (handleFileUploadNotification s.c msg) msg =
        handleFileUploadNotification s.c msg := by
      have e1 : resolveWaiter (handleFileUploadNotification s.c msg) (attachIds msg).1 msg =
          handleFileUploadNotification s.c msg := by
        apply resolveWaiter_absent
        by_cases h0 : 0 < (attachIds msg).1
        · right; rw [hrem]; simp [h0]
        · left; omega
      have e2 : resolveWaiter (handleFileUploadNotification s.c msg) (attachIds msg).2 msg =
          handleFileUploadNotification s.c msg := by
        apply resolveWaiter_absent
        by_cases h0 : 0 < (attachIds msg).2
        · right; rw [hrem]; simp [h0]
        · left; omega
      show resolveWaiter (resolveWaiter (handleFileUploadNotification s.c msg)
        (attachIds msg).1 msg) (attachIds msg).2 msg = _
      rw [e1, e2]
    have hgone : (handleFileUploadNotification s.c msg).fileUploadWaiters.get n = none := by
      rw [hrem]
      rcases hid with e | e
      · simp [e, hn]
      · simp [e, hn]
    have hpan : (handleFileUploadNotification s.c msg).panicked = s.c.panicked := by
      show (resolveWaiter (resolveWaiter s.c (attachIds msg).1 msg)
        (attachIds msg).2 msg).panicked = _
      rw [resolveWaiter_panicked _ msg (hinv.after_resolveWaiter _ msg),
        resolveWaiter_panicked _ msg hinv]
    refine ⟨?_, hgone, hpan, hidem⟩
    show (resolveWaiter (resolveWaiter s.c (attachIds msg).1 msg)
      (attachIds msg).2 msg).waitSlots[ch]? = _
    have hf := hinv.slot_fresh n ch hg
    by_cases h1 : (attachIds msg).1 = n
    · -- resolved by the file id; the video id branch leaves the slot alone
      have hpos1 : 0 < (attachIds msg).1 := h1 ▸ hn
      have hget1 : s.c.fileUploadWaiters.get (attachIds msg).1 = some ch := h1 ▸ hg
      have hfirst := resolveWaiter_hit msg hpos1 hget1 hf
      have hinv1 : UpInv (resolveWaiter s.c (attachIds msg).1 msg) := hinv.after_resolveWaiter _ msg
      have hslot1 : (resolveWaiter s.c (attachIds msg).1 msg).waitSlots[ch]? =
          some { buf := [some msg], closed := false } := by
        rw [hfirst]
        have hlt : ch < s.c.waitSlots.length := hinv.lt_of_get hg
        simp [List.getElem?_set, hlt]
      by_cases hhit : 0 < (attachIds msg).2 ∧
          ∃ ch2, (resolveWaiter s.c (attachIds msg).1 msg).fileUploadWaiters.get
            (attachIds msg).2 = some ch2
      · obtain ⟨h2pos, ch2, hg2⟩ := hhit
        have hf2 := hinv1.slot_fresh _ ch2 hg2
        have hne : ch2 ≠ ch := by
          intro e; subst e
          rw [hslot1] at hf2
          have e3 : ({ buf := [some msg], closed := false } : Chan) = Chan.fresh := by
            simpa using hf2
          simp [Chan.fresh] at e3
        rw [resolveWaiter_hit msg h2pos hg2 hf2]
        simp only [List.getElem?_set_ne hne]
        exact hslot1
      · rw [resolveWaiter_absent msg]
        · exact hslot1
        · by_cases hid2 : 0 < (attachIds msg).2
          · right
            cases hg2 : (resolveWaiter s.c (attachIds msg).1 msg).fileUploadWaiters.get
                (attachIds msg).2 with
            | none => rfl
            | some ch2 => exact absurd ⟨hid2, ch2, hg2⟩ hhit
          · left; omega
    · -- resolved by the video id
      have h2 : (attachIds msg).2 = n := by
        rcases hid with e | e
        · exact absurd e h1
        · exact e
      have hne1 : n ≠ (attachIds msg).1 := Ne.symm h1
      have hpre := resolveWaiter_slot_ne msg hinv hne1 hg
      have hinv1 : UpInv (resolveWaiter s.c (attachIds msg).1 msg) := hinv.after_resolveWaiter _ msg
      have hg1 : (resolveWaiter s.c (attachIds msg).1 msg).fileUploadWaiters.get n = some ch := by
        rw [resolveWaiter_get]
        have : ¬ (n = (attachIds msg).1 ∧ 0 < (attachIds msg).1) := fun e => h1 e.1.symm
        simp only [this, if_false]; exact hg
      have hf1 : (resolveWaiter s.c (attachIds msg).1 msg).waitSlots[ch]? = some Chan.fresh := by
        rw [hpre.1]; exact hf
      rw [h2, resolveWaiter_hit msg hn hg1 hf1]
      have hlt : ch < (resolveWaiter s.c (attachIds msg).1 msg).waitSlots.length :=
        hinv1.lt_of_get hg1
      simp [List.getElem?_set, hlt]
  · intro msg h1 h2
    show resolveWaiter (resolveWaiter s.c (attachIds msg).1 msg) (attachIds msg).2 msg = _
    rw [resolveWaiter_absent msg h1, resolveWaiter_absent msg h2]

/-- C10 (witness). With a waiter registered under 77, the frame `{fileId: 77}` fills the
waiter's slot and removes 77; the identical frame handled again changes nothing. -/
theorem handleFileUploadNotification_resolves_once_witness :
    (handleFileUploadNotification (demoState [Action.uploadRegister 0]).c
        (notifAttachFrame 77 0)).waitSlots[0]? =
        some { buf := [some (notifAttachFrame 77 0)], closed := false } ∧
    (handleFileUploadNotification (demoState [Action.uploadRegister 0]).c
        (notifAttachFrame 77 0)).fileUploadWaiters.get 77 = none ∧
    (handleFileUploadNotification (demoState [Action.uploadRegister 0]).c
        (notifAttachFrame 77 0)).panicked = (demoState [Action.uploadRegister 0]).c.panicked ∧
    handleFileUploadNotification (handleFileUploadNotification
        (demoState [Action.uploadRegister 0]).c (notifAttachFrame 77 0)) (notifAttachFrame 77 0) =
      handleFileUploadNotification (demoState [Action.uploadRegister 0]).c
        (notifAttachFrame 77 0) :=
  (handleFileUploadNotification_resolves_once demoSetup [Action.uploadRegister 0] _ rfl).1
    (notifAttachFrame 77 0) 77 0 (by decide) rfl (Or.inl rfl)

/-! ## Read failure with reconnection disabled (C11) -/

/-- C11 (claim as stated fails). Reconnection is disabled; a call and an upload are
outstanding when the reader observes a read failure and returns. Afterwards both
waiters are still in their registries, both goroutines are still waiting, and neither
receive can proceed: nothing has failed them. -/
theorem readFailure_leaves_waiters_registered :
    (Sys.init demoSetup).reconnect = false ∧
    (run (Sys.init demoSetup) readFailureSchedule).isSome = true ∧
    (demoState readFailureSchedule).c.pending.get 1 = some 0 ∧
    (demoState readFailureSchedule).c.fileUploadWaiters.get 77 = some 0 ∧
    ((demoState readFailureSchedule).calls 0).pc.isWaiting = true ∧
    ((demoState readFailureSchedule).uploads 0).pc.isWaiting = true ∧
    (step (Action.callReceive 0) (demoState readFailureSchedule)).isNone = true ∧
    (step (Action.uploadReceive 0) (demoState readFailureSchedule)).isNone = true := by
  decide

/-- C11 (amended). With reconnection disabled, a read failure observed by the reader
only marks the connection as not connected and ends the reader. Every call and every
upload wait that is registered at that moment stays registered with its slot empty, so
its receive cannot proceed; a `sendAndWaitResponse` call then ends by its timeout (or
its context), with the timeout error. -/
theorem readFailure_without_reconnect (cfg : Setup) (acts : List Action) (s : Sys)
    (hrun : run (Sys.init cfg) acts = some s) (hlen : acts.length < 2 ^ 63)
    (hlive : s.c.panicked = false) (hidle : s.reader = Reader.idle)
    (hws : s.c.ws = true) (hrec : s.reconnect = false) :
    step Action.readerExit s =
      some { s with c := { s.c with isConnected := false }, reader := Reader.exited } ∧
    (∀ i q ch, (s.calls i).pc = CallPc.waiting q ch → s.c.pending.get q = some ch →
      step (Action.callReceive i)
        { s with c := { s.c with isConnected := false }, reader := Reader.exited } = none ∧
      ((s.calls i).kind = CallKind.sendAndWaitResponse →
        (step (Action.callTimeout i)
            { s with c := { s.c with isConnected := false }, reader := Reader.exited }).map
          (fun s2 => (s2.calls i).pc) = some (CallPc.returned q none (some CallErr.timeout)))) ∧
    (∀ j id ch, (s.uploads j).pc = UploadPc.waiting id ch →
      s.c.fileUploadWaiters.get id = some ch →
      step (Action.uploadReceive j)
        { s with c := { s.c with isConnected := false }, reader := Reader.exited } = none) := by
  have hinv := reachable_pendInv hrun hlen
  have hup : UpInv s.c := run_upInv acts (init_upInv cfg) hrun
  refine ⟨?_, ?_, ?_⟩
  · simp [step, hlive, stepBackground, hidle, readerLeave, hws, hrec]
  · intro i q ch hpc hg
    have hf := hinv.slot_fresh q ch hg
    constructor
    · simp [step, hlive, stepCall, hpc, hf, Chan.fresh_not_canRecv]
    · intro hk
      simp [step, hlive, stepCall, hpc, hk, Sys.setCall_pc]
  · intro j id ch hpc hg
    have hf := hup.slot_fresh id ch hg
    simp [step, hlive, stepUpload, hpc, hf, Chan.fresh_not_canRecv]

/-- C11 (witness). A waiting call, registered under sequence number 1, at the moment of
the read failure. -/
theorem readFailure_without_reconnect_witness :
    step Action.readerExit
        (demoState [Action.callNextSeq 0, Action.callRegister 0, Action.callEnqueue 0]) =
      some { demoState [Action.callNextSeq 0, Action.callRegister 0, Action.callEnqueue 0] with
        c := { (demoState [Action.callNextSeq 0, Action.callRegister 0,
                  Action.callEnqueue 0]).c with isConnected := false },
        reader := Reader.exited } :=
  (readFailure_without_reconnect demoSetup
    [Action.callNextSeq 0, Action.callRegister 0, Action.callEnqueue 0] _ rfl (by decide)
    rfl rfl rfl rfl).1

/-! ## Intake of notifications (C12) -/

set_option maxRecDepth 100000 in
/-- C12 (code defect). Every frame that matches no pending request is pushed on
`incoming`, a channel of capacity 128 that nothing reads. After 128 new-message push
frames the queue is full; the reader still dispatches the 129th frame to the handler
but then blocks on the push, and a 130th frame can no longer be taken: the handler has
run 129 times, not 130. -/
theorem recvLoop_blocks_after_128_notifications :
    (run (Sys.init floodSetup)
      (floodSchedule 128 ++ [Action.readerFrame (notifMessageFrame plainPayload)])).isSome
      = true ∧
    (floodState (floodSchedule 128)).c.incoming.length = 128 ∧
    (floodState (floodSchedule 128)).c.spawned.length = 128 ∧
    (floodState (floodSchedule 128 ++
      [Action.readerFrame (notifMessageFrame plainPayload)])).c.spawned.length = 129 ∧
    (step Action.readerQueue (floodState (floodSchedule 128 ++
      [Action.readerFrame (notifMessageFrame plainPayload)]))).isNone = true ∧
    (step (Action.readerFrame (notifMessageFrame plainPayload)) (floodState (floodSchedule 128 ++
      [Action.readerFrame (notifMessageFrame plainPayload)]))).isNone = true := by
  decide

/-! ## The error convention (C16, C17) -/

theorem asMapOk_eq_some {v : Option JSON} {kvs : List (String × JSON)} :
    asMapOk v = some kvs ↔ v = some (JSON.obj kvs) := by
  unfold asMapOk
  split <;> simp_all

theorem asString_eq_some {v : Option JSON} {s : String} :
    asString v = some s ↔ v = some (JSON.str s) := by
  unfold asString
  split <;> simp_all

/-- With an object payload, `HandleError` returns nil exactly when no non-empty `error`
string is carried. -/
theorem HandleError_obj_eq_none {data : GoMap} {payload : List (String × JSON)}
    (hp : data.index "payload" = some (JSON.obj payload)) :
    HandleError data = none ↔ ¬ carriesError data := by
  have h1 : asMapOk (data.index "payload") = some payload := asMapOk_eq_some.2 hp
  unfold HandleError carriesError
  rw [h1]
  simp only [hp, Option.some.injEq, JSON.obj.injEq]
  cases hs : asString (lookupKey payload "error") with
  | none =>
    simp only [true_iff]
    rintro ⟨p, c, rfl, h2, _⟩
    rw [asString_eq_some.2 h2] at hs
    cases hs
  | some c =>
    have h2 := asString_eq_some.1 hs
    by_cases hc : c = ""
    · simp only [hc, if_true, true_iff]
      rintro ⟨p, c1, rfl, h3, h4⟩
      rw [h2] at h3
      simp only [Option.some.injEq, JSON.str.injEq] at h3
      exact h4 (h3 ▸ hc)
    · simp only [hc, if_false]
      constructor
      · intro h
        split at h <;> cases h
      · intro h
        exact absurd ⟨payload, c, rfl, h2, hc⟩ h

/-- C16 (claim as stated fails). A response without a payload, and one whose payload is
`null`, carry no `error` field holding a non-empty string, yet `HandleError` returns a
non-nil `*ResponseError` for them. -/
theorem HandleError_no_payload_is_error :
    ¬ carriesError noPayloadResponse ∧
    HandleError noPayloadResponse = some (GoError.responseError "invalid response structure") ∧
    ¬ carriesError nullPayloadResponse ∧
    HandleError nullPayloadResponse =
      some (GoError.responseError "invalid response structure") := by
  refine ⟨?_, rfl, ?_, rfl⟩
  · rintro ⟨p, c, h, _⟩
    exact Option.noConfusion h
  · rintro ⟨p, c, h, _⟩
    have h1 : JSON.null = JSON.obj p := Option.some.inj h
    exact JSON.noConfusion h1

/-- C16 (amended). The function `HandleError` returns nil if and only if the payload of
the response is an object that has no `error` field holding a non-empty string. When the
payload is absent or not an object it returns the `*ResponseError` "invalid response
structure"; for every response whose payload carries a non-empty `error` string it
returns a non-nil error. -/
theorem HandleError_nil_iff (data : GoMap) :
    (HandleError data = none ↔
      (∃ payload, data.index "payload" = some (JSON.obj payload)) ∧ ¬ carriesError data) ∧
    ((¬ ∃ payload, data.index "payload" = some (JSON.obj payload)) →
      HandleError data = some (GoError.responseError "invalid response structure")) ∧
    (carriesError data → HandleError data ≠ none) := by
  have hno : (¬ ∃ payload, data.index "payload" = some (JSON.obj payload)) →
      HandleError data = some (GoError.responseError "invalid response structure") := by
    intro h
    have h1 : asMapOk (data.index "payload") = none := by
      cases hm : asMapOk (data.index "payload") with
      | none => rfl
      | some p => exact absurd ⟨p, asMapOk_eq_some.1 hm⟩ h
    unfold HandleError
    rw [h1]
  refine ⟨?_, hno, ?_⟩
  · constructor
    · intro h
      by_cases hp : ∃ payload, data.index "payload" = some (JSON.obj payload)
      · obtain ⟨p, hp1⟩ := hp
        exact ⟨⟨p, hp1⟩, (HandleError_obj_eq_none hp1).1 h⟩
      · rw [hno hp] at h
        cases h
    · rintro ⟨⟨p, hp⟩, hc⟩
      exact (HandleError_obj_eq_none hp).2 hc
  · intro hc h
    obtain ⟨p, c, hp, _⟩ := id hc
    exact (HandleError_obj_eq_none hp).1 h hc

/-- C16 (witness). An error response carries an error and is reported; a response without
a payload is reported as an invalid structure. -/
theorem HandleError_nil_iff_witness :
    HandleError (errorResponse "login.token") ≠ none ∧
    HandleError noPayloadResponse =
      some (GoError.responseError "invalid response structure") :=
  ⟨(HandleError_nil_iff (errorResponse "login.token")).2.2
      ⟨_, "login.token", rfl, rfl, by decide⟩,
   (HandleError_nil_iff noPayloadResponse).2.1
      (by rintro ⟨p, h⟩; exact Option.noConfusion h)⟩

/-- C17. For a response whose payload is an object with a non-empty string `error` = c,
`HandleError` returns a `*RateLimitError` if and only if c = "too.many.requests" and
otherwise a plain `*Error`; in both cases the (wrapped) `Error` has `Code` = c and
`Message`, `Title`, `LocalizedMessage` equal to the payload's `message`, `title`,
`localizedMessage` strings (empty when the field is absent or not a string). -/
theorem HandleError_rate_limit_iff (data : GoMap) (payload : List (String × JSON)) (c : String)
    (hp : data.index "payload" = some (JSON.obj payload))
    (he : lookupKey payload "error" = some (JSON.str c)) (hc : c ≠ "") :
    ((∃ e, HandleError data = some (GoError.rateLimitError e)) ↔ c = "too.many.requests") ∧
    ((∃ e, HandleError data = some (GoError.maxError e)) ↔ c ≠ "too.many.requests") ∧
    (∀ e, (HandleError data = some (GoError.rateLimitError e) ∨
        HandleError data = some (GoError.maxError e)) →
      e = { Code := c,
            Message := asStringOrEmpty (lookupKey payload "message"),
            Title := asStringOrEmpty (lookupKey payload "title"),
            LocalizedMessage := asStringOrEmpty (lookupKey payload "localizedMessage") }) := by
  have h1 : asMapOk (data.index "payload") = some payload := asMapOk_eq_some.2 hp
  have h2 : asString (lookupKey payload "error") = some c := asString_eq_some.2 he
  by_cases ht : c = "too.many.requests"
  · have hv : HandleError data = some (GoError.rateLimitError
        { Code := c, Message := asStringOrEmpty (lookupKey payload "message"),
          Title := asStringOrEmpty (lookupKey payload "title"),
          LocalizedMessage := asStringOrEmpty (lookupKey payload "localizedMessage") }) := by
      unfold HandleError
      rw [h1]
      subst ht
      simp only [h2]
      rfl
    rw [hv]
    simp [ht]
  · have hv : HandleError data = some (GoError.maxError
        { Code := c, Message := asStringOrEmpty (lookupKey payload "message"),
          Title := asStringOrEmpty (lookupKey payload "title"),
          LocalizedMessage := asStringOrEmpty (lookupKey payload "localizedMessage") }) := by
      unfold HandleError
      rw [h1]
      simp only [h2, hc, if_false, ht]
    rw [hv]
    simp [ht]

/-- C17 (witness). The rate-limit code gives a `*RateLimitError` whose wrapped error has
the message of the payload and an empty title (the payload's `title` is a number). -/
theorem HandleError_rate_limit_iff_witness :
    (∃ e, HandleError (errorResponse "too.many.requests") = some (GoError.rateLimitError e)) ∧
    HandleError (errorResponse "too.many.requests") = some (GoError.rateLimitError
      { Code := "too.many.requests", Message := "slow down", Title := "",
        LocalizedMessage := "" }) ∧
    HandleError (errorResponse "login.token") = some (GoError.maxError
      { Code := "login.token", Message := "slow down", Title := "",
        LocalizedMessage := "" }) :=
  ⟨(HandleError_rate_limit_iff (errorResponse "too.many.requests") _ "too.many.requests"
      rfl rfl (by decide)).1.2 rfl, rfl, rfl⟩

/-! ## The chat cache (C20) -/

theorem replaceOrAppend_of_mem (chat : Chat) (chats : List Chat)
    (h : ∃ x ∈ chats, x.ID = chat.ID) :
    ∃ pre x post, chats = pre ++ x :: post ∧ x.ID = chat.ID ∧ (∀ y ∈ pre, y.ID ≠ chat.ID) ∧
      replaceOrAppend chat chats = pre ++ chat :: post := by
  induction chats with
  | nil => simp at h
  | cons a rest ih =>
    by_cases ha : a.ID = chat.ID
    · exact ⟨[], a, rest, rfl, ha, by simp, by simp [replaceOrAppend, ha]⟩
    · have h1 : ∃ x ∈ rest, x.ID = chat.ID := by
        obtain ⟨x, hx, hid⟩ := h
        rcases List.mem_cons.1 hx with rfl | hx1
        · exact absurd hid ha
        · exact ⟨x, hx1, hid⟩
      obtain ⟨pre, x, post, e1, e2, e3, e4⟩ := ih h1
      refine ⟨a :: pre, x, post, by simp [e1], e2, ?_, by simp [replaceOrAppend, ha, e4]⟩
      intro y hy
      rcases List.mem_cons.1 hy with rfl | hy1
      · exact ha
      · exact e3 y hy1

theorem replaceOrAppend_of_not_mem (chat : Chat) (chats : List Chat)
    (h : ∀ x ∈ chats, x.ID ≠ chat.ID) : replaceOrAppend chat chats = chats ++ [chat] := by
  induction chats with
  | nil => rfl
  | cons a rest ih =>
    have ha : a.ID ≠ chat.ID := h a (List.mem_cons_self _ _)
    have h1 : ∀ x ∈ rest, x.ID ≠ chat.ID := fun x hx => h x (List.mem_cons_of_mem _ hx)
    simp [replaceOrAppend, ha, ih h1]

/-- C20. The method `updateChatCache(chat)`: if the cached chat list contains an entry
with `chat.ID`, the first such entry is replaced by `chat` and the length, the order and
every other entry of the list are unchanged; otherwise `chat` is appended at the end and
all existing entries are unchanged. The dialog list, the channel list and the profile
are never modified. -/
theorem updateChatCache_replaces_first_or_appends (c : MaxClient) (chat : Chat) :
    ((∃ x ∈ c.Chats, x.ID = chat.ID) →
      ∃ pre x post, c.Chats = pre ++ x :: post ∧ x.ID = chat.ID ∧
        (∀ y ∈ pre, y.ID ≠ chat.ID) ∧
        (updateChatCache c chat).Chats = pre ++ chat :: post ∧
        (updateChatCache c chat).Chats.length = c.Chats.length) ∧
    ((∀ x ∈ c.Chats, x.ID ≠ chat.ID) →
      (updateChatCache c chat).Chats = c.Chats ++ [chat]) ∧
    (updateChatCache c chat).Dialogs = c.Dialogs ∧
    (updateChatCache c chat).Channels = c.Channels ∧
    (updateChatCache c chat).Me = c.Me := by
  refine ⟨?_, ?_, rfl, rfl, rfl⟩
  · intro h
    obtain ⟨pre, x, post, e1, e2, e3, e4⟩ := replaceOrAppend_of_mem chat c.Chats h
    refine ⟨pre, x, post, e1, e2, e3, e4, ?_⟩
    show (replaceOrAppend chat c.Chats).length = c.Chats.length
    rw [e4, e1]
    simp
  · intro h
    exact replaceOrAppend_of_not_mem chat c.Chats h

/-- C20 (witness). In a cache holding the chats 5, 7, 7 an update for chat 7 replaces
the first of the two entries only, and an update for chat 9 is appended. -/
theorem updateChatCache_replaces_first_or_appends_witness :
    (updateChatCache cachedClient (chatTitled 7 "new")).Chats =
      [chatTitled 5 "a", chatTitled 7 "new", chatTitled 7 "c"] ∧
    (updateChatCache cachedClient (chatTitled 9 "new")).Chats =
      [chatTitled 5 "a", chatTitled 7 "b", chatTitled 7 "c", chatTitled 9 "new"] :=
  ⟨rfl,
   (updateChatCache_replaces_first_or_appends cachedClient (chatTitled 9 "new")).2.1
     (by decide)⟩

/-! ## Backoff of the HTTP retry loop (C18) -/

theorem float64OfInt_small {n : Int} (h0 : 0 ≤ n) (h : n < 2 ^ 53) : float64OfInt n = n := by
  unfold float64OfInt
  have h1 : n.natAbs < 2 ^ 53 := by omega
  rw [if_pos h1]

theorem nextDelay_small {m d : Int} (h0 : 0 < d) (hm : m ≤ 2 ^ 53) :
    nextDelay m d = if d < m then min (d * 2) m else d := by
  unfold nextDelay
  by_cases hlt : d < m
  · have h1 : float64OfInt d = d := float64OfInt_small (le_of_lt h0) (by omega)
    have h2 : durationOfFloat (d * 2) = d * 2 := by
      unfold durationOfFloat
      have : -(2 ^ 63 : Int) ≤ d * 2 ∧ d * 2 < 2 ^ 63 := by constructor <;> omega
      rw [if_pos this]
    simp only [hlt, if_true, h1, h2]
    by_cases hgt : d * 2 > m
    · simp only [hgt, if_true]
      omega
    · simp only [hgt, if_false]
      omega
  · simp [hlt]

/-- Below the cap the delay doubles until it reaches the cap. -/
theorem delayAt_closed {m d : Int} (h0 : 0 < d) (hdm : d ≤ m) (hm : m ≤ 2 ^ 53) (k : Nat) :
    delayAt m d k = min (d * 2 ^ k) m := by
  induction k with
  | zero => simp [delayAt, hdm]
  | succ k ih =>
    have hpos : 0 < d * 2 ^ k := by positivity
    have hpos1 : 0 < min (d * 2 ^ k) m := by
      rcases min_choice (d * 2 ^ k) m with h | h <;> rw [h] <;> omega
    rw [delayAt, ih, nextDelay_small hpos1 hm, pow_succ, ← mul_assoc]
    by_cases hlt : d * 2 ^ k < m
    · have e1 : min (d * 2 ^ k) m = d * 2 ^ k := min_eq_left (le_of_lt hlt)
      simp only [e1, hlt, if_true]
    · have e1 : min (d * 2 ^ k) m = m := min_eq_right (by omega)
      simp only [e1, lt_irrefl, if_false]
      have : m ≤ d * 2 ^ k * 2 := by omega
      exact (min_eq_right this).symm

/-- At or above the cap the delay never changes. -/
theorem delayAt_above {m d : Int} (h : m ≤ d) (k : Nat) : delayAt m d k = d := by
  induction k with
  | zero => rfl
  | succ k ih =>
    rw [delayAt, ih]
    unfold nextDelay
    simp [not_lt.2 h]

/-- The waits of the loop from a retry on are the successive values of `delay`. -/
theorem retryLoop_waits_succ (env : HttpEnv) (maxRetries maxDelay : Int) (left a : Nat)
    (delay : Int) (lastErr : Option GoError) (k : Nat) (w : Int)
    (h : (retryLoop env maxRetries maxDelay left (a + 1) delay lastErr).waits[k]? = some w) :
    w = delayAt maxDelay delay k := by
  induction left generalizing a delay lastErr k with
  | zero => simp [retryLoop] at h
  | succ left ih =>
    have hrec : ∀ (r : DoResult) (rest : RetryRun), (RetryRun.after [delay] r rest).waits[k]? =
        some w → (∀ j, rest.waits[j]? = some w → w = delayAt maxDelay (nextDelay maxDelay delay) j)
        → w = delayAt maxDelay delay k := by
      intro r rest h1 h2
      cases k with
      | zero =>
        simp [RetryRun.after] at h1
        simp [delayAt, h1]
      | succ j =>
        simp [RetryRun.after] at h1
        have := h2 j h1
        rw [this]
        clear h h1 h2 this ih
        induction j with
        | zero => rfl
        | succ j ihj => simp only [delayAt] at ihj ⊢; rw [ihj]
    have hone : ∀ ws : List Int, ws = [delay] → ws[k]? = some w → w = delayAt maxDelay delay k := by
      intro ws e h1
      subst e
      cases k with
      | zero => simp at h1; simp [delayAt, h1]
      | succ j => simp at h1
    unfold retryLoop at h
    simp only [Nat.succ_pos, true_and, if_true] at h
    split at h
    · exact hone _ rfl h
    · split at h
      · exact hone _ rfl h
      · split at h
        · exact hone _ rfl h
        · split at h
          · exact hrec _ _ h (fun j hj => ih (a + 1) _ _ j hj)
          · exact hone _ rfl h
      · split at h
        · exact hrec _ _ h (fun j hj => ih (a + 1) _ _ j hj)
        · exact hone _ rfl h

/-- The waits of a whole run are the successive values of `delay`. -/
theorem retryLoop_waits_zero (env : HttpEnv) (maxRetries maxDelay : Int) (left : Nat)
    (delay : Int) (lastErr : Option GoError) (k : Nat) (w : Int)
    (h : (retryLoop env maxRetries maxDelay left 0 delay lastErr).waits[k]? = some w) :
    w = delayAt maxDelay delay k := by
  cases left with
  | zero => simp [retryLoop] at h
  | succ left =>
    unfold retryLoop at h
    simp only [lt_irrefl, false_and, if_false] at h
    split at h
    · simp at h
    · split at h
      · simp at h
      · split at h
        · simp only [RetryRun.after, List.nil_append] at h
          exact retryLoop_waits_succ env _ _ _ 0 _ _ k w h
        · simp at h
    · split at h
      · simp only [RetryRun.after, List.nil_append] at h
        exact retryLoop_waits_succ env _ _ _ 0 _ _ k w h
      · simp at h

/-- C18 (claim as stated fails). With an initial delay of 60 s and a cap of 30 s every
wait is 60 s: the first wait is not `min(d, m)` = 30 s and the waits exceed the cap. -/
theorem doHTTPRequestWithRetry_initial_delay_above_cap :
    (doHTTPRequestWithRetry
      { MaxRetries := 3, RetryInitialDelay := 60 * Second, RetryMaxDelay := 30 * Second }
      alwaysUnavailable).waits = [60 * Second, 60 * Second, 60 * Second] ∧
    min (60 * Second) (30 * Second) = 30 * Second := by
  decide

/-- C18 (amended). In `doHTTPRequestWithRetry` with an initial delay `d` and a cap `m`,
both non-zero, the first wait is `d`. If `0 < d ≤ m` (and `m` is at most 2^53 ns, where
the doubling in `float64` is exact) the wait before the k-th retry, k ≥ 1, is
`min(d·2^(k−1), m)`, so no wait exceeds the cap; if `d ≥ m` every wait is `d`, because
the cap is applied only when the delay is doubled. -/
theorem doHTTPRequestWithRetry_waits (cfg : RetryConfig) (env : HttpEnv)
    (hd : cfg.RetryInitialDelay ≠ 0) (hm : cfg.RetryMaxDelay ≠ 0) :
    (∀ w, (doHTTPRequestWithRetry cfg env).waits[0]? = some w → w = cfg.RetryInitialDelay) ∧
    (0 < cfg.RetryInitialDelay → cfg.RetryInitialDelay ≤ cfg.RetryMaxDelay →
      cfg.RetryMaxDelay ≤ 2 ^ 53 →
      ∀ (k : Nat) (w : Int), (doHTTPRequestWithRetry cfg env).waits[k]? = some w →
        w = min (cfg.RetryInitialDelay * 2 ^ k) cfg.RetryMaxDelay ∧ w ≤ cfg.RetryMaxDelay) ∧
    (cfg.RetryMaxDelay ≤ cfg.RetryInitialDelay →
      ∀ (k : Nat) (w : Int), (doHTTPRequestWithRetry cfg env).waits[k]? = some w →
        w = cfg.RetryInitialDelay) := by
  have e1 : effectiveInitialDelay cfg = cfg.RetryInitialDelay := by
    simp [effectiveInitialDelay, hd]
  have e2 : effectiveMaxDelay cfg = cfg.RetryMaxDelay := by
    simp [effectiveMaxDelay, hm]
  have key : ∀ k w, (doHTTPRequestWithRetry cfg env).waits[k]? = some w →
      w = delayAt cfg.RetryMaxDelay cfg.RetryInitialDelay k := by
    intro k w h
    unfold doHTTPRequestWithRetry at h
    rw [e1, e2] at h
    exact retryLoop_waits_zero env _ _ _ _ _ k w h
  refine ⟨?_, ?_, ?_⟩
  · intro w h
    exact key 0 w h
  · intro h0 hdm h53 k w h
    have := key k w h
    rw [delayAt_closed h0 hdm h53] at this
    exact ⟨this, this ▸ min_le_right _ _⟩
  · intro hle k w h
    rw [key k w h, delayAt_above hle]

/-- C18 (witness). With an initial delay of 1 s, a cap of 30 s and six retries the
waits are 1, 2, 4, 8, 16 and 30 seconds. -/
theorem doHTTPRequestWithRetry_waits_witness :
    (doHTTPRequestWithRetry
      { MaxRetries := 6, RetryInitialDelay := 1 * Second, RetryMaxDelay := 30 * Second }
      alwaysUnavailable).waits =
      [1 * Second, 2 * Second, 4 * Second, 8 * Second, 16 * Second, 30 * Second] ∧
    (∀ w, (doHTTPRequestWithRetry
      { MaxRetries := 6, RetryInitialDelay := 1 * Second, RetryMaxDelay := 30 * Second }
      alwaysUnavailable).waits[5]? = some w → w = min (1 * Second * 2 ^ 5) (30 * Second) ∧
        w ≤ 30 * Second) :=
  ⟨by decide,
   fun w h => (doHTTPRequestWithRetry_waits
      { MaxRetries := 6, RetryInitialDelay := 1 * Second, RetryMaxDelay := 30 * Second }
      alwaysUnavailable (by decide) (by decide)).2.1 (by decide) (by decide) (by decide) 5 w h⟩

/-! ## Attempts of the HTTP retry loop (C19) -/

/-- One iteration of the loop: it stops before its attempt, or its attempt is final, or
its attempt is retried and the loop goes on. -/
theorem retryLoop_step (env : HttpEnv) (maxRetries maxDelay : Int) (left a : Nat)
    (delay : Int) (lastErr : Option GoError) :
    ((retryLoop env maxRetries maxDelay (left + 1) a delay lastErr).tried = [] ∧
      ((0 < a ∧ env.cancelled a = true) ∨ (env.attempt a).isCreateFailed = true)) ∨
    ((retryLoop env maxRetries maxDelay (left + 1) a delay lastErr).tried = [env.attempt a] ∧
      (env.attempt a).retryable = false ∧ (env.attempt a).isCreateFailed = false ∧
      ¬ (0 < a ∧ env.cancelled a = true) ∧
      (retryLoop env maxRetries maxDelay (left + 1) a delay lastErr).result =
        (env.attempt a).finalResult a) ∨
    (∃ delay1 lastErr1,
      (retryLoop env maxRetries maxDelay (left + 1) a delay lastErr).tried =
        env.attempt a :: (retryLoop env maxRetries maxDelay left (a + 1) delay1 lastErr1).tried ∧
      (retryLoop env maxRetries maxDelay (left + 1) a delay lastErr).result =
        (retryLoop env maxRetries maxDelay left (a + 1) delay1 lastErr1).result ∧
      (env.attempt a).retryable = true ∧ ¬ (0 < a ∧ env.cancelled a = true)) := by
  rw [retryLoop]
  by_cases hc : 0 < a ∧ env.cancelled a = true
  · left
    rw [if_pos hc]
    exact ⟨rfl, Or.inl hc⟩
  · rw [if_neg hc]
    cases hr : env.attempt a with
    | createFailed text =>
      left
      exact ⟨rfl, Or.inr rfl⟩
    | status code =>
      by_cases h2 : 200 ≤ code ∧ code < 300
      · right; left
        have h5 : ¬ 500 ≤ code := by omega
        simp only [h2, and_self, if_true]
        refine ⟨trivial, by simp [DoResult.retryable, h5], rfl, hc, ?_⟩
        simp [DoResult.finalResult, h2]
      · by_cases h5 : 500 ≤ code
        · right; right
          simp only [h2, if_false, h5, if_true]
          exact ⟨_, _, rfl, rfl, by simp [DoResult.retryable, h5], hc⟩
        · right; left
          simp only [h2, if_false, h5]
          refine ⟨trivial, by simp [DoResult.retryable, h5], rfl, hc, ?_⟩
          simp [DoResult.finalResult, h2]
    | netError text temporary =>
      cases temporary with
      | true =>
        right; right
        exact ⟨_, _, rfl, rfl, rfl, hc⟩
      | false =>
        right; left
        exact ⟨rfl, rfl, rfl, hc, rfl⟩

theorem retryLoop_zero_tried (env : HttpEnv) (maxRetries maxDelay : Int) (a : Nat)
    (delay : Int) (lastErr : Option GoError) :
    (retryLoop env maxRetries maxDelay 0 a delay lastErr).tried = [] := by
  rw [retryLoop]

/-- The loop makes its first attempt unless it has no iteration left, the context is
cancelled during the wait, or the request cannot be created. -/
theorem retryLoop_tried_ne_nil (env : HttpEnv) (maxRetries maxDelay : Int) (left a : Nat)
    (delay : Int) (lastErr : Option GoError) :
    (retryLoop env maxRetries maxDelay left a delay lastErr).tried ≠ [] ↔
      0 < left ∧ ¬ (0 < a ∧ env.cancelled a = true) ∧
        (env.attempt a).isCreateFailed = false := by
  cases left with
  | zero => simp [retryLoop_zero_tried]
  | succ left =>
    rcases retryLoop_step env maxRetries maxDelay left a delay lastErr with
      ⟨h1, h2⟩ | ⟨h1, _, h3, h4, _⟩ | ⟨d1, e1, h1, _, h3, h4⟩
    · rw [h1]
      simp only [ne_eq, not_true_eq_false, Nat.succ_pos, true_and, false_iff, not_and]
      intro hn
      rcases h2 with h2 | h2
      · exact absurd h2.2 (hn h2.1)
      · simp [h2]
    · rw [h1]
      simp [h3, h4]
    · rw [h1]
      have : (env.attempt a).isCreateFailed = false := by
        cases hr : env.attempt a <;> simp_all [DoResult.retryable, DoResult.isCreateFailed]
      simp [this, h4]

/-- The attempts of the loop, one by one. -/
theorem retryLoop_tried (env : HttpEnv) (maxRetries maxDelay : Int) (left a : Nat)
    (delay : Int) (lastErr : Option GoError) (i : Nat) (r : DoResult)
    (h : (retryLoop env maxRetries maxDelay left a delay lastErr).tried[i]? = some r) :
    r = env.attempt (a + i) ∧ i < left ∧
    (i + 1 < (retryLoop env maxRetries maxDelay left a delay lastErr).tried.length ↔
      r.retryable = true ∧ i + 1 < left ∧ env.cancelled (a + i + 1) = false ∧
        (env.attempt (a + i + 1)).isCreateFailed = false) ∧
    (r.retryable = false →
      (retryLoop env maxRetries maxDelay left a delay lastErr).result = r.finalResult (a + i)) := by
  induction left generalizing a delay lastErr i with
  | zero => simp [retryLoop_zero_tried] at h
  | succ left ih =>
    rcases retryLoop_step env maxRetries maxDelay left a delay lastErr with
      ⟨h1, _⟩ | ⟨h1, h2, _, _, h5⟩ | ⟨d1, e1, h1, h2, h3, _⟩
    · rw [h1] at h
      simp at h
    · rw [h1] at h ⊢
      cases i with
      | succ j => simp at h
      | zero =>
        simp only [List.getElem?_cons_zero, Option.some.injEq] at h
        subst h
        simp [h2, h5]
    · rw [h1] at h ⊢
      rw [h2]
      cases i with
      | zero =>
        simp only [List.getElem?_cons_zero, Option.some.injEq] at h
        subst h
        refine ⟨rfl, Nat.succ_pos _, ?_, ?_⟩
        · have hne := retryLoop_tried_ne_nil env maxRetries maxDelay left (a + 1) d1 e1
          simp only [List.length_cons, zero_add, Nat.lt_add_left_iff_pos, List.length_pos,
            h3, true_and, add_zero, Nat.lt_add_left_iff_pos]
          rw [hne]
          simp
        · intro hf
          rw [h3] at hf
          cases hf
      | succ j =>
        simp only [List.getElem?_cons_succ] at h
        obtain ⟨q1, q2, q3, q4⟩ := ih (a + 1) d1 e1 j h
        have ea : a + 1 + j = a + (j + 1) := by omega
        rw [ea] at q1 q4
        have eb : a + 1 + j + 1 = a + (j + 1) + 1 := by omega
        rw [eb] at q3
        refine ⟨q1, by omega, ?_, q4⟩
        simp only [List.length_cons, Nat.add_lt_add_iff_right]
        rw [q3]

/-- The loop never makes more attempts than it has iterations. -/
theorem retryLoop_tried_length (env : HttpEnv) (maxRetries maxDelay : Int) (left a : Nat)
    (delay : Int) (lastErr : Option GoError) :
    (retryLoop env maxRetries maxDelay left a delay lastErr).tried.length ≤ left := by
  induction left generalizing a delay lastErr with
  | zero => simp [retryLoop_zero_tried]
  | succ left ih =>
    rcases retryLoop_step env maxRetries maxDelay left a delay lastErr with
      ⟨h1, _⟩ | ⟨h1, _⟩ | ⟨d1, e1, h1, _⟩
    · simp [h1]
    · simp [h1]
    · rw [h1]
      have := ih (a + 1) d1 e1
      simp only [List.length_cons]
      omega

theorem effectiveMaxRetries_pos (cfg : RetryConfig) : 0 < effectiveMaxRetries cfg := by
  unfold effectiveMaxRetries DefaultMaxRetries
  split <;> omega

/-- C19 (claim as stated fails). The first attempt ends in a 503 and fewer than
`MaxRetries + 1` = 4 attempts have been made, yet no other attempt follows, because the
context is cancelled during the backoff wait. And with `MaxRetries = -1` the loop uses
the default of 3 retries, so four attempts are made, more than `MaxRetries + 1`. -/
theorem doHTTPRequestWithRetry_cancelled_during_backoff :
    (doHTTPRequestWithRetry
      { MaxRetries := 3, RetryInitialDelay := 1 * Second, RetryMaxDelay := 30 * Second }
      cancelledDuringBackoff).tried = [DoResult.status 503] ∧
    (doHTTPRequestWithRetry
      { MaxRetries := 3, RetryInitialDelay := 1 * Second, RetryMaxDelay := 30 * Second }
      cancelledDuringBackoff).result = HttpResult.failed GoError.ctxError ∧
    (doHTTPRequestWithRetry
      { MaxRetries := -1, RetryInitialDelay := 1 * Second, RetryMaxDelay := 30 * Second }
      alwaysUnavailable).tried.length = 4 := by
  decide

/-- C19 (amended). In `doHTTPRequestWithRetry`, with `maxRetries` the configured
`MaxRetries` when it is positive and 3 otherwise: the i-th attempt is followed by
another attempt if and only if it ended in a 5xx response or in a network error that
`IsTemporaryError` accepts, fewer than `maxRetries + 1` attempts have been made, the
context is not cancelled during the backoff wait, and the request of the next attempt
can be created. A 2xx response returns that response; any other status below 500 and a
non-temporary network error return an error after that attempt; at most
`maxRetries + 1` attempts are ever made. -/
theorem doHTTPRequestWithRetry_attempts (cfg : RetryConfig) (env : HttpEnv) :
    ((doHTTPRequestWithRetry cfg env).tried.length : Int) ≤ effectiveMaxRetries cfg + 1 ∧
    ∀ (i : Nat) (r : DoResult), (doHTTPRequestWithRetry cfg env).tried[i]? = some r →
      r = env.attempt i ∧
      (i + 1 < (doHTTPRequestWithRetry cfg env).tried.length ↔
        r.retryable = true ∧ ((i : Int) + 1 < effectiveMaxRetries cfg + 1) ∧
          env.cancelled (i + 1) = false ∧ (env.attempt (i + 1)).isCreateFailed = false) ∧
      (∀ code, r = DoResult.status code → 200 ≤ code → code < 300 →
        (doHTTPRequestWithRetry cfg env).result = HttpResult.response i code ∧
        (doHTTPRequestWithRetry cfg env).tried.length = i + 1) ∧
      (r.retryable = false → (∀ code, r = DoResult.status code → ¬ (200 ≤ code ∧ code < 300)) →
        (doHTTPRequestWithRetry cfg env).result.isError = true ∧
        (doHTTPRequestWithRetry cfg env).tried.length = i + 1) := by
  have hpos := effectiveMaxRetries_pos cfg
  have hlen := retryLoop_tried_length env (effectiveMaxRetries cfg) (effectiveMaxDelay cfg)
    (effectiveMaxRetries cfg + 1).toNat 0 (effectiveInitialDelay cfg) none
  constructor
  · unfold doHTTPRequestWithRetry
    omega
  · intro i r h
    unfold doHTTPRequestWithRetry at h ⊢
    obtain ⟨q1, q2, q3, q4⟩ := retryLoop_tried env _ _ _ 0 _ _ i r h
    simp only [zero_add] at q1 q3 q4
    have hi : i < (retryLoop env (effectiveMaxRetries cfg) (effectiveMaxDelay cfg)
        (effectiveMaxRetries cfg + 1).toNat 0 (effectiveInitialDelay cfg) none).tried.length := by
      by_contra hcon
      rw [List.getElem?_eq_none (not_lt.1 hcon)] at h
      cases h
    have hlast : r.retryable = false →
        (retryLoop env (effectiveMaxRetries cfg) (effectiveMaxDelay cfg)
          (effectiveMaxRetries cfg + 1).toNat 0 (effectiveInitialDelay cfg) none).tried.length
          = i + 1 := by
      intro hf
      have : ¬ (i + 1 < (retryLoop env (effectiveMaxRetries cfg) (effectiveMaxDelay cfg)
        (effectiveMaxRetries cfg + 1).toNat 0 (effectiveInitialDelay cfg) none).tried.length) := by
        rw [q3, hf]
        simp
      omega
    refine ⟨q1, ?_, ?_, ?_⟩
    · rw [q3]
      have : (i + 1 < (effectiveMaxRetries cfg + 1).toNat) ↔
          ((i : Int) + 1 < effectiveMaxRetries cfg + 1) := by omega
      rw [this]
    · intro code hr h2 h3
      have hf : r.retryable = false := by
        subst hr
        have : ¬ 500 ≤ code := by omega
        simp [DoResult.retryable, this]
      refine ⟨?_, hlast hf⟩
      rw [q4 hf, hr]
      simp [DoResult.finalResult, h2, h3]
    · intro hf hn
      refine ⟨?_, hlast hf⟩
      rw [q4 hf]
      cases r with
      | createFailed text => rfl
      | netError text t => rfl
      | status code =>
        have := hn code rfl
        simp [DoResult.finalResult, this, HttpResult.isError]

/-- C19 (witness). A server that answers 503, 503 and then 200: the first two attempts
are retried and the third returns its response. -/
theorem doHTTPRequestWithRetry_attempts_witness :
    (doHTTPRequestWithRetry
      { MaxRetries := 3, RetryInitialDelay := 0, RetryMaxDelay := 0 } recoversAtThird).tried =
      [DoResult.status 503, DoResult.status 503, DoResult.status 200] ∧
    (doHTTPRequestWithRetry
      { MaxRetries := 3, RetryInitialDelay := 0, RetryMaxDelay := 0 } recoversAtThird).result =
      HttpResult.response 2 200 :=
  ⟨by decide,
   (((doHTTPRequestWithRetry_attempts
      { MaxRetries := 3, RetryInitialDelay := 0, RetryMaxDelay := 0 } recoversAtThird).2 2
      (DoResult.status 200) (by decide)).2.2.1 200 rfl (by decide) (by decide)).1⟩

/-! ## The phone check of the constructor (C15) -/

theorem list_ne_nil_iff {α : Type} (l : List α) : l ≠ [] ↔ ∃ x, x ∈ l := by
  cases l with
  | nil => simp
  | cons a l => simp

theorem digit_matchAt_nil (n : Nat) : Regex.digit.matchAt (n, []) = [] := rfl

theorem digit_matchAt_cons (n : Nat) (x : Char) (xs : List Char) :
    Regex.digit.matchAt (n, x :: xs) = if x.isDigit then [(n + 1, xs)] else [] := rfl

/-- The positions after between `min` and `max` digits. -/
theorem mem_repeatFrom_digit (min max n : Nat) (cs : List Char) (st : Nat × List Char) :
    st ∈ repeatFrom Regex.digit.matchAt min max (n, cs) ↔
      ∃ k, min ≤ k ∧ k ≤ max ∧ k ≤ cs.length ∧ (∀ c ∈ cs.take k, c.isDigit = true) ∧
        st = (n + k, cs.drop k) := by
  induction max generalizing min n cs with
  | zero =>
    rw [repeatFrom]
    constructor
    · intro h
      split at h
      · rename_i hm
        simp only [List.mem_singleton] at h
        exact ⟨0, by omega, le_refl _, Nat.zero_le _, by simp, by simp [h]⟩
      · simp at h
    · rintro ⟨k, h1, h2, _, _, h5⟩
      have hk : k = 0 := by omega
      subst hk
      have hm : min = 0 := by omega
      simp [hm, h5]
  | succ max ih =>
    rw [repeatFrom, List.mem_append, List.mem_flatMap]
    constructor
    · rintro (h | ⟨st1, h1, h2⟩)
      · split at h
        · simp only [List.mem_singleton] at h
          exact ⟨0, by omega, Nat.zero_le _, Nat.zero_le _, by simp, by simp [h]⟩
        · simp at h
      · cases cs with
        | nil => simp [digit_matchAt_nil] at h1
        | cons x xs =>
          rw [digit_matchAt_cons] at h1
          by_cases hx : x.isDigit = true
          · simp only [hx, if_true, List.mem_singleton] at h1
            subst h1
            obtain ⟨k, q1, q2, q3, q4, q5⟩ := (ih (min - 1) (n + 1) xs).1 h2
            refine ⟨k + 1, by omega, by omega, by simp; omega, ?_, ?_⟩
            · intro c hc
              simp only [List.take_succ_cons, List.mem_cons] at hc
              rcases hc with rfl | hc
              · exact hx
              · exact q4 c hc
            · rw [q5]
              simp only [List.drop_succ_cons, Prod.mk.injEq, and_true]
              omega
          · simp [hx] at h1
    · rintro ⟨k, h1, h2, h3, h4, h5⟩
      cases k with
      | zero =>
        left
        have hm : min = 0 := by omega
        simp [hm, h5]
      | succ k =>
        right
        cases cs with
        | nil => simp at h3
        | cons x xs =>
          have hx : x.isDigit = true := h4 x (by simp)
          refine ⟨(n + 1, xs), by simp [digit_matchAt_cons, hx], ?_⟩
          rw [ih]
          refine ⟨k, by omega, by omega, by simpa using h3, ?_, ?_⟩
          · intro c hc
            exact h4 c (by simp [hc])
          · rw [h5]
            simp only [List.drop_succ_cons, Prod.mk.injEq, and_true]
            omega

/-- The phone pattern matches at a position exactly when the position is the beginning
of the text and the text is an optional `+` followed by 10 to 15 digits. -/
theorem PhoneRegex_matchAt_ne_nil (i : Nat) (cs : List Char) :
    PhoneRegex.matchAt (i, cs) ≠ [] ↔
      i = 0 ∧ ∃ digits : List Char, (cs = digits ∨ cs = '+' :: digits) ∧
        10 ≤ digits.length ∧ digits.length ≤ 15 ∧ ∀ c ∈ digits, c.isDigit = true := by
  have key : ∀ (n : Nat) (xs : List Char),
      (∃ st2 ∈ repeatFrom Regex.digit.matchAt 10 15 (n, xs), st2.2 = []) ↔
        10 ≤ xs.length ∧ xs.length ≤ 15 ∧ ∀ c ∈ xs, c.isDigit = true := by
    intro n xs
    constructor
    · rintro ⟨st2, h1, h2⟩
      obtain ⟨k, q1, q2, q3, q4, q5⟩ := (mem_repeatFrom_digit 10 15 n xs st2).1 h1
      rw [q5] at h2
      have hk : xs.length ≤ k := by simpa using h2
      have hk1 : k = xs.length := by omega
      subst hk1
      rw [List.take_length] at q4
      exact ⟨q1, q2, q4⟩
    · rintro ⟨h1, h2, h3⟩
      refine ⟨(n + xs.length, xs.drop xs.length), ?_, by simp⟩
      rw [mem_repeatFrom_digit]
      exact ⟨xs.length, h1, h2, le_refl _, by rw [List.take_length]; exact h3, rfl⟩
  have hmem : PhoneRegex.matchAt (i, cs) ≠ [] ↔
      i = 0 ∧ ∃ st1 ∈ (Regex.lit '+').matchAt (i, cs) ++ [(i, cs)],
        ∃ st2 ∈ repeatFrom Regex.digit.matchAt 10 15 st1, st2.2 = [] := by
    rw [list_ne_nil_iff]
    simp only [PhoneRegex, Regex.matchAt, List.mem_flatMap]
    constructor
    · rintro ⟨x, st0, h0, st1, h1, st2, h2, h3⟩
      split at h0
      · rename_i hi
        simp only [List.mem_singleton] at h0
        subst h0
        split at h3
        · rename_i he
          exact ⟨hi, st1, h1, st2, h2, he⟩
        · simp at h3
      · simp at h0
    · rintro ⟨hi, st1, h1, st2, h2, h3⟩
      refine ⟨st2, (i, cs), by simp [hi], st1, h1, st2, h2, by simp [h3]⟩
  rw [hmem]
  constructor
  · rintro ⟨hi, st1, h1, h2⟩
    refine ⟨hi, ?_⟩
    rw [List.mem_append] at h1
    rcases h1 with h1 | h1
    · cases cs with
      | nil => simp [Regex.matchAt] at h1
      | cons x xs =>
        simp only [Regex.matchAt] at h1
        split at h1
        · rename_i hx
          simp only [List.mem_singleton] at h1
          subst h1
          subst hx
          exact ⟨xs, Or.inr rfl, (key _ _).1 h2⟩
        · simp at h1
    · simp only [List.mem_singleton] at h1
      subst h1
      exact ⟨cs, Or.inl rfl, (key _ _).1 h2⟩
  · rintro ⟨hi, digits, hcs, hd⟩
    refine ⟨hi, ?_⟩
    rcases hcs with rfl | rfl
    · exact ⟨(i, cs), by simp, (key _ _).2 hd⟩
    · exact ⟨(i + 1, digits), by simp [Regex.matchAt], (key _ _).2 hd⟩

/-- The phone pattern accepts exactly the phone numbers of the specification. -/
theorem PhoneRegex_MatchString_iff (s : String) :
    PhoneRegex.MatchString s = true ↔ isPhoneNumber s := by
  unfold Regex.MatchString isPhoneNumber
  rw [List.any_eq_true]
  constructor
  · rintro ⟨i, _, h⟩
    have h1 : PhoneRegex.matchAt (i, List.drop i s.data) ≠ [] := by
      intro hn
      rw [hn] at h
      simp at h
    obtain ⟨hi, hd⟩ := (PhoneRegex_matchAt_ne_nil _ _).1 h1
    subst hi
    simpa using hd
  · intro h
    refine ⟨0, by simp, ?_⟩
    have h1 : PhoneRegex.matchAt (0, List.drop 0 s.data) ≠ [] :=
      (PhoneRegex_matchAt_ne_nil _ _).2 ⟨rfl, by simpa using h⟩
    cases hm : PhoneRegex.matchAt (0, List.drop 0 s.data) with
    | nil => exact absurd hm h1
    | cons a l => rfl

/-- C15. The constructor `NewMaxClient` returns an `*InvalidPhoneError` (and no client)
exactly when `cfg.Phone` is not an optional `+` followed by 10 to 15 decimal digits and
nothing else; in that case it returns before opening the session store or performing
any network activity: no effect has been performed. -/
theorem NewMaxClient_invalid_phone (cfg : ClientConfig) (db : StoreEnv) :
    (isInvalidPhoneError (NewMaxClientFromConfig cfg db).1 = true ↔
      ¬ isPhoneNumber cfg.Phone) ∧
    (¬ isPhoneNumber cfg.Phone →
      NewMaxClientFromConfig cfg db =
        (Except.error (GoError.invalidPhoneError cfg.Phone), [])) := by
  rw [← PhoneRegex_MatchString_iff]
  by_cases hm : PhoneRegex.MatchString cfg.Phone = true
  · have hv : isInvalidPhoneError (NewMaxClientFromConfig cfg db).1 = false := by
      unfold NewMaxClientFromConfig
      simp only [hm, Bool.true_eq_false, if_false]
      cases db.openErr with
      | some text => rfl
      | none =>
        cases db.deviceID with
        | error text => rfl
        | ok dev =>
          simp only []
          split <;> rfl
    simp [hv, hm]
  · have hf : PhoneRegex.MatchString cfg.Phone = false := by simpa using hm
    have hv : NewMaxClientFromConfig cfg db =
        (Except.error (GoError.invalidPhoneError cfg.Phone), []) := by
      unfold NewMaxClientFromConfig
      simp [hf]
    simp [hv, hf, isInvalidPhoneError]

/-- C15 (witness). The phone "invalid" is rejected without any effect. -/
theorem NewMaxClient_invalid_phone_witness :
    NewMaxClientFromConfig
        { Phone := "invalid", WorkDir := "", Token := "", Registration := false } emptyStore =
      (Except.error (GoError.invalidPhoneError "invalid"), []) :=
  (NewMaxClient_invalid_phone
    { Phone := "invalid", WorkDir := "", Token := "", Registration := false } emptyStore).2
    (fun h => absurd ((PhoneRegex_MatchString_iff "invalid").2 h) (by decide))

/-! ## The sync of `Start` and its single retry (C13) -/

theorem storeToken_isAuth (env : AuthEnv) (authToken : String) (done : List Effect)
    (hdone : ∀ e ∈ done, e.isAuth = true) :
    ∀ e ∈ (storeToken env authToken done).effects, e.isAuth = true := by
  unfold storeToken
  cases env.updateToken with
  | none =>
    intro e he
    simp only [List.mem_append, List.mem_singleton] at he
    rcases he with he | rfl
    · exact hdone e he
    · rfl
  | some text =>
    intro e he
    simp only [List.mem_append, List.mem_singleton] at he
    rcases he with he | rfl
    · exact hdone e he
    · rfl

theorem SendCode_isAuth (env : AuthEnv) (token0 token : String) :
    ∀ e ∈ (SendCode env token0 token).effects, e.isAuth = true := by
  unfold SendCode
  cases env.auth.err with
  | some e => simp [Effect.isAuth, OpcodeAuth]
  | none =>
    cases HandleError env.auth.resp with
    | some e => simp [Effect.isAuth, OpcodeAuth]
    | none =>
      by_cases ht : tokenAttrsToken env.auth.resp TokenTypeLogin = ""
      · simp [ht, Effect.isAuth, OpcodeAuth]
      · simp only [ht, if_false]
        exact storeToken_isAuth env _ _ (by simp [Effect.isAuth, OpcodeAuth])

theorem Login_isAuth (env : AuthEnv) (phone token0 : String) :
    ∀ e ∈ (Login env phone token0).effects, e.isAuth = true := by
  unfold Login
  cases RequestCode env.requestCode with
  | error e => simp [Effect.isAuth, OpcodeAuthRequest]
  | ok tempToken =>
    cases env.code with
    | error e => simp [Effect.isAuth, OpcodeAuthRequest]
    | ok code =>
      intro e he
      simp only [FlowRun.after, List.mem_append, List.mem_cons, List.mem_singleton,
        List.not_mem_nil, or_false] at he
      rcases he with (rfl | rfl) | he
      · simp [Effect.isAuth, OpcodeAuthRequest]
      · rfl
      · exact SendCode_isAuth env token0 tempToken e he

theorem Register_isAuth (env : AuthEnv) (phone token0 : String) :
    ∀ e ∈ (Register env phone token0).effects, e.isAuth = true := by
  unfold Register
  cases RequestCode env.requestCode with
  | error e => simp [Effect.isAuth, OpcodeAuthRequest]
  | ok tempToken =>
    cases env.code with
    | error e => simp [Effect.isAuth, OpcodeAuthRequest]
    | ok code =>
      cases env.auth.err with
      | some e => simp [Effect.isAuth, OpcodeAuthRequest, OpcodeAuth]
      | none =>
        cases HandleError env.auth.resp with
        | some e => simp [Effect.isAuth, OpcodeAuthRequest, OpcodeAuth]
        | none =>
          by_cases ht : tokenAttrsToken env.auth.resp TokenTypeRegister = ""
          · simp [ht, Effect.isAuth, OpcodeAuthRequest, OpcodeAuth]
          · cases env.confirm.err with
            | some e => simp [ht, Effect.isAuth, OpcodeAuthRequest, OpcodeAuth, OpcodeAuthConfirm]
            | none =>
              cases HandleError env.confirm.resp with
              | some e =>
                simp [ht, Effect.isAuth, OpcodeAuthRequest, OpcodeAuth, OpcodeAuthConfirm]
              | none =>
                by_cases hp : payloadToken env.confirm.resp = ""
                · simp [ht, hp, Effect.isAuth, OpcodeAuthRequest, OpcodeAuth, OpcodeAuthConfirm]
                · simp only [ht, hp, if_false]
                  exact storeToken_isAuth env _ _
                    (by simp [Effect.isAuth, OpcodeAuthRequest, OpcodeAuth, OpcodeAuthConfirm])

theorem authenticate_isAuth (cfg : ClientConfig) (env : AuthEnv) (token0 : String) :
    ∀ e ∈ (authenticate cfg env token0).effects, e.isAuth = true := by
  unfold authenticate
  split
  · exact Register_isAuth env _ _
  · exact Login_isAuth env _ _

theorem Effect.isAuth_not_isSync {e : Effect} (h : e.isAuth = true) : e.isSync = false := by
  cases e <;> simp_all [Effect.isAuth, Effect.isSync, OpcodeAuthRequest, OpcodeAuth,
    OpcodeAuthConfirm, OpcodeLogin]
  omega

/-- The authentication flows send no sync request and run no start handler. -/
theorem authenticate_no_sync (cfg : ClientConfig) (env : AuthEnv) (token0 : String) :
    syncRequests (authenticate cfg env token0).effects = 0 ∧
      Effect.startHandlers ∉ (authenticate cfg env token0).effects := by
  constructor
  · unfold syncRequests
    rw [List.countP_eq_zero]
    intro e he
    simp [Effect.isAuth_not_isSync (authenticate_isAuth cfg env token0 e he)]
  · intro h
    have := authenticate_isAuth cfg env token0 _ h
    simp [Effect.isAuth] at this

/-- An `*Error` returned by `HandleError` carries the `error` string of the payload. -/
theorem HandleError_maxError {data : GoMap} {e : Error}
    (h : HandleError data = some (GoError.maxError e)) :
    ∃ payload, data.index "payload" = some (JSON.obj payload) ∧
      lookupKey payload "error" = some (JSON.str e.Code) := by
  unfold HandleError at h
  cases hp : asMapOk (data.index "payload") with
  | none => simp [hp] at h
  | some payload =>
    refine ⟨payload, asMapOk_eq_some.1 hp, ?_⟩
    simp only [hp] at h
    cases hs : asString (lookupKey payload "error") with
    | none => simp [hs] at h
    | some c =>
      simp only [hs] at h
      split at h
      · cases h
      · split at h
        · cases h
        · simp only [Option.some.injEq, GoError.maxError.injEq] at h
          rw [← h]
          exact asString_eq_some.1 hs

theorem syncResult_maxError {r : CallReturn} {e : Error}
    (h : syncResult r = some (GoError.maxError e)) :
    r.err = none ∧ ∃ payload, r.resp.index "payload" = some (JSON.obj payload) ∧
      lookupKey payload "error" = some (JSON.str e.Code) := by
  unfold syncResult at h
  cases hr : r.err with
  | some ce =>
    rw [hr] at h
    cases ce <;> simp [CallErr.toError] at h
  | none =>
    rw [hr] at h
    exact ⟨rfl, HandleError_maxError h⟩

theorem isLoginTokenError_iff (e : GoError) :
    isLoginTokenError e = true ↔ ∃ maxErr, e = GoError.maxError maxErr ∧
      maxErr.Code = "login.token" := by
  cases e <;> simp [isLoginTokenError]

/-- The part of `Start` from the first sync on. -/
theorem startSync_spec (cfg : ClientConfig) (env : StartEnv) (token : String)
    (done : List Effect) (hdone : syncRequests done = 0)
    (hdone1 : Effect.startHandlers ∉ done) :
    1 ≤ syncRequests (startSync cfg env token done).effects ∧
    syncRequests (startSync cfg env token done).effects ≤ 2 ∧
    (syncRequests (startSync cfg env token done).effects = 2 →
      (env.sync1.err = none ∧ ∃ payload,
        env.sync1.resp.index "payload" = some (JSON.obj payload) ∧
        lookupKey payload "error" = some (JSON.str "login.token")) ∧
      (authenticate cfg env.auth2 "").err = none ∧
      (∃ post, (startSync cfg env token done).effects =
        done ++ [Effect.request OpcodeLogin token, Effect.tokenCleared] ++
          (authenticate cfg env.auth2 "").effects ++
          Effect.request OpcodeLogin (authenticate cfg env.auth2 "").token :: post) ∧
      (∀ e, syncResult env.sync2 = some e →
        (startSync cfg env token done).err = some e ∧
        Effect.startHandlers ∉ (startSync cfg env token done).effects)) ∧
    (∀ e, syncResult env.sync1 = some e → isLoginTokenError e = false →
      (startSync cfg env token done).err = some e ∧
      Effect.startHandlers ∉ (startSync cfg env token done).effects ∧
      syncRequests (startSync cfg env token done).effects = 1) ∧
    ((startSync cfg env token done).err ≠ none ↔
      Effect.startHandlers ∉ (startSync cfg env token done).effects) := by
  obtain ⟨ha, hb⟩ := authenticate_no_sync cfg env.auth2 ""
  have hs : ∀ t, Effect.isSync (Effect.request OpcodeLogin t) = true := by
    intro t; simp [Effect.isSync]
  unfold syncRequests at ha hdone ⊢
  unfold startSync
  cases h1 : syncResult env.sync1 with
  | none =>
    simp [List.countP_append, List.countP_cons, hdone, hs, Effect.isSync, hdone1]
  | some e1 =>
    by_cases hcode : isLoginTokenError e1 = true
    · obtain ⟨maxErr, rfl, hc⟩ := (isLoginTokenError_iff e1).1 hcode
      obtain ⟨q1, payload, q2, q3⟩ := syncResult_maxError h1
      rw [hc] at q3
      simp only [hcode, if_true]
      cases h2 : (authenticate cfg env.auth2 "").err with
      | some e2 =>
        simp [List.countP_append, List.countP_cons, hdone, hs, Effect.isSync, hdone1, ha, hb,
          hcode]
      | none =>
        cases h3 : syncResult env.sync2 with
        | some e3 =>
          simp only [List.countP_append, List.countP_cons, hdone, hs, ha, Effect.isSync,
            List.countP_nil]
          simp [hdone1, hb, q1, hcode]
          exact ⟨payload, q2, q3⟩
        | none =>
          simp only [List.countP_append, List.countP_cons, hdone, hs, ha, Effect.isSync,
            List.countP_nil]
          simp [hdone1, hb, q1, hcode]
          exact ⟨payload, q2, q3⟩
    · have hf : isLoginTokenError e1 = false := by simpa using hcode
      simp [hf, List.countP_append, List.countP_cons, hdone, hs, Effect.isSync, hdone1]

/-- C13. In `Start` the sync request is sent at most twice. It is sent a second time
only when the first sync response carries the error code "login.token", and then only
after the token has been cleared and `Login` (or `Register`, when `cfg.Registration` is
set) has succeeded: the effects are, in order, the first sync request, the clearing of
the token, the effects of the authentication, and the second sync request with the new
token. If the first sync fails with any other error, or the second sync fails, `Start`
returns that error; and whenever `Start` returns an error the on-start handlers are not
run. -/
theorem Start_sync_at_most_twice (cfg : ClientConfig) (env : StartEnv) (token0 : String) :
    syncRequests (Start cfg env token0).effects ≤ 2 ∧
    (syncRequests (Start cfg env token0).effects = 2 →
      (env.sync1.err = none ∧ ∃ payload,
        env.sync1.resp.index "payload" = some (JSON.obj payload) ∧
        lookupKey payload "error" = some (JSON.str "login.token")) ∧
      (authenticate cfg env.auth2 "").err = none ∧
      (∃ pre token1 post, syncRequests pre = 0 ∧ (Start cfg env token0).effects =
        pre ++ [Effect.request OpcodeLogin token1, Effect.tokenCleared] ++
          (authenticate cfg env.auth2 "").effects ++
          Effect.request OpcodeLogin (authenticate cfg env.auth2 "").token :: post) ∧
      (∀ e, syncResult env.sync2 = some e →
        (Start cfg env token0).err = some e ∧
        Effect.startHandlers ∉ (Start cfg env token0).effects)) ∧
    (1 ≤ syncRequests (Start cfg env token0).effects →
      ∀ e, syncResult env.sync1 = some e → isLoginTokenError e = false →
        (Start cfg env token0).err = some e ∧
        Effect.startHandlers ∉ (Start cfg env token0).effects ∧
        syncRequests (Start cfg env token0).effects = 1) ∧
    ((Start cfg env token0).err ≠ none ↔
      Effect.startHandlers ∉ (Start cfg env token0).effects) := by
  have hpre : syncRequests
      [Effect.dial, Effect.spawnLoops, Effect.request OpcodeSessionInit ""] = 0 := by decide
  have hpre1 : Effect.startHandlers ∉
      [Effect.dial, Effect.spawnLoops, Effect.request OpcodeSessionInit ""] := by decide
  have hfrom : ∀ (token : String) (done : List Effect), syncRequests done = 0 →
      Effect.startHandlers ∉ done →
      syncRequests (startSync cfg env token done).effects ≤ 2 ∧
      (syncRequests (startSync cfg env token done).effects = 2 →
        (env.sync1.err = none ∧ ∃ payload,
          env.sync1.resp.index "payload" = some (JSON.obj payload) ∧
          lookupKey payload "error" = some (JSON.str "login.token")) ∧
        (authenticate cfg env.auth2 "").err = none ∧
        (∃ pre token1 post, syncRequests pre = 0 ∧ (startSync cfg env token done).effects =
          pre ++ [Effect.request OpcodeLogin token1, Effect.tokenCleared] ++
            (authenticate cfg env.auth2 "").effects ++
            Effect.request OpcodeLogin (authenticate cfg env.auth2 "").token :: post) ∧
        (∀ e, syncResult env.sync2 = some e →
          (startSync cfg env token done).err = some e ∧
          Effect.startHandlers ∉ (startSync cfg env token done).effects)) ∧
      (1 ≤ syncRequests (startSync cfg env token done).effects →
        ∀ e, syncResult env.sync1 = some e → isLoginTokenError e = false →
          (startSync cfg env token done).err = some e ∧
          Effect.startHandlers ∉ (startSync cfg env token done).effects ∧
          syncRequests (startSync cfg env token done).effects = 1) ∧
      ((startSync cfg env token done).err ≠ none ↔
        Effect.startHandlers ∉ (startSync cfg env token done).effects) := by
    intro token done h1 h2
    obtain ⟨_, p2, p3, p4, p5⟩ := startSync_spec cfg env token done h1 h2
    refine ⟨p2, ?_, fun _ => p4, p5⟩
    intro h
    obtain ⟨q1, q2, ⟨post, q3⟩, q4⟩ := p3 h
    exact ⟨q1, q2, ⟨done, token, post, h1, q3⟩, q4⟩
  unfold Start
  cases env.dial with
  | some text => simp [syncRequests, Effect.isSync]
  | none =>
    cases env.sessionInit with
    | some e => simp [syncRequests, Effect.isSync, OpcodeSessionInit, OpcodeLogin]
    | none =>
      by_cases hctx : env.ctxDone = true
      · simp [hctx, syncRequests, Effect.isSync, OpcodeSessionInit, OpcodeLogin]
      · by_cases ht : token0 = ""
        · subst ht
          obtain ⟨ha, hb⟩ := authenticate_no_sync cfg env.auth1 ""
          cases h1 : (authenticate cfg env.auth1 "").err with
          | some e =>
            have hz : syncRequests ([Effect.dial, Effect.spawnLoops,
                Effect.request OpcodeSessionInit ""] ++
                  (authenticate cfg env.auth1 "").effects ++ [Effect.teardown]) = 0 := by
              unfold syncRequests at ha hpre ⊢
              rw [List.countP_append, List.countP_append, ha, hpre]
              rfl
            have hn : Effect.startHandlers ∉ ([Effect.dial, Effect.spawnLoops,
                Effect.request OpcodeSessionInit ""] ++
                  (authenticate cfg env.auth1 "").effects ++ [Effect.teardown]) := by
              intro hm
              rcases List.mem_append.1 hm with hm | hm
              · rcases List.mem_append.1 hm with hm | hm
                · exact hpre1 hm
                · exact hb hm
              · simp at hm
            simp only [hctx, if_true, Bool.false_eq_true, if_false]
            rw [hz]
            refine ⟨by omega, fun h => by omega, fun h => by omega, ?_⟩
            simp only [ne_eq, reduceCtorEq, not_false_eq_true, true_iff]
            exact hn
          | none =>
            have hd : syncRequests ([Effect.dial, Effect.spawnLoops,
                Effect.request OpcodeSessionInit ""] ++
                  (authenticate cfg env.auth1 "").effects) = 0 := by
              unfold syncRequests at ha hpre ⊢
              rw [List.countP_append, ha, hpre]
            have hd1 : Effect.startHandlers ∉ ([Effect.dial, Effect.spawnLoops,
                Effect.request OpcodeSessionInit ""] ++
                  (authenticate cfg env.auth1 "").effects) := by
              intro hm
              rcases List.mem_append.1 hm with hm | hm
              · exact hpre1 hm
              · exact hb hm
            simp only [hctx, if_true, Bool.false_eq_true, if_false]
            exact hfrom _ _ hd hd1
        · simp only [hctx, ht, if_false, Bool.false_eq_true]
          exact hfrom _ _ hpre hpre1

/-- C13 (witness). The stored token is rejected with "login.token": `Start` clears the
token, logs in, syncs a second time with the new token and runs the start handlers. -/
theorem Start_sync_at_most_twice_witness :
    (Start loginConfig reloginEnv "stale").effects =
      [Effect.dial, Effect.spawnLoops, Effect.request OpcodeSessionInit "",
       Effect.request OpcodeLogin "stale", Effect.tokenCleared,
       Effect.request OpcodeAuthRequest "+79001234567", Effect.askCode,
       Effect.request OpcodeAuth "temp", Effect.updateToken "fresh",
       Effect.request OpcodeLogin "fresh", Effect.startHandlers] ∧
    (authenticate loginConfig reloginEnv.auth2 "").err = none :=
  ⟨by decide, ((Start_sync_at_most_twice loginConfig reloginEnv "stale").2.1 (by decide)).2.1⟩

/-! ## Failure of the authentication flows (C14) -/

theorem storeToken_spec (env : AuthEnv) (authToken : String) (done : List Effect)
    (hne : authToken ≠ "") (hdone : ∀ e ∈ done, e.isUpdateToken = false) :
    ((storeToken env authToken done).err ≠ none →
      (storeToken env authToken done).failedAtStore env) ∧
    ((storeToken env authToken done).err = none → env.updateToken = none) := by
  have hf : done.filter Effect.isUpdateToken = [] := by
    rw [List.filter_eq_nil_iff]
    intro e he
    simp [hdone e he]
  unfold storeToken FlowRun.failedAtStore
  cases env.updateToken with
  | none => simp
  | some text => simp [hf, hne, Effect.isUpdateToken]

theorem SendCode_failure (env : AuthEnv) (token0 token : String) :
    ((SendCode env token0 token).err ≠ none →
      (SendCode env token0 token).keptToken token0 ∨
        (SendCode env token0 token).failedAtStore env) ∧
    (tokenAttrsToken env.auth.resp TokenTypeLogin = "" →
      (SendCode env token0 token).err ≠ none ∧ (SendCode env token0 token).keptToken token0) := by
  unfold SendCode
  cases env.auth.err with
  | some e => simp [FlowRun.keptToken, Effect.isUpdateToken]
  | none =>
    cases HandleError env.auth.resp with
    | some e => simp [FlowRun.keptToken, Effect.isUpdateToken]
    | none =>
      by_cases ht : tokenAttrsToken env.auth.resp TokenTypeLogin = ""
      · simp [ht, FlowRun.keptToken, Effect.isUpdateToken]
      · simp only [ht, if_false, false_implies, and_true]
        intro h
        exact Or.inr ((storeToken_spec env _ _ ht (by simp [Effect.isUpdateToken])).1 h)

theorem FlowRun.after_keptToken {r : FlowRun} {done : List Effect} {token0 : String}
    (hdone : ∀ e ∈ done, e.isUpdateToken = false) (h : r.keptToken token0) :
    (r.after done).keptToken token0 := by
  refine ⟨h.1, ?_⟩
  intro e he
  simp only [FlowRun.after, List.mem_append] at he
  rcases he with he | he
  · exact hdone e he
  · exact h.2 e he

theorem FlowRun.after_failedAtStore {r : FlowRun} {done : List Effect} {env : AuthEnv}
    (hdone : ∀ e ∈ done, e.isUpdateToken = false) (h : r.failedAtStore env) :
    (r.after done).failedAtStore env := by
  obtain ⟨text, h1, h2, h3, h4⟩ := h
  refine ⟨text, h1, h2, h3, ?_⟩
  have hf : done.filter Effect.isUpdateToken = [] := by
    rw [List.filter_eq_nil_iff]
    intro e he
    simp [hdone e he]
  simp only [FlowRun.after, List.filter_append, hf, List.nil_append]
  exact h4

theorem Login_failure (env : AuthEnv) (phone token0 : String) :
    ((Login env phone token0).err ≠ none →
      (Login env phone token0).keptToken token0 ∨ (Login env phone token0).failedAtStore env) ∧
    (tokenAttrsToken env.auth.resp TokenTypeLogin = "" →
      (Login env phone token0).err ≠ none ∧ (Login env phone token0).keptToken token0) := by
  unfold Login
  cases RequestCode env.requestCode with
  | error e => simp [FlowRun.keptToken, Effect.isUpdateToken]
  | ok tempToken =>
    cases env.code with
    | error e => simp [FlowRun.keptToken, Effect.isUpdateToken]
    | ok code =>
      have hdone : ∀ e ∈ [Effect.request OpcodeAuthRequest phone, Effect.askCode],
          e.isUpdateToken = false := by simp [Effect.isUpdateToken]
      obtain ⟨h1, h2⟩ := SendCode_failure env token0 tempToken
      constructor
      · intro h
        rcases h1 h with h3 | h3
        · exact Or.inl (FlowRun.after_keptToken hdone h3)
        · exact Or.inr (FlowRun.after_failedAtStore hdone h3)
      · intro ht
        exact ⟨(h2 ht).1, FlowRun.after_keptToken hdone (h2 ht).2⟩

theorem Register_failure (env : AuthEnv) (phone token0 : String) :
    ((Register env phone token0).err ≠ none →
      (Register env phone token0).keptToken token0 ∨
        (Register env phone token0).failedAtStore env) ∧
    (tokenAttrsToken env.auth.resp TokenTypeRegister = "" ∨ payloadToken env.confirm.resp = "" →
      (Register env phone token0).err ≠ none ∧ (Register env phone token0).keptToken token0) := by
  unfold Register
  cases RequestCode env.requestCode with
  | error e => simp [FlowRun.keptToken, Effect.isUpdateToken]
  | ok tempToken =>
    cases env.code with
    | error e => simp [FlowRun.keptToken, Effect.isUpdateToken]
    | ok code =>
      cases env.auth.err with
      | some e => simp [FlowRun.keptToken, Effect.isUpdateToken]
      | none =>
        cases HandleError env.auth.resp with
        | some e => simp [FlowRun.keptToken, Effect.isUpdateToken]
        | none =>
          by_cases ht : tokenAttrsToken env.auth.resp TokenTypeRegister = ""
          · simp [ht, FlowRun.keptToken, Effect.isUpdateToken]
          · cases env.confirm.err with
            | some e => simp [ht, FlowRun.keptToken, Effect.isUpdateToken]
            | none =>
              cases HandleError env.confirm.resp with
              | some e => simp [ht, FlowRun.keptToken, Effect.isUpdateToken]
              | none =>
                by_cases hp : payloadToken env.confirm.resp = ""
                · simp [ht, hp, FlowRun.keptToken, Effect.isUpdateToken]
                · simp only [ht, hp, if_false, or_self, false_implies, and_true]
                  intro h
                  exact Or.inr ((storeToken_spec env _ _ hp
                    (by simp [Effect.isUpdateToken])).1 h)

/-- C14 (claim as stated fails). The confirmation carries the login token "fresh" but
the session store fails to write it: `SendCode` and `Login` return the error of the
store, yet the token of the client has already changed from "old" to "fresh" and
`UpdateToken` has been invoked. -/
theorem SendCode_store_failure_changes_token :
    (SendCode loginStoreFails "old" "temp").err = some (GoError.other "database is locked") ∧
    (SendCode loginStoreFails "old" "temp").token = "fresh" ∧
    (SendCode loginStoreFails "old" "temp").effects =
      [Effect.request OpcodeAuth "temp", Effect.updateToken "fresh"] ∧
    (Login loginStoreFails "+79001234567" "old").err =
      some (GoError.other "database is locked") ∧
    (Login loginStoreFails "+79001234567" "old").token = "fresh" := by
  decide

/-- C14 (amended). Whenever `SendCode`, `Login` or `Register` returns an error, either
the client's auth token is the same as before the call and `UpdateToken` has never been
invoked, or the flow had obtained its final non-empty token, assigned it to the client,
invoked `UpdateToken` once with it, and the error is the one of that write. In
particular, when the confirmation carries no login token (for `Register`: no register
token, or no final token) the call fails with the token unchanged and `UpdateToken`
never invoked; and when the store accepts the write, every failure leaves the token
unchanged. -/
theorem auth_failure_keeps_token (env : AuthEnv) (phone token0 token : String) :
    (((SendCode env token0 token).err ≠ none →
        (SendCode env token0 token).keptToken token0 ∨
          (SendCode env token0 token).failedAtStore env) ∧
      ((Login env phone token0).err ≠ none →
        (Login env phone token0).keptToken token0 ∨
          (Login env phone token0).failedAtStore env) ∧
      ((Register env phone token0).err ≠ none →
        (Register env phone token0).keptToken token0 ∨
          (Register env phone token0).failedAtStore env)) ∧
    (tokenAttrsToken env.auth.resp TokenTypeLogin = "" →
      ((SendCode env token0 token).err ≠ none ∧ (SendCode env token0 token).keptToken token0) ∧
      ((Login env phone token0).err ≠ none ∧ (Login env phone token0).keptToken token0)) ∧
    (tokenAttrsToken env.auth.resp TokenTypeRegister = "" ∨ payloadToken env.confirm.resp = "" →
      (Register env phone token0).err ≠ none ∧ (Register env phone token0).keptToken token0) ∧
    (env.updateToken = none →
      ((SendCode env token0 token).err ≠ none → (SendCode env token0 token).keptToken token0) ∧
      ((Login env phone token0).err ≠ none → (Login env phone token0).keptToken token0) ∧
      ((Register env phone token0).err ≠ none →
        (Register env phone token0).keptToken token0)) := by
  obtain ⟨s1, s2⟩ := SendCode_failure env token0 token
  obtain ⟨l1, l2⟩ := Login_failure env phone token0
  obtain ⟨r1, r2⟩ := Register_failure env phone token0
  have hno : env.updateToken = none → ∀ r : FlowRun, ¬ r.failedAtStore env := by
    rintro hu r ⟨text, h1, _⟩
    rw [hu] at h1
    cases h1
  refine ⟨⟨s1, l1, r1⟩, fun ht => ⟨s2 ht, l2 ht⟩, r2, ?_⟩
  intro hu
  refine ⟨fun h => ?_, fun h => ?_, fun h => ?_⟩
  · exact (s1 h).resolve_right (hno hu _)
  · exact (l1 h).resolve_right (hno hu _)
  · exact (r1 h).resolve_right (hno hu _)

/-- C14 (witness). A confirmation with empty `tokenAttrs` makes `Login` fail with the
token unchanged and nothing written, and makes `Start` fail. -/
theorem auth_failure_keeps_token_witness :
    ((Login loginNoToken "+79001234567" "old").err ≠ none ∧
      (Login loginNoToken "+79001234567" "old").keptToken "old") ∧
    (Start loginConfig noTokenEnv "").err = some (GoError.other "login token not received") :=
  ⟨((auth_failure_keeps_token loginNoToken "+79001234567" "old" "temp").2.1 rfl).2, by decide⟩

/-! ## Dialog ids (C25) -/

/-- C25. The method `GetChatId` is symmetric: for all user ids a and b,
`GetChatId(a, b) = GetChatId(b, a)`; and `GetChatId(100, 200) = GetChatId(200, 100) =
172`. -/
theorem GetChatId_symmetric :
    (∀ a b : Int, GetChatId a b = GetChatId b a) ∧
    GetChatId 100 200 = 172 ∧ GetChatId 200 100 = 172 := by
  refine ⟨?_, by decide, by decide⟩
  intro a b
  unfold GetChatId
  rw [Nat.xor_comm]

/-! ## Chat updates without a chat object (C21) -/

/-- C21 (code defect). A chat-update push frame whose payload has no `chat` object, and
one without a payload, are not dropped: `utils.FromMap` of the nil map reports no error,
so the zero chat is appended to the cache and both chat-update handlers are invoked with
it. A frame whose `chat` object has an ill-typed field is dropped. -/
theorem handleChatUpdate_without_chat_updates_cache :
    (handleChatUpdate chatWatcher (notifChatFrame [])).Chats = [chatTitled 5 "a", Chat.zero] ∧
    spawnedChats (handleChatUpdate chatWatcher (notifChatFrame [])) =
      [some Chat.zero, some Chat.zero] ∧
    (handleChatUpdate chatWatcher notifChatFrameNoPayload).Chats =
      [chatTitled 5 "a", Chat.zero] ∧
    spawnedChats (handleChatUpdate chatWatcher notifChatFrameNoPayload) =
      [some Chat.zero, some Chat.zero] ∧
    (handleChatUpdate chatWatcher
      (notifChatFrame [("chat", JSON.obj [("id", JSON.str "x")])])).Chats =
        [chatTitled 5 "a"] ∧
    spawnedChats (handleChatUpdate chatWatcher
      (notifChatFrame [("chat", JSON.obj [("id", JSON.str "x")])])) = [] := by
  decide

/-! ## The hand-written substring test (C30) -/

theorem goSlice_eq_iff (s substr : List Char) (i : Nat) :
    goSlice s i (i + substr.length) = substr ↔ ∃ t, s.drop i = substr ++ t := by
  unfold goSlice
  rw [Nat.add_sub_cancel_left]
  constructor
  · intro h
    refine ⟨(s.drop i).drop substr.length, ?_⟩
    conv_lhs => rw [← List.take_append_drop substr.length (s.drop i)]
    rw [h]
  · rintro ⟨t, ht⟩
    rw [ht, List.take_left']
    rfl

theorem infix_iff_drop (s substr : List Char) :
    substr <:+: s ↔ ∃ i, i + substr.length ≤ s.length ∧ ∃ t, s.drop i = substr ++ t := by
  constructor
  · rintro ⟨a, b, h⟩
    refine ⟨a.length, ?_, b, ?_⟩
    · rw [← h]
      simp
    · rw [← h, List.append_assoc, List.drop_left']
      rfl
  · rintro ⟨i, _, t, ht⟩
    refine ⟨s.take i, t, ?_⟩
    rw [List.append_assoc, ← ht, List.take_append_drop]

/-- The loop of `containsMiddle` finds exactly the occurrences. -/
theorem containsMiddle_iff (s substr : List Char) :
    containsMiddle s substr = true ↔ substr <:+: s := by
  unfold containsMiddle
  rw [List.any_eq_true, infix_iff_drop]
  constructor
  · rintro ⟨i, hi, h⟩
    rw [List.mem_range] at hi
    have h1 := of_decide_eq_true h
    have h2 := (goSlice_eq_iff s substr i).1 h1
    refine ⟨i, by omega, h2⟩
  · rintro ⟨i, hi, h⟩
    refine ⟨i, ?_, ?_⟩
    · rw [List.mem_range]
      omega
    · exact decide_eq_true ((goSlice_eq_iff s substr i).2 h)

/-- The function `contains` is the substring relation. -/
theorem contains_iff_occurs (s substr : List Char) :
    contains s substr = true ↔ substr <:+: s := by
  constructor
  · intro h
    unfold contains at h
    simp only [Bool.and_eq_true, Bool.or_eq_true, decide_eq_true_eq] at h
    obtain ⟨_, h1⟩ := h
    rcases h1 with (h1 | h1) | ⟨_, h1⟩
    · rw [h1]
    · have : substr = [] := List.length_eq_zero.1 h1
      rw [this]
      exact List.nil_infix
    · rcases h1 with (h1 | h1) | h1
      · have := (goSlice_eq_iff s substr 0).1 (by simpa using h1)
        obtain ⟨t, ht⟩ := this
        exact ⟨[], t, by simpa using ht.symm⟩
      · refine (infix_iff_drop s substr).2 ⟨s.length - substr.length, by omega, ?_⟩
        have e : s.length = (s.length - substr.length) + substr.length := by omega
        rw [e] at h1
        simp only [Nat.add_sub_cancel] at h1
        exact (goSlice_eq_iff s substr _).1 h1
      · exact (containsMiddle_iff s substr).1 h1
  · intro h
    have hlen : substr.length ≤ s.length := List.IsInfix.length_le h
    unfold contains
    simp only [Bool.and_eq_true, Bool.or_eq_true, decide_eq_true_eq]
    refine ⟨hlen, ?_⟩
    by_cases heq : s = substr
    · exact Or.inl (Or.inl heq)
    · right
      have hlt : substr.length < s.length := by
        rcases Nat.lt_or_ge substr.length s.length with h1 | h1
        · exact h1
        · exact absurd (List.IsInfix.eq_of_length h (by omega)).symm heq
      exact ⟨hlt, Or.inr ((containsMiddle_iff s substr).2 h)⟩

/-- The checked loop never panics when every slice it takes is in range. -/
theorem containsMiddleFrom_total (s substr : List Char) (n i : Nat)
    (h : i + n + substr.length ≤ s.length + 1) :
    containsMiddleFrom s substr n i =
      some ((List.range n).any (fun k => decide (goSlice s (i + k) (i + k + substr.length) = substr))) := by
  induction n generalizing i with
  | zero => simp [containsMiddleFrom]
  | succ n ih =>
    have hr : goSliceChecked s i (i + substr.length) = some (goSlice s i (i + substr.length)) := by
      unfold goSliceChecked
      rw [if_pos]
      constructor <;> omega
    rw [containsMiddleFrom, hr]
    simp only []
    rw [List.range_succ_eq_map, List.any_cons, List.any_map]
    by_cases hp : goSlice s i (i + substr.length) = substr
    · simp [hp]
    · rw [if_neg hp, ih (i + 1) (by omega)]
      simp only [Nat.add_zero, hp, decide_False, Bool.false_or, Function.comp]
      congr 2
      funext k
      have : i + 1 + k = i + (k + 1) := by omega
      rw [this]
      rfl

/-- C30. The hand-written `contains(s, substr)` is the substring relation: it returns
true if and only if `substr` occurs as a contiguous substring of `s` (the empty string
occurring in every string); and evaluated with checked slices, `contains`, with the
`containsMiddle` it calls, never slices out of range and returns the same value. -/
theorem contains_is_substring (s substr : List Char) :
    (contains s substr = true ↔ substr <:+: s) ∧
    contains s [] = true ∧
    containsChecked s substr = some (contains s substr) := by
  refine ⟨contains_iff_occurs s substr, (contains_iff_occurs s []).2 List.nil_infix, ?_⟩
  unfold containsChecked contains
  by_cases hge : s.length ≥ substr.length
  · rw [if_pos hge]
    by_cases heq : s = substr
    · simp [heq]
    · rw [if_neg heq]
      by_cases hz : substr.length = 0
      · simp [hz, hge]
      · rw [if_neg hz]
        by_cases hgt : s.length > substr.length
        · rw [if_pos hgt]
          have r1 : goSliceChecked s 0 substr.length = some (goSlice s 0 substr.length) := by
            unfold goSliceChecked
            rw [if_pos]
            constructor <;> omega
          have r2 : goSliceChecked s (s.length - substr.length) s.length =
              some (goSlice s (s.length - substr.length) s.length) := by
            unfold goSliceChecked
            rw [if_pos]
            constructor <;> omega
          have r3 : containsMiddleChecked s substr = some (containsMiddle s substr) := by
            unfold containsMiddleChecked containsMiddle
            rw [containsMiddleFrom_total s substr _ 0 (by omega)]
            simp
          rw [r1, r2]
          simp only []
          by_cases hh : goSlice s 0 substr.length = substr
          · simp [hh, hge, hgt]
          · rw [if_neg hh]
            by_cases ht : goSlice s (s.length - substr.length) s.length = substr
            · simp [ht, hge, hgt]
            · rw [if_neg ht, r3]
              simp [hge, heq, hz, hgt, hh, ht]
        · rw [if_neg hgt]
          simp [hge, heq, hz, hgt]
  · rw [if_neg hge]
    simp [hge]

/-! ## Message filters (C26) -/

theorem not_contains_iff (s substr : List Char) :
    (!contains s substr) = true ↔ ¬ substr <:+: s := by
  rw [← contains_iff_occurs]
  simp

/-- C26. The method `Filter.Match(msg)` is true if and only if every criterion that is
set in the filter holds for `msg`: `ChatID` set implies `msg.ChatID` present and equal;
`UserID` set implies `msg.Sender` present and equal; every string of `Text` and
`TextContains` is a substring of `msg.Text`; `Status` set implies `msg.Status` present and
equal; `Type` set implies `msg.Type` equal; `ReactionInfo` set implies that
(`msg.Reactions` present) equals the flag. In particular a filter with no criterion set
matches every message. -/
theorem Filter_Match_iff_all_criteria (f : Filter) (msg : Message) :
    (f.Match msg = true ↔ f.holds msg) ∧ Filter.Match {} msg = true := by
  refine ⟨?_, rfl⟩
  unfold Filter.Match Filter.holds
  by_cases h1 : (f.ChatID.isSome && (msg.ChatID.isNone || msg.ChatID != f.ChatID)) = true
  · rw [if_pos h1]
    simp only [Bool.false_eq_true, false_iff, not_and]
    intro hc
    cases hf : f.ChatID with
    | none => simp [hf] at h1
    | some id =>
      have := hc id hf
      simp [hf, this] at h1
  rw [if_neg h1]
  have c1 : ∀ id, f.ChatID = some id → msg.ChatID = some id := by
    intro id hf
    cases hm : msg.ChatID with
    | none => simp [hf, hm] at h1
    | some id1 =>
      simp [hf, hm] at h1
      rw [h1]
  by_cases h2 : (f.UserID.isSome && (msg.Sender.isNone || msg.Sender != f.UserID)) = true
  · rw [if_pos h2]
    simp only [Bool.false_eq_true, false_iff, not_and]
    intro _ hc
    cases hf : f.UserID with
    | none => simp [hf] at h2
    | some id =>
      have := hc id hf
      simp [hf, this] at h2
  rw [if_neg h2]
  have c2 : ∀ id, f.UserID = some id → msg.Sender = some id := by
    intro id hf
    cases hm : msg.Sender with
    | none => simp [hf, hm] at h2
    | some id1 =>
      simp [hf, hm] at h2
      rw [h2]
  by_cases h3 : ((f.Text.getD []).any (fun t => !contains msg.Text.data t.data)) = true
  · rw [if_pos h3]
    simp only [Bool.false_eq_true, false_iff, not_and]
    intro _ _ hc
    rw [List.any_eq_true] at h3
    obtain ⟨t, ht, hn⟩ := h3
    exact absurd (hc t ht) ((not_contains_iff _ _).1 hn)
  rw [if_neg h3]
  have c3 : ∀ t ∈ f.Text.getD [], t.data <:+: msg.Text.data := by
    intro t ht
    by_contra hn
    exact h3 (List.any_eq_true.2 ⟨t, ht, (not_contains_iff _ _).2 hn⟩)
  by_cases h4 : (f.TextContains.isSome &&
      !contains msg.Text.data ((f.TextContains.getD "").data)) = true
  · rw [if_pos h4]
    simp only [Bool.false_eq_true, false_iff, not_and]
    intro _ _ _ hc
    cases hf : f.TextContains with
    | none => simp [hf] at h4
    | some t =>
      rw [hf] at h4
      simp only [Option.isSome_some, Option.getD_some, Bool.true_and] at h4
      exact absurd (hc t hf) ((not_contains_iff _ _).1 h4)
  rw [if_neg h4]
  have c4 : ∀ t, f.TextContains = some t → t.data <:+: msg.Text.data := by
    intro t hf
    by_contra hn
    apply h4
    rw [hf]
    simp only [Option.isSome_some, Option.getD_some, Bool.true_and]
    exact (not_contains_iff _ _).2 hn
  by_cases h5 : (f.Status.isSome && (msg.Status.isNone || msg.Status != f.Status)) = true
  · rw [if_pos h5]
    simp only [Bool.false_eq_true, false_iff, not_and]
    intro _ _ _ _ hc
    cases hf : f.Status with
    | none => simp [hf] at h5
    | some st =>
      have := hc st hf
      simp [hf, this] at h5
  rw [if_neg h5]
  have c5 : ∀ st, f.Status = some st → msg.Status = some st := by
    intro st hf
    cases hm : msg.Status with
    | none => simp [hf, hm] at h5
    | some st1 =>
      simp [hf, hm] at h5
      rw [h5]
  by_cases h6 : (f.Type_.isSome && some msg.Type_ != f.Type_) = true
  · rw [if_pos h6]
    simp only [Bool.false_eq_true, false_iff, not_and]
    intro _ _ _ _ _ hc
    cases hf : f.Type_ with
    | none => simp [hf] at h6
    | some ty =>
      have := hc ty hf
      simp [hf, this] at h6
  rw [if_neg h6]
  have c6 : ∀ ty, f.Type_ = some ty → msg.Type_ = ty := by
    intro ty hf
    simp [hf] at h6
    exact h6
  by_cases h7 : (decide (f.ReactionInfo = some true) && !msg.Reactions) = true
  · rw [if_pos h7]
    simp only [Bool.false_eq_true, false_iff, not_and]
    intro _ _ _ _ _ _ hc
    simp only [Bool.and_eq_true, decide_eq_true_eq, Bool.not_eq_true'] at h7
    have := hc true h7.1
    rw [this] at h7
    exact absurd h7.2 (by simp)
  rw [if_neg h7]
  by_cases h8 : (decide (f.ReactionInfo = some false) && msg.Reactions) = true
  · rw [if_pos h8]
    simp only [Bool.false_eq_true, false_iff, not_and]
    intro _ _ _ _ _ _ hc
    simp only [Bool.and_eq_true, decide_eq_true_eq] at h8
    have := hc false h8.1
    rw [this] at h8
    exact absurd h8.2 (by simp)
  rw [if_neg h8]
  simp only [true_iff]
  refine ⟨c1, c2, c3, c4, c5, c6, ?_⟩
  intro flag hf
  cases flag with
  | true =>
    simp only [hf, decide_True, Bool.true_and, Bool.not_eq_true'] at h7
    simpa using h7
  | false =>
    simp only [hf, decide_True, Bool.true_and] at h8
    simpa using h8

/-! ## Caches after a sync response (C27) -/

theorem Registry.del_keysNodup {r : Registry} (h : r.keysNodup) (k : Int) :
    (r.del k).keysNodup := by
  unfold Registry.keysNodup Registry.del at *
  exact List.Nodup.sublist (List.Sublist.map _ (List.filter_sublist _)) h

theorem Registry.not_mem_del_keys (r : Registry) (k : Int) :
    k ∉ (r.del k).map Prod.fst := by
  unfold Registry.del
  intro hm
  rw [List.mem_map] at hm
  obtain ⟨e, he, hk⟩ := hm
  rw [List.mem_filter] at he
  have := of_decide_eq_true he.2
  exact this hk

theorem Registry.put_keysNodup {r : Registry} (h : r.keysNodup) (k : Int) (v : Nat) :
    (r.put k v).keysNodup := by
  unfold Registry.put Registry.keysNodup
  rw [List.map_cons, List.nodup_cons]
  exact ⟨Registry.not_mem_del_keys r k, Registry.del_keysNodup h k⟩

/-- With pairwise different keys, every stored slot is found by the lookup of its key. -/
theorem Registry.get_of_mem {r : Registry} (h : r.keysNodup) {k : Int} {v : Nat}
    (hm : (k, v) ∈ r) : r.get k = some v := by
  induction r with
  | nil => cases hm
  | cons e rest ih =>
    obtain ⟨k1, v1⟩ := e
    unfold Registry.keysNodup at h
    rw [List.map_cons, List.nodup_cons] at h
    rw [Registry.get_cons]
    rcases List.mem_cons.1 hm with he | he
    · cases he
      simp
    · have hne : k1 ≠ k := by
        intro hk
        apply h.1
        rw [hk]
        exact List.mem_map.2 ⟨(k, v), he, rfl⟩
      rw [if_neg hne]
      exact ih h.2 he

theorem Registry.get_of_mem_snd {r : Registry} (h : r.keysNodup) {v : Nat}
    (hm : v ∈ r.map Prod.snd) : ∃ k, r.get k = some v := by
  rw [List.mem_map] at hm
  obtain ⟨⟨k, v1⟩, he, hv⟩ := hm
  simp only at hv
  subst hv
  exact ⟨k, Registry.get_of_mem h he⟩

theorem Heap.isClosed_trySend (h : Heap) (id : Nat) (msg : Frame) (ch : Nat) :
    (h.trySend id msg).1.isClosed ch = h.isClosed ch := by
  by_cases hc : ch = id
  · subst hc
    unfold Heap.trySend Heap.isClosed
    cases hg : h[ch]? with
    | none => simp [hg]
    | some c =>
      have hlt : ch < h.length := by
        by_contra hge
        rw [List.getElem?_eq_none (by omega)] at hg
        cases hg
      simp only [List.getElem?_set, hlt, if_true]
      unfold Chan.trySend
      split
      · rfl
      · split <;> rfl
  · unfold Heap.isClosed
    rw [Heap.trySend_getElem?_ne h msg hc]

theorem Heap.isClosed_append_fresh (h : Heap) (ch : Nat) :
    (h ++ [Chan.fresh]).isClosed ch = h.isClosed ch := by
  unfold Heap.isClosed
  by_cases hlt : ch < h.length
  · rw [List.getElem?_append_left hlt]
  · rw [List.getElem?_eq_none (l := h) (by omega)]
    by_cases he : ch = h.length
    · subst he
      simp [Chan.fresh]
    · rw [List.getElem?_eq_none (by simp; omega)]

theorem Heap.isClosed_set (h : Heap) {id : Nat} {slot slot1 : Chan} (hs : h[id]? = some slot)
    (hc : slot1.closed = slot.closed) (ch : Nat) :
    Heap.isClosed (h.set id slot1) ch = h.isClosed ch := by
  unfold Heap.isClosed
  have hlt : id < h.length := by
    by_contra hge
    rw [List.getElem?_eq_none (by omega)] at hs
    cases hs
  by_cases he : id = ch
  · subst he
    simp only [List.getElem?_set, hlt, if_true, hs]
    exact hc
  · simp only [List.getElem?_set, he, if_false]

theorem Heap.isClosed_afterRecv (h : Heap) {id : Nat} {slot : Chan} (hs : h[id]? = some slot)
    (ch : Nat) : Heap.isClosed (h.set id slot.afterRecv) ch = h.isClosed ch := by
  have hc : slot.afterRecv.closed = slot.closed := rfl
  exact Heap.isClosed_set h hs hc ch

theorem Heap.isClosed_close_ne (h : Heap) {id ch : Nat} (hne : ch ≠ id) :
    (h.close id).1.isClosed ch = h.isClosed ch := by
  unfold Heap.isClosed
  rw [Heap.close_getElem?_ne h hne]

theorem Heap.isClosed_closeAll_not_mem (h : Heap) (ids : List Nat) {ch : Nat} (hn : ch ∉ ids) :
    (h.closeAll ids).1.isClosed ch = h.isClosed ch := by
  obtain ⟨hlen, hall⟩ := Heap.closeAll_spec ids h
  unfold Heap.isClosed
  cases hg : h[ch]? with
  | none =>
    have : (h.closeAll ids).1[ch]? = none := by
      rw [List.getElem?_eq_none_iff] at hg ⊢
      omega
    rw [this]
  | some c =>
    obtain ⟨c1, h1, _, _, h4⟩ := hall ch c hg
    rw [h1, h4 hn]

namespace SlotStep

variable {r r1 : Registry} {h h1 : Heap}

/-- A step that closes nothing and binds a key. -/
theorem of_put (k : Int) (v : Nat) (hr : r1 = r.put k v)
    (hh : ∀ ch, h1.isClosed ch = h.isClosed ch) : SlotStep r h r1 h1 := by
  intro hn _
  subst hr
  refine ⟨Registry.put_keysNodup hn k v, ?_⟩
  intro ch h0 h2
  rw [hh ch, h0] at h2
  cases h2

/-- The cleanup `if ch, ok := m[k]; ok { delete(m, k); close(ch) }`. -/
theorem of_del_close {k : Int} {v : Nat} (hg : r.get k = some v) (hr : r1 = r.del k)
    (hh : h1 = (h.close v).1) : SlotStep r h r1 h1 := by
  intro hn hinj
  subst hr hh
  refine ⟨Registry.del_keysNodup hn k, ?_⟩
  intro ch h0 h2
  have hcv : ch = v := by
    by_contra hne
    rw [Heap.isClosed_close_ne h hne, h0] at h2
    cases h2
  subst hcv
  refine ⟨⟨k, hg⟩, ?_⟩
  intro k1 hk1
  obtain ⟨hne, hg1⟩ := Registry.get_del_some r hk1
  exact hne (hinj k1 k ch hg1 hg)

/-- The loop of `Close`: every entry is deleted and its channel closed. -/
theorem of_closeAll (hr : r1 = []) (hh : h1 = (h.closeAll (r.map Prod.snd)).1) :
    SlotStep r h r1 h1 := by
  intro hn _
  subst hr hh
  refine ⟨List.nodup_nil, ?_⟩
  intro ch h0 h2
  have hm : ch ∈ r.map Prod.snd := by
    by_contra hnm
    rw [Heap.isClosed_closeAll_not_mem h _ hnm, h0] at h2
    cases h2
  refine ⟨Registry.get_of_mem_snd hn hm, ?_⟩
  intro k hk
  cases hk

end SlotStep

namespace SlotQuiet

variable {r r1 r2 : Registry} {h h1 h2 : Heap}

theorem unchanged (r : Registry) (h : Heap) : SlotQuiet r h r h :=
  ⟨List.Sublist.refl _, fun _ => rfl⟩

theorem quiet_of_eq (hr : r1 = r) (hh : h1 = h) : SlotQuiet r h r1 h1 := by
  subst hr hh
  exact unchanged _ _

theorem quiet_of_del (k : Int) (hh : ∀ ch, h1.isClosed ch = h.isClosed ch) :
    SlotQuiet r h (r.del k) h1 :=
  ⟨List.Sublist.map _ (List.filter_sublist _), hh⟩

theorem then_quiet (a : SlotQuiet r h r1 h1) (b : SlotQuiet r1 h1 r2 h2) :
    SlotQuiet r h r2 h2 :=
  ⟨b.1.trans a.1, fun ch => (b.2 ch).trans (a.2 ch)⟩

theorem slotStep (a : SlotQuiet r h r1 h1) : SlotStep r h r1 h1 := by
  intro hn _
  refine ⟨List.Nodup.sublist a.1 hn, ?_⟩
  intro ch h0 h3
  rw [a.2 ch, h0] at h3
  cases h3

end SlotQuiet

theorem registries_quiet {c c1 : MaxClient} (h : c1.registries = c.registries) :
    SlotQuiet c.pending c.respSlots c1.pending c1.respSlots ∧
    SlotQuiet c.fileUploadWaiters c.waitSlots c1.fileUploadWaiters c1.waitSlots := by
  simp only [MaxClient.registries, Prod.mk.injEq] at h
  exact ⟨SlotQuiet.quiet_of_eq h.2.1 h.2.2.1, SlotQuiet.quiet_of_eq h.2.2.2.1 h.2.2.2.2⟩

theorem uploadPart_quiet {c c1 : MaxClient} (h : c1.uploadPart = c.uploadPart) :
    SlotQuiet c.fileUploadWaiters c.waitSlots c1.fileUploadWaiters c1.waitSlots := by
  simp only [MaxClient.uploadPart, Prod.mk.injEq] at h
  exact SlotQuiet.quiet_of_eq h.1 h.2

theorem pendingPart_quiet {c c1 : MaxClient} (h : c1.pendingPart = c.pendingPart) :
    SlotQuiet c.pending c.respSlots c1.pending c1.respSlots := by
  obtain ⟨_, h2, h3⟩ := pendingPart_fields h
  exact SlotQuiet.quiet_of_eq h2 h3

theorem dropPending_slotStep (c : MaxClient) (q : Int) :
    SlotStep c.pending c.respSlots (dropPending c q).pending (dropPending c q).respSlots := by
  unfold dropPending
  cases hg : c.pending.get q with
  | none => exact (SlotQuiet.unchanged _ _).slotStep
  | some ch => exact SlotStep.of_del_close hg rfl rfl

theorem giveUp_slotStep (c : MaxClient) (kind : CallKind) (q : Int) :
    SlotStep c.pending c.respSlots (giveUp c kind q).pending (giveUp c kind q).respSlots := by
  cases kind with
  | sendAndWait => exact (SlotQuiet.quiet_of_del q (fun _ => rfl)).slotStep
  | sendAndWaitResponse => exact dropPending_slotStep c q

theorem dropWaiter_slotStep (c : MaxClient) (id : Int) :
    SlotStep c.fileUploadWaiters c.waitSlots (dropWaiter c id).fileUploadWaiters
      (dropWaiter c id).waitSlots := by
  unfold dropWaiter
  cases hg : c.fileUploadWaiters.get id with
  | none => exact (SlotQuiet.unchanged _ _).slotStep
  | some ch => exact SlotStep.of_del_close hg rfl rfl

theorem resolveWaiter_quiet (c : MaxClient) (id : Int) (msg : Frame) :
    SlotQuiet c.fileUploadWaiters c.waitSlots (resolveWaiter c id msg).fileUploadWaiters
      (resolveWaiter c id msg).waitSlots := by
  unfold resolveWaiter
  split
  · cases hg : c.fileUploadWaiters.get id with
    | none => exact SlotQuiet.unchanged _ _
    | some ch => exact SlotQuiet.quiet_of_del id (fun j => Heap.isClosed_trySend _ _ _ j)
  · exact SlotQuiet.unchanged _ _

theorem handleFileUploadNotification_quiet (c : MaxClient) (msg : Frame) :
    SlotQuiet c.fileUploadWaiters c.waitSlots (handleFileUploadNotification c msg).fileUploadWaiters
      (handleFileUploadNotification c msg).waitSlots := by
  unfold handleFileUploadNotification
  exact (resolveWaiter_quiet c _ msg).then_quiet (resolveWaiter_quiet _ _ msg)

theorem routeNotification_quiet (c : MaxClient) (opcode : Int) (msg : Frame) :
    SlotQuiet c.fileUploadWaiters c.waitSlots (routeNotification c opcode msg).fileUploadWaiters
      (routeNotification c opcode msg).waitSlots := by
  unfold routeNotification
  simp only
  have e1 : SlotQuiet c.fileUploadWaiters c.waitSlots
      (if opcode = OpcodeNotifAttach then handleFileUploadNotification c msg
        else c).fileUploadWaiters
      (if opcode = OpcodeNotifAttach then handleFileUploadNotification c msg
        else c).waitSlots := by
    split
    · exact handleFileUploadNotification_quiet c msg
    · exact SlotQuiet.unchanged _ _
  have e2 : ∀ c0 : MaxClient, SlotQuiet c0.fileUploadWaiters c0.waitSlots
      (if opcode = OpcodeNotifMessage then handleMessageNotification c0 msg
        else c0).fileUploadWaiters
      (if opcode = OpcodeNotifMessage then handleMessageNotification c0 msg
        else c0).waitSlots := by
    intro c0; split
    · exact (registries_quiet (handleMessageNotification_registries c0 msg)).2
    · exact SlotQuiet.unchanged _ _
  have e3 : ∀ c0 : MaxClient, SlotQuiet c0.fileUploadWaiters c0.waitSlots
      (if opcode = OpcodeNotifMsgReactionsChanged then handleReactionChange c0 msg
        else c0).fileUploadWaiters
      (if opcode = OpcodeNotifMsgReactionsChanged then handleReactionChange c0 msg
        else c0).waitSlots := by
    intro c0; split
    · exact (registries_quiet (handleReactionChange_registries c0 msg)).2
    · exact SlotQuiet.unchanged _ _
  have e4 : ∀ c0 : MaxClient, SlotQuiet c0.fileUploadWaiters c0.waitSlots
      (if opcode = OpcodeNotifChat then handleChatUpdate c0 msg else c0).fileUploadWaiters
      (if opcode = OpcodeNotifChat then handleChatUpdate c0 msg else c0).waitSlots := by
    intro c0; split
    · exact (registries_quiet (handleChatUpdate_registries c0 msg)).2
    · exact SlotQuiet.unchanged _ _
  exact ((e1.then_quiet (e2 _)).then_quiet (e3 _)).then_quiet (e4 _)

theorem recvFrame_quiet (c : MaxClient) (msg : Frame) :
    SlotQuiet c.pending c.respSlots (recvFrame c msg).1.pending (recvFrame c msg).1.respSlots ∧
    SlotQuiet c.fileUploadWaiters c.waitSlots (recvFrame c msg).1.fileUploadWaiters
      (recvFrame c msg).1.waitSlots := by
  obtain ⟨hp, hu⟩ := registries_quiet
    (syncPrefix_registries c msg (asFloatOrZero (lookupKey msg "opcode")))
  have hnotif : ∀ c1 : MaxClient,
      SlotQuiet c1.pending c1.respSlots
        (routeNotification c1 (asFloatOrZero (lookupKey msg "opcode")) msg).pending
        (routeNotification c1 (asFloatOrZero (lookupKey msg "opcode")) msg).respSlots :=
    fun c1 => pendingPart_quiet (routeNotification_pendingPart c1 _ msg)
  unfold recvFrame
  simp only
  split
  · split
    · exact ⟨hp.then_quiet (SlotQuiet.quiet_of_del _ (fun _ => rfl)), hu⟩
    · exact ⟨hp.then_quiet (hnotif _), hu.then_quiet (routeNotification_quiet _ _ msg)⟩
  · exact ⟨hp.then_quiet (hnotif _), hu.then_quiet (routeNotification_quiet _ _ msg)⟩

theorem stepCall_slotStep {s s1 : Sys} {i : Nat} {a : Action}
    (hs : stepCall s i a = some s1) :
    SlotStep s.c.pending s.c.respSlots s1.c.pending s1.c.respSlots ∧
    SlotStep s.c.fileUploadWaiters s.c.waitSlots s1.c.fileUploadWaiters s1.c.waitSlots := by
  have hq := fun (c1 : MaxClient) (h : c1.uploadPart = s.c.uploadPart) =>
    (uploadPart_quiet h).slotStep
  unfold stepCall at hs
  split at hs
  · have e1 := (Option.some.inj hs).symm
    subst e1
    exact ⟨(SlotQuiet.unchanged _ _).slotStep, (SlotQuiet.unchanged _ _).slotStep⟩
  · have e1 := (Option.some.inj hs).symm
    subst e1
    exact ⟨SlotStep.of_put _ _ rfl (fun ch => Heap.isClosed_append_fresh _ ch),
      (SlotQuiet.unchanged _ _).slotStep⟩
  · split at hs
    · have e1 := (Option.some.inj hs).symm
      subst e1
      exact ⟨(SlotQuiet.unchanged _ _).slotStep, (SlotQuiet.unchanged _ _).slotStep⟩
    · cases hs
  · have e1 := (Option.some.inj hs).symm
    subst e1
    exact ⟨giveUp_slotStep _ _ _, hq _ (giveUp_uploadPart _ _ _)⟩
  · split at hs
    · rename_i slot hslot
      split at hs
      · split at hs
        · have e1 := (Option.some.inj hs).symm
          subst e1
          exact ⟨SlotQuiet.slotStep
            ⟨List.Sublist.refl _, fun ch => Heap.isClosed_afterRecv _ hslot ch⟩,
            (SlotQuiet.unchanged _ _).slotStep⟩
        · have e1 := (Option.some.inj hs).symm
          subst e1
          exact ⟨(SlotQuiet.quiet_of_del _ (fun ch => Heap.isClosed_afterRecv _ hslot ch)).slotStep,
            (SlotQuiet.unchanged _ _).slotStep⟩
      · cases hs
    · cases hs
  · have e1 := (Option.some.inj hs).symm
    subst e1
    exact ⟨giveUp_slotStep _ _ _, hq _ (giveUp_uploadPart _ _ _)⟩
  · split at hs
    · have e1 := (Option.some.inj hs).symm
      subst e1
      exact ⟨dropPending_slotStep _ _,
        hq _ (giveUp_uploadPart _ CallKind.sendAndWaitResponse _)⟩
    · cases hs
  · cases hs

theorem stepUpload_slotStep {s s1 : Sys} {j : Nat} {a : Action}
    (hs : stepUpload s j a = some s1) :
    SlotStep s.c.pending s.c.respSlots s1.c.pending s1.c.respSlots ∧
    SlotStep s.c.fileUploadWaiters s.c.waitSlots s1.c.fileUploadWaiters s1.c.waitSlots := by
  unfold stepUpload at hs
  split at hs
  · have e1 := (Option.some.inj hs).symm
    subst e1
    exact ⟨(SlotQuiet.unchanged _ _).slotStep,
      SlotStep.of_put _ _ rfl (fun ch => Heap.isClosed_append_fresh _ ch)⟩
  · split at hs
    · rename_i slot hslot
      split at hs
      · have e1 := (Option.some.inj hs).symm
        subst e1
        exact ⟨(SlotQuiet.unchanged _ _).slotStep,
          SlotQuiet.slotStep ⟨List.Sublist.refl _, fun ch => Heap.isClosed_afterRecv _ hslot ch⟩⟩
      · cases hs
    · cases hs
  · have e1 := (Option.some.inj hs).symm
    subst e1
    exact ⟨(pendingPart_quiet (dropWaiter_pendingPart _ _)).slotStep, dropWaiter_slotStep _ _⟩
  · have e1 := (Option.some.inj hs).symm
    subst e1
    exact ⟨(pendingPart_quiet (dropWaiter_pendingPart _ _)).slotStep, dropWaiter_slotStep _ _⟩
  · cases hs

theorem stepBackground_slotStep {s s1 : Sys} {a : Action}
    (hs : stepBackground s a = some s1) :
    SlotStep s.c.pending s.c.respSlots s1.c.pending s1.c.respSlots ∧
    SlotStep s.c.fileUploadWaiters s.c.waitSlots s1.c.fileUploadWaiters s1.c.waitSlots := by
  have hsame : SlotStep s.c.pending s.c.respSlots s.c.pending s.c.respSlots ∧
      SlotStep s.c.fileUploadWaiters s.c.waitSlots s.c.fileUploadWaiters s.c.waitSlots :=
    ⟨(SlotQuiet.unchanged _ _).slotStep, (SlotQuiet.unchanged _ _).slotStep⟩
  unfold stepBackground at hs
  split at hs
  · have e1 := (Option.some.inj hs).symm
    subst e1
    exact ⟨(recvFrame_quiet _ _).1.slotStep, (recvFrame_quiet _ _).2.slotStep⟩
  · have e1 := (Option.some.inj hs).symm
    subst e1
    exact ⟨SlotQuiet.slotStep ⟨List.Sublist.refl _, fun j => Heap.isClosed_trySend _ _ _ j⟩,
      (SlotQuiet.unchanged _ _).slotStep⟩
  · split at hs
    · have e1 := (Option.some.inj hs).symm
      subst e1
      exact hsame
    · cases hs
  · obtain ⟨h1, h2, _, _⟩ := readerLeave_spec hs
    exact ⟨(pendingPart_quiet h1).slotStep, (uploadPart_quiet h2).slotStep⟩
  · have e1 := (Option.some.inj hs).symm
    subst e1
    exact hsame
  · split at hs
    · split at hs
      · split at hs
        · have e1 := (Option.some.inj hs).symm
          subst e1
          exact hsame
        · have e1 := (Option.some.inj hs).symm
          subst e1
          exact hsame
      · cases hs
    · cases hs
  · split at hs
    · have e1 := (Option.some.inj hs).symm
      subst e1
      exact hsame
    · cases hs
  · split at hs
    · have e1 := (Option.some.inj hs).symm
      subst e1
      exact hsame
    · cases hs
  · split at hs
    · have e1 := (Option.some.inj hs).symm
      subst e1
      exact ⟨SlotStep.of_closeAll rfl rfl, (SlotQuiet.unchanged _ _).slotStep⟩
    · cases hs
  · split at hs
    · have e1 := (Option.some.inj hs).symm
      subst e1
      exact ⟨(SlotQuiet.unchanged _ _).slotStep, SlotStep.of_closeAll rfl rfl⟩
    · cases hs
  · cases hs

/-- Every step keeps the keys of both registries pairwise different and closes a slot
only together with its removal from its registry. -/
theorem step_slotStep {s s1 : Sys} {a : Action} (hs : step a s = some s1) :
    SlotStep s.c.pending s.c.respSlots s1.c.pending s1.c.respSlots ∧
    SlotStep s.c.fileUploadWaiters s.c.waitSlots s1.c.fileUploadWaiters s1.c.waitSlots := by
  unfold step at hs
  split at hs
  · cases hs
  · cases a <;> first
      | exact stepCall_slotStep hs
      | exact stepUpload_slotStep hs
      | exact stepBackground_slotStep hs

theorem PendInv.pending_slotsInj {n : Nat} {s : Sys} (h : PendInv n s) : s.c.pending.slotsInj :=
  fun _ _ _ h1 h2 => h.key_inj h1 h2

theorem UpInv.waiters_slotsInj {c : MaxClient} (h : UpInv c) : c.fileUploadWaiters.slotsInj :=
  fun k k1 ch h1 h2 => h.inj k k1 ch h1 h2

/-- In every state the system reaches, the keys of both registries are pairwise
different. -/
theorem run_keysNodup (acts : List Action) {n : Nat} {s s1 : Sys} (hp : PendInv n s)
    (hu : UpInv s.c) (hn : (n : Int) + acts.length < 2 ^ 63)
    (hk : s.c.pending.keysNodup ∧ s.c.fileUploadWaiters.keysNodup)
    (hs : run s acts = some s1) :
    s1.c.pending.keysNodup ∧ s1.c.fileUploadWaiters.keysNodup := by
  induction acts generalizing n s with
  | nil =>
    have e1 := (Option.some.inj hs).symm
    subst e1
    exact hk
  | cons a rest ih =>
    simp only [run] at hs
    cases hstep : step a s with
    | none => rw [hstep] at hs; cases hs
    | some s2 =>
      rw [hstep] at hs
      have hlen : (n : Int) + 1 < 2 ^ 63 := by
        simp only [List.length_cons] at hn
        push_cast at hn
        omega
      obtain ⟨q1, q2⟩ := step_slotStep hstep
      refine ih (step_pendInv hp hlen hstep) (step_upInv hu hstep) ?_
        ⟨(q1 hk.1 hp.pending_slotsInj).1, (q2 hk.2 hu.waiters_slotsInj).1⟩ hs
      simp only [List.length_cons] at hn
      push_cast at hn ⊢
      omega

theorem init_keysNodup (cfg : Setup) :
    (Sys.init cfg).c.pending.keysNodup ∧ (Sys.init cfg).c.fileUploadWaiters.keysNodup :=
  ⟨List.nodup_nil, List.nodup_nil⟩

/-- C28. Registry invariant, in every state the system reaches (by a schedule of fewer
than 2^63 steps, the range of the sequence counter): every result slot stored in the
pending registry or in the upload-waiter registry is open and empty; a step closes a
slot only if the slot was stored in its registry before the step and is stored under no
key after it; hence the send of `recvLoop` to the slot it took from the registry, and the
sends of `handleFileUploadNotification` to the slots it finds, succeed: they are neither
dropped nor made to a closed slot. -/
theorem registry_slots_open_until_removed (cfg : Setup) (acts : List Action) (s : Sys)
    (hrun : run (Sys.init cfg) acts = some s) (hlen : acts.length < 2 ^ 63) :
    (∀ q ch, s.c.pending.get q = some ch → s.c.respSlots[ch]? = some Chan.fresh) ∧
    (∀ k ch, s.c.fileUploadWaiters.get k = some ch → s.c.waitSlots[ch]? = some Chan.fresh) ∧
    (∀ a s1, step a s = some s1 →
      (∀ ch, s.c.respSlots.isClosed ch = false → s1.c.respSlots.isClosed ch = true →
        (∃ q, s.c.pending.get q = some ch) ∧ ∀ q, s1.c.pending.get q ≠ some ch) ∧
      (∀ ch, s.c.waitSlots.isClosed ch = false → s1.c.waitSlots.isClosed ch = true →
        (∃ k, s.c.fileUploadWaiters.get k = some ch) ∧
          ∀ k, s1.c.fileUploadWaiters.get k ≠ some ch)) ∧
    (∀ ch msg, s.reader = Reader.delivering ch msg →
      (s.c.respSlots.trySend ch msg).2 = ChanOp.done) ∧
    (∀ id ch msg, s.c.fileUploadWaiters.get id = some ch →
      (s.c.waitSlots.trySend ch msg).2 = ChanOp.done) ∧
    (∀ id1 id2 ch msg, (resolveWaiter s.c id1 msg).fileUploadWaiters.get id2 = some ch →
      ((resolveWaiter s.c id1 msg).waitSlots.trySend ch msg).2 = ChanOp.done) := by
  have hp := reachable_pendInv hrun hlen
  have hu : UpInv s.c := run_upInv acts (init_upInv cfg) hrun
  have hk := run_keysNodup acts (init_pendInv cfg) (init_upInv cfg)
    (by
      have : ((acts.length : Nat) : Int) < ((2 ^ 63 : Nat) : Int) := by exact_mod_cast hlen
      simpa using this)
    (init_keysNodup cfg) hrun
  refine ⟨hp.slot_fresh, hu.slot_fresh, ?_, ?_, ?_, ?_⟩
  · intro a s1 hstep
    obtain ⟨q1, q2⟩ := step_slotStep hstep
    exact ⟨(q1 hk.1 hp.pending_slotsInj).2, (q2 hk.2 hu.waiters_slotsInj).2⟩
  · intro ch msg hr
    exact (Heap.trySend_at_fresh _ msg (hp.reader_slot ch msg hr).1).2
  · intro id ch msg hg
    exact (Heap.trySend_at_fresh _ msg (hu.slot_fresh id ch hg)).2
  · intro id1 id2 ch msg hg
    exact (Heap.trySend_at_fresh _ msg ((hu.after_resolveWaiter id1 msg).slot_fresh id2 ch hg)).2

/-- C28 (witness). The login call of `demoSetup` waits under `seq` 1 with slot 0; the
reader has taken its response from the registry, and its send to slot 0 succeeds. -/
theorem registry_slots_open_until_removed_witness :
    ((demoState [Action.callNextSeq 0, Action.callRegister 0, Action.callEnqueue 0,
      Action.readerFrame loginResponseFrame]).c.respSlots.trySend 0 loginResponseFrame).2 =
      ChanOp.done :=
  (registry_slots_open_until_removed demoSetup
    [Action.callNextSeq 0, Action.callRegister 0, Action.callEnqueue 0,
      Action.readerFrame loginResponseFrame] _ rfl (by decide)).2.2.2.1 0 loginResponseFrame rfl

/-! ## Reconnection: the guard -/

theorem ReconnectSys.setPc_pcs (s : ReconnectSys) (i : Nat) (pc : ReconnectPc) (j : Nat) :
    (s.setPc i pc).pcs j = if j = i then pc else s.pcs j := by
  unfold ReconnectSys.setPc
  by_cases h : j = i
  · subst h; simp
  · simp [h, Function.update_noteq h]

theorem ReconnectInv.of_same_active {s s1 : ReconnectSys}
    (hinv : ReconnectInv s) (hflag : s1.reconnecting = s.reconnecting)
    (hact : ∀ j, (s1.pcs j).active = (s.pcs j).active) : ReconnectInv s1 := by
  refine ⟨?_, ?_⟩
  · intro i j hi hj
    rw [hact] at hi hj
    exact hinv.excl i j hi hj
  · rw [hflag, hinv.flag]
    constructor
    · rintro ⟨i, hi⟩; exact ⟨i, by rw [hact]; exact hi⟩
    · rintro ⟨i, hi⟩; exact ⟨i, by rw [← hact]; exact hi⟩

theorem reconnectStep_inv {cfg : ClientConfig} {envs : Nat → ReconnectEnv}
    {a : ReconnectAction} {s s1 : ReconnectSys}
    (hinv : ReconnectInv s) (h : reconnectStep cfg envs a s = some s1) : ReconnectInv s1 := by
  cases a with
  | enter k =>
    unfold reconnectStep at h
    cases hpc : s.pcs k <;> simp only [hpc] at h <;> try contradiction
    by_cases hf : s.reconnecting = true
    · rw [if_pos hf] at h
      cases h
      refine ReconnectInv.of_same_active hinv rfl ?_
      intro j
      rw [ReconnectSys.setPc_pcs]
      by_cases hj : j = k
      · subst hj; simp [hpc, ReconnectPc.active]
      · simp [hj]
    · rw [if_neg hf] at h
      cases h
      have hnone : ∀ i, (s.pcs i).active = false := by
        intro i
        cases hi : (s.pcs i).active
        · rfl
        · exact absurd (hinv.flag.mpr ⟨i, hi⟩) hf
      have hact : ∀ j, (({ s with reconnecting := true }.setPc k ReconnectPc.running).pcs j).active
          = true → j = k := by
        intro j hj
        rw [ReconnectSys.setPc_pcs] at hj
        by_cases hjk : j = k
        · exact hjk
        · rw [if_neg hjk] at hj
          have := hnone j
          simp only [] at hj
          rw [this] at hj
          exact absurd hj (by simp)
      refine ⟨?_, ?_⟩
      · intro i j hi hj
        rw [hact i hi, hact j hj]
      · constructor
        · intro _
          refine ⟨k, ?_⟩
          rw [ReconnectSys.setPc_pcs]
          simp [ReconnectPc.active]
        · intro _
          rfl
  | body k =>
    unfold reconnectStep at h
    cases hpc : s.pcs k <;> simp only [hpc] at h <;> try contradiction
    cases h
    refine ReconnectInv.of_same_active hinv rfl ?_
    intro j
    rw [ReconnectSys.setPc_pcs]
    by_cases hj : j = k
    · subst hj; simp [hpc, ReconnectPc.active]
    · simp [hj]
  | leave k =>
    unfold reconnectStep at h
    cases hpc : s.pcs k <;> simp only [hpc] at h <;> try contradiction
    cases h
    rename_i err
    have hk : (s.pcs k).active = true := by rw [hpc]; rfl
    have hnone : ∀ j, (({ s with reconnecting := false }.setPc k
        (ReconnectPc.returned err)).pcs j).active = false := by
      intro j
      rw [ReconnectSys.setPc_pcs]
      by_cases hjk : j = k
      · rw [if_pos hjk]; rfl
      · rw [if_neg hjk]
        cases hj : (s.pcs j).active
        · rfl
        · exact absurd (hinv.excl j k hj hk) hjk
    refine ⟨?_, ?_⟩
    · intro i j hi _
      rw [hnone i] at hi
      exact absurd hi (by simp)
    · constructor
      · intro hf
        exact absurd hf (by simp [ReconnectSys.setPc])
      · rintro ⟨i, hi⟩
        rw [hnone i] at hi
        exact absurd hi (by simp)

theorem reconnectInit_inv (conn : Conn) : ReconnectInv (ReconnectSys.init conn) := by
  refine ⟨?_, ?_⟩
  · intro i j hi _
    exact absurd hi (by simp [ReconnectSys.init, ReconnectPc.active])
  · constructor
    · intro h
      exact absurd h (by simp [ReconnectSys.init])
    · rintro ⟨i, hi⟩
      exact absurd hi (by simp [ReconnectSys.init, ReconnectPc.active])

theorem reconnectRun_inv {cfg : ClientConfig} {envs : Nat → ReconnectEnv}
    (acts : List ReconnectAction) {s s1 : ReconnectSys}
    (hinv : ReconnectInv s) (h : reconnectRun cfg envs s acts = some s1) : ReconnectInv s1 := by
  induction acts generalizing s with
  | nil =>
    simp only [reconnectRun, Option.some.injEq] at h
    exact h ▸ hinv
  | cons a rest ih =>
    simp only [reconnectRun] at h
    cases hs : reconnectStep cfg envs a s with
    | none => rw [hs] at h; exact absurd h (by simp)
    | some s2 =>
      rw [hs] at h
      exact ih (reconnectStep_inv hinv hs) h

/-- C24: in every state the calls of `reconnect` can reach, at most one call is inside
the reconnection sequence and the flag `reconnecting` is set exactly then; a call that
arrives while the flag is set returns "reconnection already in progress" at once and
leaves the connection, the closed connections, the dial count and the frames sent as they
were; a call inside the sequence reaches its return statement whatever the dial, the
handshake, the authentication and the sync do, and the deferred function then clears the
flag; once no call is inside, the next call passes the guard. -/
theorem reconnect_single_flight (cfg : ClientConfig) (envs : Nat → ReconnectEnv) (conn : Conn)
    (acts : List ReconnectAction) (s : ReconnectSys)
    (hrun : reconnectRun cfg envs (ReconnectSys.init conn) acts = some s) :
    (∀ i j, (s.pcs i).active = true → (s.pcs j).active = true → i = j) ∧
    (s.reconnecting = true ↔ ∃ i, (s.pcs i).active = true) ∧
    (∀ i, s.reconnecting = true → s.pcs i = ReconnectPc.notCalled →
      ∃ s1, reconnectStep cfg envs (ReconnectAction.enter i) s = some s1 ∧
        s1.pcs i = ReconnectPc.returned (some ReconnectErr.alreadyInProgress) ∧
        s1.conn = s.conn ∧ s1.reconnecting = true ∧ ∀ j, j ≠ i → s1.pcs j = s.pcs j) ∧
    (∀ i, s.pcs i = ReconnectPc.running →
      ∃ s1, reconnectStep cfg envs (ReconnectAction.body i) s = some s1 ∧
        s1.pcs i = ReconnectPc.returning (reconnectBody cfg (envs i) s.conn).2 ∧
        s1.conn = (reconnectBody cfg (envs i) s.conn).1) ∧
    (∀ i err, s.pcs i = ReconnectPc.returning err →
      ∃ s1, reconnectStep cfg envs (ReconnectAction.leave i) s = some s1 ∧
        s1.pcs i = ReconnectPc.returned err ∧ s1.reconnecting = false ∧
        ∀ j, (s1.pcs j).active = false) ∧
    (∀ i, (∀ j, (s.pcs j).active = false) → s.pcs i = ReconnectPc.notCalled →
      ∃ s1, reconnectStep cfg envs (ReconnectAction.enter i) s = some s1 ∧
        s1.pcs i = ReconnectPc.running ∧ s1.reconnecting = true ∧ s1.conn = s.conn) := by
  have hinv := reconnectRun_inv acts (reconnectInit_inv conn) hrun
  refine ⟨hinv.excl, hinv.flag, ?_, ?_, ?_, ?_⟩
  · intro i hf hpc
    refine ⟨s.setPc i (ReconnectPc.returned (some ReconnectErr.alreadyInProgress)), ?_, ?_, rfl,
      hf, ?_⟩
    · simp only [reconnectStep, hpc]
      rw [if_pos hf]
    · rw [ReconnectSys.setPc_pcs]; simp
    · intro j hj
      rw [ReconnectSys.setPc_pcs, if_neg hj]
  · intro i hpc
    refine ⟨{ s with conn := (reconnectBody cfg (envs i) s.conn).1 }.setPc i
      (ReconnectPc.returning (reconnectBody cfg (envs i) s.conn).2), ?_, ?_, rfl⟩
    · simp only [reconnectStep, hpc]
    · rw [ReconnectSys.setPc_pcs]; simp
  · intro i err hpc
    have hs : reconnectStep cfg envs (ReconnectAction.leave i) s
        = some ({ s with reconnecting := false }.setPc i (ReconnectPc.returned err)) := by
      simp only [reconnectStep, hpc]
    refine ⟨_, hs, ?_, rfl, ?_⟩
    · rw [ReconnectSys.setPc_pcs]; simp
    · intro j
      have hinv1 := reconnectStep_inv hinv hs
      cases hj : (({ s with reconnecting := false }.setPc i (ReconnectPc.returned err)).pcs j).active
      · rfl
      · exact absurd (hinv1.flag.mpr ⟨j, hj⟩) (by simp [ReconnectSys.setPc])
  · intro i hnone hpc
    have hf : ¬ s.reconnecting = true := by
      intro hf
      obtain ⟨j, hj⟩ := hinv.flag.mp hf
      rw [hnone j] at hj
      exact absurd hj (by simp)
    refine ⟨{ s with reconnecting := true }.setPc i ReconnectPc.running, ?_, ?_, rfl, rfl⟩
    · simp only [reconnectStep, hpc]
      rw [if_neg hf]
    · rw [ReconnectSys.setPc_pcs]; simp

/-- Witness for C24: while call 0 is inside the reconnection sequence, call 1 is turned
away and call 0 still clears the flag after its dial has failed. -/
theorem reconnect_single_flight_witness :
    reconnectRun loginConfig (fun _ => dialFailsEnv) (ReconnectSys.init connectedConn)
        [ReconnectAction.enter 0, ReconnectAction.enter 1, ReconnectAction.body 0]
      = some (reconnectDemo
          [ReconnectAction.enter 0, ReconnectAction.enter 1, ReconnectAction.body 0]) ∧
    (reconnectDemo
        [ReconnectAction.enter 0, ReconnectAction.enter 1, ReconnectAction.body 0]).pcs 1
      = ReconnectPc.returned (some ReconnectErr.alreadyInProgress) ∧
    (reconnectDemo
        [ReconnectAction.enter 0, ReconnectAction.enter 1, ReconnectAction.body 0]).conn.closed
      = [0] ∧
    ∃ s1, reconnectStep loginConfig (fun _ => dialFailsEnv) (ReconnectAction.leave 0)
        (reconnectDemo
          [ReconnectAction.enter 0, ReconnectAction.enter 1, ReconnectAction.body 0]) = some s1 ∧
      s1.pcs 0 = ReconnectPc.returned
        (some (ReconnectErr.dialFailed (GoError.other "connection refused"))) ∧
      s1.reconnecting = false ∧ ∀ j, (s1.pcs j).active = false :=
  ⟨rfl, by decide, by decide,
    (reconnect_single_flight loginConfig (fun _ => dialFailsEnv) connectedConn
      [ReconnectAction.enter 0, ReconnectAction.enter 1, ReconnectAction.body 0] _ rfl).2.2.2.2.1
      0 _ (by decide)⟩

/-! ## Markdown elements: the matches -/

theorem shortestInner_bounds (closing : List UInt8) (s : List UInt8) (k : Nat)
    (h : shortestInner closing s = some k) : 1 ≤ k ∧ k + closing.length ≤ s.length := by
  induction s generalizing k with
  | nil => simp [shortestInner] at h
  | cons b rest ih =>
    unfold shortestInner at h
    by_cases hb : b = newline
    · rw [if_pos hb] at h; exact absurd h (by simp)
    · rw [if_neg hb] at h
      by_cases hp : closing.isPrefixOf rest = true
      · rw [if_pos hp] at h
        have hk : k = 1 := by simpa using h.symm
        have hlen := (List.isPrefixOf_iff_prefix.mp hp).length_le
        subst hk
        simp only [List.length_cons]
        omega
      · rw [if_neg hp] at h
        cases hr : shortestInner closing rest with
        | none => rw [hr] at h; exact absurd h (by simp)
        | some k1 =>
          rw [hr] at h
          have hk : k = k1 + 1 := by simpa using h.symm
          have := ih k1 hr
          subst hk
          simp only [List.length_cons]
          omega

theorem matchBlock_bounds (marker : List UInt8) (s : List UInt8) (k : Nat)
    (h : matchBlock marker s = some k) :
    1 ≤ k ∧ marker.length + k + marker.length ≤ s.length ∧ marker <+: s := by
  unfold matchBlock at h
  by_cases hp : marker.isPrefixOf s = true
  · rw [if_pos hp] at h
    have hpre := List.isPrefixOf_iff_prefix.mp hp
    have := shortestInner_bounds marker _ k h
    have hlen := hpre.length_le
    simp only [List.length_drop] at this
    exact ⟨this.1, by omega, hpre⟩
  · rw [if_neg hp] at h; exact absurd h (by simp)

theorem head_of_marker {b : UInt8} {marker s : List UInt8} (h : (b :: marker) <+: s) :
    s[0]? = some b := by
  obtain ⟨t, rfl⟩ := h
  simp

theorem matchAtPos_spec (pos : Nat) (s : List UInt8) (m : Submatch)
    (h : matchAtPos pos s = some m) :
    m.start = pos ∧ s[0]? ≠ some newline ∧
    (∃ a b, m.Inner a b ∧ m.start ≤ a ∧ a < b ∧ b ≤ m.stop) ∧
    pos < m.stop ∧ m.stop ≤ pos + s.length := by
  unfold matchAtPos at h
  cases h1 : matchBlock [star, star] s with
  | some k =>
    rw [h1] at h
    have hb := matchBlock_bounds _ _ _ h1
    simp only [List.length_cons, List.length_nil] at hb
    have hm : m = _ := (Option.some.inj h).symm
    subst hm
    refine ⟨rfl, ?_, ⟨pos + 2, pos + 2 + k, Or.inl rfl, ?_, ?_, ?_⟩, ?_, ?_⟩
    · rw [head_of_marker hb.2.2]; decide
    all_goals first | omega | (simp only []; omega)
  | none =>
    rw [h1] at h
    simp only [] at h
    cases h2 : matchBlock [star] s with
    | some k =>
      rw [h2] at h
      have hb := matchBlock_bounds _ _ _ h2
      simp only [List.length_cons, List.length_nil] at hb
      have hm : m = _ := (Option.some.inj h).symm
      subst hm
      refine ⟨rfl, ?_, ⟨pos + 1, pos + 1 + k, Or.inr (Or.inl ⟨rfl, rfl⟩), ?_, ?_, ?_⟩, ?_, ?_⟩
      · rw [head_of_marker hb.2.2]; decide
      all_goals first | omega | (simp only []; omega)
    | none =>
      rw [h2] at h
      simp only [] at h
      cases h3 : matchBlock [underscore, underscore] s with
      | some k =>
        rw [h3] at h
        have hb := matchBlock_bounds _ _ _ h3
        simp only [List.length_cons, List.length_nil] at hb
        have hm : m = _ := (Option.some.inj h).symm
        subst hm
        refine ⟨rfl, ?_, ⟨pos + 2, pos + 2 + k, Or.inr (Or.inr (Or.inl ⟨rfl, rfl, rfl⟩)),
          ?_, ?_, ?_⟩, ?_, ?_⟩
        · rw [head_of_marker hb.2.2]; decide
        all_goals first | omega | (simp only []; omega)
      | none =>
        rw [h3] at h
        simp only [] at h
        cases h4 : matchBlock [tilde, tilde] s with
        | some k =>
          rw [h4] at h
          have hb := matchBlock_bounds _ _ _ h4
          simp only [List.length_cons, List.length_nil] at hb
          have hm : m = _ := (Option.some.inj h).symm
          subst hm
          refine ⟨rfl, ?_, ⟨pos + 2, pos + 2 + k,
            Or.inr (Or.inr (Or.inr ⟨rfl, rfl, rfl, rfl⟩)), ?_, ?_, ?_⟩, ?_, ?_⟩
          · rw [head_of_marker hb.2.2]; decide
          all_goals first | omega | (simp only []; omega)
        | none =>
          rw [h4] at h
          exact absurd h (by simp)

theorem MatchesFrom.mono_lo {text : List UInt8} {lo lo1 : Nat} {ms : List Submatch}
    (h : MatchesFrom text lo ms) (hle : lo1 ≤ lo) : MatchesFrom text lo1 ms := by
  cases ms with
  | nil => trivial
  | cons m rest =>
    obtain ⟨h1, h2⟩ := h
    exact ⟨Nat.le_trans hle h1, h2⟩

theorem findAllFrom_matches (s : List UInt8) :
    ∀ (pre : List UInt8) (skip : Nat),
      MatchesFrom (pre ++ s) (pre.length + skip) (findAllFrom pre.length skip s) := by
  induction s with
  | nil => intro pre skip; cases skip <;> trivial
  | cons b rest ih =>
    intro pre skip
    have happ : pre ++ b :: rest = (pre ++ [b]) ++ rest := by simp
    have hlen : (pre ++ [b]).length = pre.length + 1 := by simp
    cases skip with
    | succ k =>
      simp only [findAllFrom]
      have := ih (pre ++ [b]) k
      rw [hlen, ← happ] at this
      exact this.mono_lo (by omega)
    | zero =>
      simp only [findAllFrom]
      cases hm : matchAtPos pre.length (b :: rest) with
      | none =>
        simp only []
        have := ih (pre ++ [b]) 0
        rw [hlen, ← happ] at this
        exact this.mono_lo (by omega)
      | some m =>
        simp only []
        obtain ⟨hstart, hhead, hin, hlt, hstop⟩ := matchAtPos_spec _ _ _ hm
        have := ih (pre ++ [b]) (m.stop - pre.length - 1)
        rw [hlen, ← happ] at this
        refine ⟨by omega, ?_, hin, ?_, this.mono_lo (by omega)⟩
        · rw [hstart, List.getElem?_append_right (Nat.le_refl _)]
          simpa using hhead
        · simp only [List.length_append]
          exact hstop

theorem FindAllStringSubmatchIndex_matches (text : List UInt8) :
    MatchesFrom text 0 (FindAllStringSubmatchIndex text) :=
  findAllFrom_matches text [] 0

/-! ## Markdown elements: the loop -/

theorem byteSlice_some {text : List UInt8} {i j : Nat} (hij : i ≤ j) (hj : j ≤ text.length) :
    byteSlice text i j = some ((text.drop i).take (j - i)) ∧
    ((text.drop i).take (j - i)).length = j - i := by
  refine ⟨?_, ?_⟩
  · unfold byteSlice
    rw [if_pos ⟨hij, hj⟩]
  · simp only [List.length_take, List.length_drop]
    omega

theorem innerOf_of_inner {text : List UInt8} {m : Submatch} {a b : Nat}
    (h : m.Inner a b) (hab : a ≤ b) (hb : b ≤ text.length) :
    ∃ ty, innerOf text m = some ((text.drop a).take (b - a), ty) := by
  have hs := (byteSlice_some hab hb).1
  unfold innerOf
  rcases h with h | ⟨h1, h2⟩ | ⟨h1, h2, h3⟩ | ⟨h1, h2, h3, h4⟩
  · exact ⟨FormattingType.strong, by simp [h, hs]⟩
  · exact ⟨FormattingType.emphasized, by simp [h1, h2, hs]⟩
  · exact ⟨FormattingType.underline, by simp [h1, h2, h3, hs]⟩
  · exact ⟨FormattingType.strikethrough, by simp [h1, h2, h3, h4, hs]⟩

theorem addBetween_inv {text : List UInt8} {st : MarkdownState} (between : List UInt8)
    (hinv : MarkdownInv text st) :
    MarkdownInv text (addBetween st between) ∧ (addBetween st between).lastEnd = st.lastEnd := by
  unfold addBetween
  by_cases hb : between = []
  · rw [if_pos hb]; exact ⟨hinv, rfl⟩
  · rw [if_neg hb]
    refine ⟨⟨?_, hinv.ordered, ?_, hinv.lastEnd_le⟩, rfl⟩
    · simp [hinv.pos_eq]
    · intro e he
      have := hinv.inside e he
      exact ⟨this.1, Nat.le_trans this.2 (Nat.le_add_right _ _)⟩

theorem ElementsOrdered.append_one {elements : List Element} {e : Element}
    (h : ElementsOrdered elements)
    (hnew : ∀ a ∈ elements, 0 < a.Length ∧ a.From + a.Length ≤ e.From) :
    ElementsOrdered (elements ++ [e]) := by
  unfold ElementsOrdered at *
  rw [List.pairwise_append]
  refine ⟨h, List.pairwise_singleton _ _, ?_⟩
  intro a ha b hb
  rw [List.mem_singleton] at hb
  subst hb
  have := hnew a ha
  exact ⟨this.2, by omega⟩

theorem addElement_inv {text : List UInt8} {st : MarkdownState} (m : Submatch)
    (innerText : List UInt8) (fmtType : FormattingType)
    (hinv : MarkdownInv text st) (hstop : m.stop ≤ text.length) :
    MarkdownInv text (addElement text st m innerText fmtType) ∧
    LastEndAt text (addElement text st m innerText fmtType) m.stop := by
  unfold addElement
  by_cases hi : innerText = []
  · rw [if_pos hi]
    exact ⟨⟨hinv.pos_eq, hinv.ordered, hinv.inside, hstop⟩, Or.inl (Nat.le_refl _)⟩
  · rw [if_neg hi]
    have hpos : 0 < innerText.length := List.length_pos.mpr hi
    refine ⟨⟨?_, ?_, ?_, ?_⟩, ?_⟩
    · simp only [hinv.pos_eq]
      by_cases hn : hasNewline text m.stop = true
      · simp [hn]
      · simp [hn]
    · apply hinv.ordered.append_one
      intro a ha
      exact hinv.inside a ha
    · intro e he
      rw [List.mem_append, List.mem_singleton] at he
      rcases he with he | he
      · have := hinv.inside e he
        exact ⟨this.1, Nat.le_trans this.2 (Nat.le_add_right _ _)⟩
      · subst he
        by_cases hn : hasNewline text m.stop = true
        · simp [hn]
        · simp [hn]; exact hpos
    · by_cases hn : newlineAt text m.stop = true
      · simp only [hn, if_true]
        unfold newlineAt at hn
        simp only [Bool.and_eq_true, decide_eq_true_eq] at hn
        omega
      · simp only [hn]
        exact hstop
    · by_cases hn : newlineAt text m.stop = true
      · right
        simp only [hn, if_true, true_and]
        unfold newlineAt at hn
        simp only [Bool.and_eq_true, decide_eq_true_eq, beq_iff_eq] at hn
        exact hn.2
      · left
        simp only [hn]
        exact Nat.le_refl _

theorem lastEnd_le_start {text : List UInt8} {st : MarkdownState} {lo : Nat} {m : Submatch}
    (hat : LastEndAt text st lo) (hlo : lo ≤ m.start) (hnl : text[m.start]? ≠ some newline) :
    st.lastEnd ≤ m.start := by
  rcases hat with h | ⟨h1, h2⟩
  · omega
  · have : lo ≠ m.start := by
      intro heq
      rw [heq] at h2
      exact hnl h2
    omega

theorem markdownStep_inv {text : List UInt8} {st : MarkdownState} {lo : Nat} {m : Submatch}
    {ms : List Submatch} (hinv : MarkdownInv text st) (hat : LastEndAt text st lo)
    (hms : MatchesFrom text lo (m :: ms)) :
    ∃ st1, markdownStep text st m = some st1 ∧ MarkdownInv text st1 ∧
      LastEndAt text st1 m.stop := by
  obtain ⟨hlo, hnl, ⟨a, b, hin, hsa, hab, hbs⟩, hstop, _⟩ := hms
  have hle := lastEnd_le_start hat hlo hnl
  have hslice := (byteSlice_some hle (by omega : m.start ≤ text.length)).1
  obtain ⟨ty, hinner⟩ := @innerOf_of_inner text m a b hin (Nat.le_of_lt hab) (by omega)
  have hb := addBetween_inv ((text.drop st.lastEnd).take (m.start - st.lastEnd)) hinv
  have he := addElement_inv m ((text.drop a).take (b - a)) ty hb.1 hstop
  refine ⟨_, ?_, he.1, he.2⟩
  unfold markdownStep
  rw [hslice]
  simp only [hinner]

theorem markdownLoop_inv {text : List UInt8} (ms : List Submatch) :
    ∀ (st : MarkdownState) (lo : Nat), MarkdownInv text st → LastEndAt text st lo →
      MatchesFrom text lo ms →
      ∃ st1, markdownLoop text st ms = some st1 ∧ MarkdownInv text st1 := by
  induction ms with
  | nil =>
    intro st lo hinv _ _
    exact ⟨st, rfl, hinv⟩
  | cons m rest ih =>
    intro st lo hinv hat hms
    obtain ⟨st1, hstep, hinv1, hat1⟩ := markdownStep_inv hinv hat hms
    obtain ⟨st2, hloop, hinv2⟩ := ih st1 m.stop hinv1 hat1 hms.2.2.2.2
    refine ⟨st2, ?_, hinv2⟩
    simp only [markdownLoop, hstep]
    exact hloop

theorem finishMarkdown_inv {text : List UInt8} {st : MarkdownState}
    (hinv : MarkdownInv text st) :
    ∃ elements cleanText, finishMarkdown text st = some (elements, cleanText) ∧
      ElementsOrdered elements ∧
      ∀ e ∈ elements, 0 < e.Length ∧ e.From + e.Length ≤ cleanText.length := by
  have hslice := (byteSlice_some hinv.lastEnd_le (Nat.le_refl text.length)).1
  unfold finishMarkdown
  rw [hslice]
  refine ⟨_, _, rfl, hinv.ordered, ?_⟩
  intro e he
  have := hinv.inside e he
  refine ⟨this.1, Nat.le_trans this.2 ?_⟩
  rw [hinv.pos_eq]
  split
  · exact Nat.le_refl _
  · simp

/-- C29: for every text `GetElementsFromMarkdown` returns, so no slice or index of the
run is out of range; the elements it returns follow each other without overlap (each
`From` is at least the previous `From + Length`) in strictly increasing order of `From`,
each has a positive length, and each ends inside the clean text returned with them,
lengths counted in bytes. -/
theorem GetElementsFromMarkdown_elements_inside (text : List UInt8) :
    ∃ elements cleanText, GetElementsFromMarkdown text = some (elements, cleanText) ∧
      elements.Pairwise (fun a b => a.From + a.Length ≤ b.From ∧ a.From < b.From) ∧
      ∀ e ∈ elements, 0 < e.Length ∧ 0 ≤ e.From ∧ e.From + e.Length ≤ cleanText.length := by
  have hinit : MarkdownInv (trimNewlines text)
      { elements := [], cleanParts := [], currentPos := 0, lastEnd := 0 } :=
    ⟨rfl, List.Pairwise.nil, by intro e he; exact absurd he (List.not_mem_nil e),
      Nat.zero_le _⟩
  obtain ⟨st, hloop, hinv⟩ := markdownLoop_inv (FindAllStringSubmatchIndex (trimNewlines text))
    _ 0 hinit (Or.inl (Nat.le_refl _)) (FindAllStringSubmatchIndex_matches _)
  obtain ⟨elements, cleanText, hfin, hord, hins⟩ := finishMarkdown_inv hinv
  refine ⟨elements, cleanText, ?_, hord, ?_⟩
  · unfold GetElementsFromMarkdown
    rw [hloop]
    exact hfin
  · intro e he
    exact ⟨(hins e he).1, Nat.zero_le _, (hins e he).2⟩

/-- Four blocks on three lines: the elements and the clean text that
`GetElementsFromMarkdown` returns. -/
theorem GetElementsFromMarkdown_four_blocks :
    GetElementsFromMarkdown (bytesOf "\n**a**\n*b* c __d__\n~~e~~") =
      some ([{ FmtType := FormattingType.strong, From := 0, Length := 2 },
             { FmtType := FormattingType.emphasized, From := 2, Length := 1 },
             { FmtType := FormattingType.underline, From := 6, Length := 2 },
             { FmtType := FormattingType.strikethrough, From := 8, Length := 2 }],
            bytesOf "a\nb c d\ne\n") := by
  decide

/-! ## The JSON codec on frames: round trip -/

mutual
theorem JSON.reload_of_isDecoded : ∀ v : JSON, v.isDecoded = true → v.reload = v
  | JSON.null, _ => rfl
  | JSON.bool _, _ => rfl
  | JSON.num n, h => by
    simp only [JSON.isDecoded, decide_eq_true_eq] at h
    simp only [JSON.reload, h]
  | JSON.str _, _ => rfl
  | JSON.arr xs, h => by
    simp only [JSON.isDecoded] at h
    simp only [JSON.reload, reloadList_of_allDecoded xs h]
  | JSON.obj kvs, h => by
    simp only [JSON.isDecoded] at h
    simp only [JSON.reload, reloadPairs_of_pairsDecoded kvs h]
theorem reloadList_of_allDecoded : ∀ xs : List JSON, allDecoded xs = true → reloadList xs = xs
  | [], _ => rfl
  | x :: xs, h => by
    simp only [allDecoded, Bool.and_eq_true] at h
    simp only [reloadList, JSON.reload_of_isDecoded x h.1, reloadList_of_allDecoded xs h.2]
theorem reloadPairs_of_pairsDecoded :
    ∀ kvs : List (String × JSON), pairsDecoded kvs = true → reloadPairs kvs = kvs
  | [], _ => rfl
  | (k, v) :: rest, h => by
    simp only [pairsDecoded, Bool.and_eq_true] at h
    simp only [reloadPairs, JSON.reload_of_isDecoded v h.1, reloadPairs_of_pairsDecoded rest h.2]
end

theorem roundTrip_requestFrame (seq opcode : Int) (payload : GoMap) :
    roundTrip (requestFrame seq opcode payload) =
      [("ver", JSON.num ProtocolVersion), ("cmd", JSON.num ProtocolCommand),
       ("seq", JSON.num (float64OfInt seq)), ("opcode", JSON.num (float64OfInt opcode)),
       ("payload", match payload with
                   | some kvs => JSON.obj (reloadPairs kvs)
                   | none => JSON.null)] := by
  cases payload <;> rfl

/-- Beyond 2^53 the decoder rounds: the sequence number 2^53 + 1 is written exactly and
read back as the float64 2^53. -/
theorem roundTrip_rounds_large_seq (opcode : Int) (payload : GoMap) :
    asFloat (lookupKey (roundTrip (requestFrame (2 ^ 53 + 1) opcode payload)) "seq")
      = some (2 ^ 53) := by
  have hlog : Nat.log2 (2 ^ 53 + 1) = 53 := by
    rw [Nat.log2_eq_log_two]
    exact Nat.log_eq_of_pow_le_of_lt_pow (by norm_num) (by norm_num)
  have hf : float64OfInt (2 ^ 53 + 1) = 2 ^ 53 := by
    have habs : ((2 : Int) ^ 53 + 1).natAbs = 2 ^ 53 + 1 := by decide
    unfold float64OfInt
    rw [habs, if_neg (by omega)]
    simp only [hlog]
    norm_num
    decide
  rw [roundTrip_requestFrame, hf]
  simp [lookupKey, asFloat]

end Gomax
